import Mathlib

/-! ECEN2370 firmware core: sleep arbiter, event registry, I2C / LEUART engines, BLE ring
buffer.

A shallow embedding of the C sources

* `CC_UART_Lab 5/src/Source_Files/sleep_routines.c`
* `CC_UART_Lab 5/src/Source_Files/scheduler.c`
* `CC_UART_Lab 4/src/Source_Files/i2c.c`
* `CC_CourseProject/src/Source_Files/leuart.c`
* `CC_CourseProject/src/Source_Files/ble.c`
* `CC_UART_Lab 4/src/Source_Files/letimer.c` (`letimer_start`)

Conventions.

* Global C variables become fields of explicit state records that are passed in and out.
* `EFM_ASSERT` is fatal: a routine returns an `Outcome`, and a failed assertion ends the run
  in the state the assertion was evaluated in.
* `uint32_t` values are natural numbers reduced modulo `2 ^ 32` where the C code can wrap;
  `char` is the unsigned byte of the Cortex-M ABI (`0 .. 255`).
* Memory-mapped peripheral registers that are only written (`TXDATA`, `CMD`) are recorded as a
  chronological log of writes; register values that are read are inputs of the model.
-/

namespace ECEN2370

/-! # Part I: the embedding -/

/-! ## Outcomes of a routine -/

/-- Result of running a routine on a state of type `σ`.
`ok s`: the routine returned and left state `s`.
`assertFailed s`: an `EFM_ASSERT` failed with the state equal to `s`; execution stops there.
`spins s`: the routine busy-waits in state `s` on a flag that only an interrupt can change. -/
inductive Outcome (σ : Type) where
  | ok (s : σ)
  | assertFailed (s : σ)
  | spins (s : σ)
  deriving DecidableEq, Repr

/-- The state carried by an outcome. -/
def Outcome.state {σ : Type} : Outcome σ → σ
  | .ok s => s
  | .assertFailed s => s
  | .spins s => s

/-- True when the routine returned normally. -/
def Outcome.isOk {σ : Type} : Outcome σ → Bool
  | .ok _ => true
  | _ => false

/-- Sequencing: run `f` after a routine that returned; a halted run stays halted. -/
def Outcome.andThen {σ : Type} (o : Outcome σ) (f : σ → Outcome σ) : Outcome σ :=
  match o with
  | .ok s => f s
  | .assertFailed s => .assertFailed s
  | .spins s => .spins s

/-- Change the state type of an outcome. -/
def Outcome.map {σ τ : Type} (g : σ → τ) : Outcome σ → Outcome τ
  | .ok s => .ok (g s)
  | .assertFailed s => .assertFailed (g s)
  | .spins s => .spins (g s)

/-- Number of values of a `uint32_t`. -/
def U32 : Nat := 2 ^ 32

/-- Subtraction `x - y` of two `uint32_t` operands (`x, y < 2 ^ 32`): the difference modulo
`2 ^ 32`, i.e. `(x + 2 ^ 32 - y) % 2 ^ 32`, written by cases so that it also computes on
symbolic operands. -/
def u32_sub (x y : Nat) : Nat := if y ≤ x then x - y else U32 - (y - x)

/-! ## sleep_routines.c -/

/-- Modelled from the spec: `sleep_routines.h` is not among the sources. The depths are the
ordered sequence `D0 (shallowest) … Dn (deepest)`; `EM0` is the index of `D0`. -/
def EM0 : Nat := 0

/-- Modelled from the spec: index of depth `D1` (`sleep_routines.h` is not among the sources). -/
def EM1 : Nat := 1

/-- Modelled from the spec: index of depth `D2` (`sleep_routines.h` is not among the sources). -/
def EM2 : Nat := 2

/-- Modelled from the spec: index of depth `D3` (`sleep_routines.h` is not among the sources). -/
def EM3 : Nat := 3

/-- Modelled from the spec: index of depth `D4` (`sleep_routines.h` is not among the sources). -/
def EM4 : Nat := 4

/-- The array `static int lowest_energy_mode[MAX_ENERGY_MODES]`. The length of the list is
`MAX_ENERGY_MODES`, a macro of the missing header, which the model takes as a parameter.
Counts are mathematical integers (`int` overflow is undefined behaviour in C and is not
reachable while the ceiling assertion of `sleep_block_mode` is fatal). -/
abbrev SleepTable := List Int

/-- Array read `lowest_energy_mode[i]`. -/
def countAt (t : SleepTable) (i : Nat) : Int := t.getD i 0

/-- `sleep_open`: every entry of the table is set to zero. -/
def sleep_open (MAX_ENERGY_MODES : Nat) : SleepTable :=
  List.replicate MAX_ENERGY_MODES 0

/-- What `enter_sleep` does between `CORE_ENTER_CRITICAL` and `CORE_EXIT_CRITICAL`. -/
inductive SleepAction where
  | noAction
  | EMU_EnterEM1
  | EMU_EnterEM2
  | EMU_EnterEM3
  deriving DecidableEq, Repr

/-- Index of the energy mode an action enters, if it enters one. -/
def SleepAction.depth : SleepAction → Option Nat
  | .noAction => none
  | .EMU_EnterEM1 => some EM1
  | .EMU_EnterEM2 => some EM2
  | .EMU_EnterEM3 => some EM3

/-- `enter_sleep`: the if / else-if chain over `EM0 .. EM3`. -/
def enter_sleep (t : SleepTable) : SleepAction :=
  if countAt t EM0 > 0 then .noAction
  else if countAt t EM1 > 0 then .noAction
  else if countAt t EM2 > 0 then .EMU_EnterEM1
  else if countAt t EM3 > 0 then .EMU_EnterEM2
  else .EMU_EnterEM3

/-- The `for` loop of `current_block_energy_mode`: `n` iterations remain and the loop
variable is `i`; falling out of the loop returns `MAX_ENERGY_MODES - 1`. -/
def current_block_energy_mode_loop (MAX_ENERGY_MODES : Nat) (t : SleepTable) : Nat → Nat → Nat
  | 0, _ => MAX_ENERGY_MODES - 1
  | n + 1, i => if countAt t i ≠ 0 then i else current_block_energy_mode_loop MAX_ENERGY_MODES t n (i + 1)

/-- `current_block_energy_mode`: first index with a nonzero count, else `MAX_ENERGY_MODES - 1`. -/
def current_block_energy_mode (MAX_ENERGY_MODES : Nat) (t : SleepTable) : Nat :=
  current_block_energy_mode_loop MAX_ENERGY_MODES t MAX_ENERGY_MODES 0

/-- `sleep_unblock_mode`: guarded decrement, then `EFM_ASSERT(lowest_energy_mode[EM] >= 0)`. -/
def sleep_unblock_mode (t : SleepTable) (EM : Nat) : Outcome SleepTable :=
  let t1 := if countAt t EM > 0 then t.set EM (countAt t EM - 1) else t
  if countAt t1 EM ≥ 0 then .ok t1 else .assertFailed t1

/-- `sleep_block_mode`: increment, then `EFM_ASSERT(lowest_energy_mode[EM] < 5)`. -/
def sleep_block_mode (t : SleepTable) (EM : Nat) : Outcome SleepTable :=
  let t1 := t.set EM (countAt t EM + 1)
  if countAt t1 EM < 5 then .ok t1 else .assertFailed t1

/-- One call of the veto interface. -/
inductive SleepCall where
  | block (EM : Nat)
  | unblock (EM : Nat)
  deriving DecidableEq, Repr

/-- The depth a call names. -/
def SleepCall.depth : SleepCall → Nat
  | .block d => d
  | .unblock d => d

/-- Run one call. -/
def SleepCall.run (t : SleepTable) : SleepCall → Outcome SleepTable
  | .block d => sleep_block_mode t d
  | .unblock d => sleep_unblock_mode t d

/-- Run a sequence of calls from a table; a failed assertion ends the run. -/
def runSleepCalls : SleepTable → List SleepCall → Outcome SleepTable
  | t, [] => .ok t
  | t, c :: cs => (c.run t).andThen (fun t1 => runSleepCalls t1 cs)

/-- The table left by a sequence of calls when execution continues past a failed assertion
(a build in which `EFM_ASSERT` expands to nothing). It agrees with `runSleepCalls` on every
run in which all assertions hold. -/
def sleepCallsTable : SleepTable → List SleepCall → SleepTable
  | t, [] => t
  | t, c :: cs => sleepCallsTable (c.run t).state cs

/-- Tables reached from `sleep_open` by any sequence of `sleep_block_mode` /
`sleep_unblock_mode` calls on depths below `MAX_ENERGY_MODES`. Runs that continue past a
failed assertion are included, so the set contains every table of an assertion-free run. -/
def SleepReachable (MAX_ENERGY_MODES : Nat) (t : SleepTable) : Prop :=
  ∃ cs : List SleepCall, (∀ c ∈ cs, c.depth < MAX_ENERGY_MODES) ∧
    sleepCallsTable (sleep_open MAX_ENERGY_MODES) cs = t

/-- The depth `b` is the shallowest blocked depth of `t`: its count is nonzero and every
shallower count is zero. (Specification-side notion, used to state the claims.) -/
def IsShallowestBlocked (t : SleepTable) (b : Nat) : Prop :=
  b < t.length ∧ countAt t b ≠ 0 ∧ ∀ j, j < b → countAt t j = 0

/-- No depth of `t` is blocked. -/
def NoneBlocked (t : SleepTable) : Prop := ∀ j, j < t.length → countAt t j = 0

/-! ## scheduler.c -/

/-- `add_scheduled_event`: `event_scheduled |= event` (both operands are 32-bit words). -/
def add_scheduled_event (event_scheduled event : Nat) : Nat :=
  event_scheduled ||| event

/-- `remove_scheduled_event`: `event_scheduled &= ~event`, the complement taken in 32 bits. -/
def remove_scheduled_event (event_scheduled event : Nat) : Nat :=
  event_scheduled &&& ((U32 - 1) ^^^ event)

/-- `get_scheduled_events`: the flag word itself. -/
def get_scheduled_events (event_scheduled : Nat) : Nat := event_scheduled

/-- `BLE_TX_DONE_CB` of `app.h`. -/
def BLE_TX_DONE_CB : Nat := 0x00000020

/-! ## State records of the drivers -/

/-- `DEFINED_STATES` of `i2c.h`. -/
inductive DEFINED_STATES where
  | start_comm
  | command
  | slave_rw
  | MS_byte
  | LS_byte
  | end_comm
  deriving DecidableEq, Repr

/-- The two I2C peripherals a `I2C_TypeDef *` can point to. -/
inductive I2C_TypeDef where
  | I2C0
  | I2C1
  deriving DecidableEq, Repr

/-- Command bits written to the `CMD` register by the engine. -/
inductive I2C_CMD where
  | I2C_CMD_START
  | I2C_CMD_STOP
  | I2C_CMD_ACK
  | I2C_CMD_NACK
  deriving DecidableEq, Repr

/-- One write to a register of an I2C peripheral. -/
inductive I2C_RegWrite where
  | CMD (c : I2C_CMD)
  | TXDATA (v : Nat)
  deriving DecidableEq, Repr

/-- `I2C_STATE_MACHINE` of `i2c.h`. The pointer `data` is represented by the word it points
to (the engine only ever accesses `*data`). -/
structure I2C_STATE_MACHINE where
  state : DEFINED_STATES
  slave_address : Nat
  command_ : Nat
  I2C_periph : I2C_TypeDef
  data : Nat
  callback : Nat
  numbytes : Nat
  busy : Bool
  read : Bool
  deriving DecidableEq, Repr

/-- Modelled from the spec: `leuart.h` is not among the sources; the states of the serial
engine are `Idle (awaiting start) → Transmit → Stop`, named `start`, `transmit`, `stop` in
`leuart.c`. -/
inductive LEUART_STATES where
  | start
  | transmit
  | stop
  deriving DecidableEq, Repr

/-- Modelled from the spec: `leuart.h` is not among the sources; the fields are those that
`leuart.c` reads and writes (`LEUART_periph` is always `LEUART0`, the only LEUART, and is left
out). `string_` is the internally owned character array, `sent_bytes` and `string_length` are
32-bit unsigned counters as in the sibling `I2C_STATE_MACHINE`. -/
structure LEUART_STATE_MACHINE where
  state : LEUART_STATES
  string_ : List Nat
  string_length : Nat
  sent_bytes : Nat
  busy : Bool
  callback : Nat
  deriving DecidableEq, Repr

/-- `CSIZE` of `ble.h`. -/
def CSIZE : Nat := 64

/-- `BLE_CIRCULAR_BUF` of `ble.h`: `cbuf` has `CSIZE` bytes, `size_mask` is a `uint8_t`. -/
structure BLE_CIRCULAR_BUF where
  cbuf : List Nat
  size_mask : Nat
  size : Nat
  read_ptr : Nat
  write_ptr : Nat
  deriving DecidableEq, Repr

/-- The global state of the firmware core: the static variables of `sleep_routines.c`,
`scheduler.c`, `i2c.c`, `leuart.c` and `ble.c`, and the observable side of the peripherals. -/
structure World where
  /-- `lowest_energy_mode` of `sleep_routines.c`. -/
  lowest_energy_mode : SleepTable
  /-- `event_scheduled` of `scheduler.c`. -/
  event_scheduled : Nat
  /-- `i2c_sm` of `i2c.c`. -/
  i2c_sm : I2C_STATE_MACHINE
  /-- Chronological log of the writes to the `CMD` and `TXDATA` registers of the I2C
  peripherals. -/
  i2c_writes : List (I2C_TypeDef × I2C_RegWrite)
  /-- `leuart_sm` of `leuart.c`. -/
  leuart_sm : LEUART_STATE_MACHINE
  /-- Bit `TXBL` of `LEUART0->IEN`. -/
  LEUART0_IEN_TXBL : Bool
  /-- Bit `TXC` of `LEUART0->IEN`. -/
  LEUART0_IEN_TXC : Bool
  /-- Chronological log of the bytes written to `LEUART0->TXDATA`. -/
  LEUART0_TXDATA : List Nat
  /-- `ble_cbuf` of `ble.c`. -/
  ble_cbuf : BLE_CIRCULAR_BUF
  /-- `test_struct.result_str` of `ble.c` (`CSIZE` bytes, the last member of the structure);
  elements past index `CSIZE - 1` are the static storage that follows it. -/
  result_str : List Nat
  deriving DecidableEq, Repr

/-- `sleep_block_mode` acting on the table of the global state. -/
def World.sleep_block_mode (w : World) (EM : Nat) : Outcome World :=
  (ECEN2370.sleep_block_mode w.lowest_energy_mode EM).map (fun t => { w with lowest_energy_mode := t })

/-- `sleep_unblock_mode` acting on the table of the global state. -/
def World.sleep_unblock_mode (w : World) (EM : Nat) : Outcome World :=
  (ECEN2370.sleep_unblock_mode w.lowest_energy_mode EM).map (fun t => { w with lowest_energy_mode := t })

/-- `add_scheduled_event` acting on the flag word of the global state. -/
def World.add_scheduled_event (w : World) (event : Nat) : World :=
  { w with event_scheduled := ECEN2370.add_scheduled_event w.event_scheduled event }

/-! ## i2c.c -/

/-- `WRITE` of `i2c.c`. -/
def WRITE : Nat := 0

/-- `READ` of `i2c.c`. -/
def READ : Nat := 1

/-- A write to a register of the peripheral `i2c_sm.I2C_periph`. -/
def World.i2c_write (w : World) (r : I2C_RegWrite) : World :=
  { w with i2c_writes := w.i2c_writes ++ [(w.i2c_sm.I2C_periph, r)] }

/-- `i2c_start`. `STATE_idle` is the value of the comparison
`(i2c->STATE & _I2C_STATE_STATE_MASK) == I2C_STATE_STATE_IDLE` read from the hardware;
`data_` is the word the pointer argument refers to. -/
def i2c_start (w : World) (STATE_idle : Bool) (i2c : I2C_TypeDef)
    (address_slave command data_ callback numbytes : Nat) (busy read : Bool) : Outcome World :=
  if STATE_idle then
    (w.sleep_block_mode EM2).andThen fun w1 =>
      let sm : I2C_STATE_MACHINE :=
        { state := DEFINED_STATES.start_comm
          slave_address := address_slave
          command_ := command
          I2C_periph := i2c
          data := data_
          callback := callback
          numbytes := numbytes
          busy := busy
          read := read }
      let w2 : World := { w1 with i2c_sm := sm }
      let w3 := w2.i2c_write (I2C_RegWrite.CMD I2C_CMD.I2C_CMD_START)
      Outcome.ok (w3.i2c_write (I2C_RegWrite.TXDATA (((address_slave <<< 1) % U32) ||| WRITE)))
  else Outcome.assertFailed w

/-- `i2c_ack`. -/
def i2c_ack (w : World) : Outcome World :=
  if w.i2c_sm.read then
    match w.i2c_sm.state with
    | .start_comm =>
      let w1 : World := { w with i2c_sm := { w.i2c_sm with state := DEFINED_STATES.command } }
      Outcome.ok (w1.i2c_write (I2C_RegWrite.TXDATA w1.i2c_sm.command_))
    | .command =>
      let w1 : World := { w with i2c_sm := { w.i2c_sm with state := DEFINED_STATES.slave_rw } }
      let w2 := w1.i2c_write (I2C_RegWrite.CMD I2C_CMD.I2C_CMD_START)
      Outcome.ok (w2.i2c_write
        (I2C_RegWrite.TXDATA (((w2.i2c_sm.slave_address <<< 1) % U32) ||| READ)))
    | .slave_rw =>
      Outcome.ok { w with i2c_sm := { w.i2c_sm with state := DEFINED_STATES.MS_byte } }
    | .MS_byte => Outcome.assertFailed w
    | .LS_byte => Outcome.assertFailed w
    | .end_comm => Outcome.assertFailed w
  else
    match w.i2c_sm.state with
    | .start_comm =>
      let w1 : World := { w with i2c_sm := { w.i2c_sm with state := DEFINED_STATES.slave_rw } }
      Outcome.ok (w1.i2c_write (I2C_RegWrite.TXDATA w1.i2c_sm.command_))
    | .command => Outcome.assertFailed w
    | .slave_rw =>
      let w1 := w.i2c_write (I2C_RegWrite.TXDATA w.i2c_sm.data)
      let n := u32_sub w1.i2c_sm.numbytes 1
      let w2 : World := { w1 with i2c_sm := { w1.i2c_sm with numbytes := n } }
      if n ≤ 0 then
        Outcome.ok { w2 with i2c_sm := { w2.i2c_sm with state := DEFINED_STATES.end_comm } }
      else Outcome.ok w2
    | .MS_byte => Outcome.assertFailed w
    | .LS_byte => Outcome.assertFailed w
    | .end_comm =>
      (w.sleep_unblock_mode EM2).andThen fun w1 =>
        let w2 := w1.add_scheduled_event w1.i2c_sm.callback
        let w3 : World := { w2 with i2c_sm := { w2.i2c_sm with state := DEFINED_STATES.start_comm } }
        Outcome.ok { w3 with i2c_sm := { w3.i2c_sm with busy := false } }

/-- `i2c_nack`. -/
def i2c_nack (w : World) : Outcome World :=
  if w.i2c_sm.read then
    match w.i2c_sm.state with
    | .start_comm => Outcome.assertFailed w
    | .command => Outcome.assertFailed w
    | .slave_rw =>
      let w1 : World := { w with i2c_sm := { w.i2c_sm with state := DEFINED_STATES.slave_rw } }
      let w2 := w1.i2c_write (I2C_RegWrite.CMD I2C_CMD.I2C_CMD_START)
      Outcome.ok (w2.i2c_write
        (I2C_RegWrite.TXDATA (((w2.i2c_sm.slave_address <<< 1) % U32) ||| READ)))
    | .MS_byte => Outcome.assertFailed w
    | .LS_byte => Outcome.assertFailed w
    | .end_comm => Outcome.assertFailed w
  else Outcome.assertFailed w

/-- `i2c_rxdatav`. `RXDATA` is the value the receive register holds when the handler runs. -/
def i2c_rxdatav (w : World) (RXDATA : Nat) : Outcome World :=
  if w.i2c_sm.read then
    match w.i2c_sm.state with
    | .start_comm => Outcome.assertFailed w
    | .command => Outcome.assertFailed w
    | .slave_rw => Outcome.assertFailed w
    | .MS_byte =>
      if w.i2c_sm.numbytes = 2 then
        let w1 : World := { w with i2c_sm := { w.i2c_sm with state := DEFINED_STATES.LS_byte } }
        let w2 : World := { w1 with i2c_sm := { w1.i2c_sm with data := (RXDATA <<< 8) % U32 } }
        Outcome.ok (w2.i2c_write (I2C_RegWrite.CMD I2C_CMD.I2C_CMD_ACK))
      else if w.i2c_sm.numbytes = 1 then
        let w1 : World := { w with i2c_sm := { w.i2c_sm with state := DEFINED_STATES.end_comm } }
        let w2 : World := { w1 with i2c_sm := { w1.i2c_sm with data := RXDATA } }
        let w3 := w2.i2c_write (I2C_RegWrite.CMD I2C_CMD.I2C_CMD_NACK)
        Outcome.ok (w3.i2c_write (I2C_RegWrite.CMD I2C_CMD.I2C_CMD_STOP))
      else Outcome.ok w
    | .LS_byte =>
      let w1 : World := { w with i2c_sm := { w.i2c_sm with state := DEFINED_STATES.end_comm } }
      let w2 : World := { w1 with i2c_sm := { w1.i2c_sm with data := w1.i2c_sm.data ||| RXDATA } }
      let w3 := w2.i2c_write (I2C_RegWrite.CMD I2C_CMD.I2C_CMD_NACK)
      Outcome.ok (w3.i2c_write (I2C_RegWrite.CMD I2C_CMD.I2C_CMD_STOP))
    | .end_comm => Outcome.assertFailed w
  else Outcome.assertFailed w

/-- `i2c_mstop`. -/
def i2c_mstop (w : World) : Outcome World :=
  if w.i2c_sm.read then
    match w.i2c_sm.state with
    | .start_comm => Outcome.assertFailed w
    | .command => Outcome.assertFailed w
    | .slave_rw => Outcome.assertFailed w
    | .MS_byte => Outcome.assertFailed w
    | .LS_byte => Outcome.assertFailed w
    | .end_comm =>
      (w.sleep_unblock_mode EM2).andThen fun w1 =>
        let w2 : World := { w1 with i2c_sm := { w1.i2c_sm with state := DEFINED_STATES.start_comm } }
        let w3 := w2.add_scheduled_event w2.i2c_sm.callback
        Outcome.ok { w3 with i2c_sm := { w3.i2c_sm with busy := false } }
  else Outcome.assertFailed w

/-- `i2c_busy`. -/
def i2c_busy (w : World) : Bool := w.i2c_sm.busy

/-- One interrupt of the bus engine carrying a single flag. -/
inductive I2C_IF where
  | ACK
  | NACK
  | RXDATAV (RXDATA : Nat)
  | MSTOP
  deriving DecidableEq, Repr

/-- The body of `I2C0_IRQHandler` / `I2C1_IRQHandler` for an interrupt with one flag set. -/
def I2C_IRQHandler (w : World) : I2C_IF → Outcome World
  | .ACK => i2c_ack w
  | .NACK => i2c_nack w
  | .RXDATAV RXDATA => i2c_rxdatav w RXDATA
  | .MSTOP => i2c_mstop w

/-- A sequence of bus interrupts; a failed assertion ends the run. -/
def i2c_run : World → List I2C_IF → Outcome World
  | w, [] => Outcome.ok w
  | w, e :: es => (I2C_IRQHandler w e).andThen (fun w1 => i2c_run w1 es)

/-- The states the engine is in after each interrupt of a run that raises no assertion
(the list stops at the first interrupt whose handler fails an assertion). -/
def i2c_states : World → List I2C_IF → List DEFINED_STATES
  | _, [] => []
  | w, e :: es =>
    match I2C_IRQHandler w e with
    | .ok w1 => w1.i2c_sm.state :: i2c_states w1 es
    | _ => []

/-- The world after the data phase of a write: `n` data words logged, `numbytes` zero, state
`end_comm`. -/
def afterWriteData (w : World) (n : Nat) : World :=
  { w with
    i2c_sm := { w.i2c_sm with numbytes := 0, state := DEFINED_STATES.end_comm }
    i2c_writes := w.i2c_writes
      ++ List.replicate n (w.i2c_sm.I2C_periph, I2C_RegWrite.TXDATA w.i2c_sm.data) }

/-! ## leuart.c -/

/-- `strcpy(dst, src)` on a character array: the characters of `src` and a terminating NUL
overwrite the beginning of `dst`. (`src` lists the characters before the terminator.) -/
def strcpy (dst src : List Nat) : List Nat :=
  src ++ [0] ++ dst.drop (src.length + 1)

/-- `leuart_tx_busy`. -/
def leuart_tx_busy (w : World) : Bool := w.leuart_sm.busy

/-- `leuart_app_transmit_byte`: the polling loop on `TXBL` has ended (the flag is what raised
the interrupt) and the byte (`uint8_t`) is written to `TXDATA`. -/
def leuart_app_transmit_byte (w : World) (data_out : Nat) : World :=
  { w with LEUART0_TXDATA := w.LEUART0_TXDATA ++ [data_out % 256] }

/-- `leuart_txbl`. -/
def leuart_txbl (w : World) : Outcome World :=
  match w.leuart_sm.state with
  | .start => Outcome.assertFailed w
  | .transmit =>
    let w1 := leuart_app_transmit_byte w (w.leuart_sm.string_.getD w.leuart_sm.sent_bytes 0)
    let w2 : World :=
      { w1 with leuart_sm := { w1.leuart_sm with sent_bytes := (w1.leuart_sm.sent_bytes + 1) % U32 } }
    if w2.leuart_sm.sent_bytes = u32_sub w2.leuart_sm.string_length 1 then
      let w3 : World := { w2 with LEUART0_IEN_TXC := true }
      let w4 : World := { w3 with LEUART0_IEN_TXBL := false }
      Outcome.ok { w4 with leuart_sm := { w4.leuart_sm with state := LEUART_STATES.stop } }
    else Outcome.ok w2
  | .stop => Outcome.assertFailed w

/-- `leuart_txc`. `LEUART_TX_EM` is a macro of the missing `leuart.h` and is a parameter. -/
def leuart_txc (LEUART_TX_EM : Nat) (w : World) : Outcome World :=
  match w.leuart_sm.state with
  | .start => Outcome.assertFailed w
  | .transmit => Outcome.assertFailed w
  | .stop =>
    let w1 : World := { w with LEUART0_IEN_TXC := false }
    let w2 : World := { w1 with leuart_sm := { w1.leuart_sm with busy := false } }
    (w2.sleep_unblock_mode LEUART_TX_EM).andThen fun w3 =>
      Outcome.ok (w3.add_scheduled_event BLE_TX_DONE_CB)

/-- `leuart_start`. `string` lists the characters before the terminating NUL, so
`strlen(string)` is its length. While the engine is busy the routine spins. -/
def leuart_start (LEUART_TX_EM : Nat) (w : World) (string : List Nat) (call_back : Nat) :
    Outcome World :=
  if leuart_tx_busy w then Outcome.spins w
  else
    let sm : LEUART_STATE_MACHINE :=
      { state := LEUART_STATES.transmit
        string_ := strcpy w.leuart_sm.string_ string
        string_length := string.length
        sent_bytes := 0
        busy := true
        callback := call_back }
    let w1 : World := { w with leuart_sm := sm }
    (w1.sleep_block_mode LEUART_TX_EM).andThen fun w2 =>
      Outcome.ok { w2 with LEUART0_IEN_TXBL := true }

/-- `LEUART0_IRQHandler`. `IF_TXBL` and `IF_TXC` are the flag bits of `LEUART0->IF` when the
handler is entered; they are masked with `LEUART0->IEN` once, before either routine runs. -/
def LEUART0_IRQHandler (LEUART_TX_EM : Nat) (w : World) (IF_TXBL IF_TXC : Bool) :
    Outcome World :=
  let int_flag_TXBL := IF_TXBL && w.LEUART0_IEN_TXBL
  let int_flag_TXC := IF_TXC && w.LEUART0_IEN_TXC
  (if int_flag_TXBL then leuart_txbl w else Outcome.ok w).andThen fun w1 =>
    if int_flag_TXC then leuart_txc LEUART_TX_EM w1 else Outcome.ok w1

/-- `n` buffer-ready interrupts handled by `leuart_txbl`; a failed assertion ends the run. -/
def leuart_txbl_times : Nat → World → Outcome World
  | 0, w => Outcome.ok w
  | n + 1, w => (leuart_txbl w).andThen (leuart_txbl_times n)

/-- `n` occurrences of the hardware buffer-ready flag, each delivered through
`LEUART0_IRQHandler` (and therefore dropped when the interrupt is disabled). -/
def LEUART0_TXBL_times (LEUART_TX_EM : Nat) : Nat → World → Outcome World
  | 0, w => Outcome.ok w
  | n + 1, w =>
    (LEUART0_IRQHandler LEUART_TX_EM w true false).andThen (LEUART0_TXBL_times LEUART_TX_EM n)

/-! ## ble.c -/

/-- `ble_circ_init`. -/
def ble_circ_init (b : BLE_CIRCULAR_BUF) : BLE_CIRCULAR_BUF :=
  { b with size := CSIZE, size_mask := CSIZE - 1, read_ptr := 0, write_ptr := 0 }

/-- `ble_circ_space`: `size - ((write_ptr - read_ptr) & size_mask)` in 32-bit arithmetic,
truncated to the `uint8_t` result. -/
def ble_circ_space (b : BLE_CIRCULAR_BUF) : Nat :=
  (u32_sub b.size ((u32_sub b.write_ptr b.read_ptr) &&& b.size_mask)) % 256

/-- `update_circ_wrtindex`. -/
def update_circ_wrtindex (b : BLE_CIRCULAR_BUF) (update_by : Nat) : BLE_CIRCULAR_BUF :=
  { b with write_ptr := ((b.write_ptr + update_by) % U32) &&& b.size_mask }

/-- `update_circ_readindex`. -/
def update_circ_readindex (b : BLE_CIRCULAR_BUF) (update_by : Nat) : BLE_CIRCULAR_BUF :=
  { b with read_ptr := ((b.read_ptr + update_by) % U32) &&& b.size_mask }

/-- `ble_circ_push`. `string` lists the characters before the terminating NUL. The length
byte is stored at `cbuf[write_ptr]`; the loop then stores every character at that same slot
`cbuf[write_ptr]`, and the write index advances by `strlen(string)`. -/
def ble_circ_push (b : BLE_CIRCULAR_BUF) (string : List Nat) : Outcome BLE_CIRCULAR_BUF :=
  if string.length + 1 ≤ ble_circ_space b then
    let cbuf0 := b.cbuf.set b.write_ptr ((string.length + 1) % 256)
    let cbuf1 := string.foldl (fun cbuf c => cbuf.set b.write_ptr c) cbuf0
    Outcome.ok (update_circ_wrtindex { b with cbuf := cbuf1 } string.length)
  else Outcome.assertFailed b

/-- A C string read from memory: the bytes before the first NUL. -/
def cstring (bytes : List Nat) : List Nat := bytes.takeWhile (fun c => c ≠ 0)

/-- The store `a[i] = v` into an array followed by other storage: the list stands for the
array and the memory after it, so a store past the current end extends the list (bytes
skipped over are 0, the value an absent element reads as). -/
def array_store : List Nat → Nat → Nat → List Nat
  | [], 0, v => [v]
  | [], i + 1, v => 0 :: array_store [] i v
  | _ :: a, 0, v => v :: a
  | x :: a, i + 1, v => x :: array_store a i v

/-- `ble_circ_pop`. The local array `print_str` has `length - 1` elements and no terminator;
`stack` lists the bytes that follow it in memory, which the routine reads when it copies
`length` elements in test mode and when `leuart_start` measures the string. The result pairs
the returned `bool` with the state (for a run that halts inside `leuart_start`, the value
that would have been returned). -/
def ble_circ_pop (LEUART_TX_EM : Nat) (w : World) (test : Bool) (stack : List Nat) :
    Outcome (Bool × World) :=
  if leuart_tx_busy w then Outcome.ok (true, w)
  else if w.ble_cbuf.read_ptr = w.ble_cbuf.write_ptr then Outcome.ok (true, w)
  else
    let length := w.ble_cbuf.cbuf.getD w.ble_cbuf.read_ptr 0
    let print_str := (List.range (length - 1)).map fun i =>
      w.ble_cbuf.cbuf.getD (((w.ble_cbuf.read_ptr + 1 + i) % U32) &&& w.ble_cbuf.size_mask) 0
    let w1 : World := { w with ble_cbuf := update_circ_readindex w.ble_cbuf length }
    if test then
      Outcome.ok (false,
        { w1 with
          result_str := (List.range length).foldl
            (fun r i => array_store r i ((print_str ++ stack).getD i 0)) w1.result_str })
    else
      (leuart_start LEUART_TX_EM w1 (cstring (print_str ++ stack)) 0).map
        (fun w2 => (false, w2))

/-- The first test message of `circular_buff_test`: `test_str[0][i] = i + 1` for `i < 50`. -/
def test_str_0 : List Nat := (List.range 50).map (fun i => i + 1)

/-- The second test message of `circular_buff_test`: `test_str[1][i] = i + 20` for `i < 25`. -/
def test_str_1 : List Nat := (List.range 25).map (fun i => i + 20)

/-- The third test message of `circular_buff_test`: `test_str[2][i] = i + 35` for `i < 5`. -/
def test_str_2 : List Nat := (List.range 5).map (fun i => i + 35)

/-- The register writes caused by `k` not-acknowledge events during the repeated start of a
read: each one re-issues `START` and the target address with the read bit. -/
def nackWrites (i2c : I2C_TypeDef) (address_slave : Nat) : Nat → List (I2C_TypeDef × I2C_RegWrite)
  | 0 => []
  | k + 1 =>
    (i2c, I2C_RegWrite.CMD I2C_CMD.I2C_CMD_START)
      :: (i2c, I2C_RegWrite.TXDATA (((address_slave <<< 1) % U32) ||| READ))
      :: nackWrites i2c address_slave k

/-- The interrupt trace of a two-byte read whose read address is not acknowledged `k` times:
`ACK, ACK, NACK^k, ACK, RXDATAV(hi), RXDATAV(lo), MSTOP`. -/
def readTrace (k hi lo : Nat) : List I2C_IF :=
  [I2C_IF.ACK, I2C_IF.ACK] ++ List.replicate k I2C_IF.NACK
    ++ [I2C_IF.ACK, I2C_IF.RXDATAV hi, I2C_IF.RXDATAV lo, I2C_IF.MSTOP]

/-- The static storage after reset (all zero), followed by `sleep_open`, `scheduler_open` and
`ble_circ_init`. `MAX_ENERGY_MODES` and the capacity of the LEUART string buffer come from
headers that are not among the sources and are parameters. -/
def World.boot (MAX_ENERGY_MODES capacity : Nat) : World :=
  { lowest_energy_mode := sleep_open MAX_ENERGY_MODES
    event_scheduled := 0
    i2c_sm :=
      { state := DEFINED_STATES.start_comm
        slave_address := 0
        command_ := 0
        I2C_periph := I2C_TypeDef.I2C0
        data := 0
        callback := 0
        numbytes := 0
        busy := false
        read := false }
    i2c_writes := []
    leuart_sm :=
      { state := LEUART_STATES.start
        string_ := List.replicate capacity 0
        string_length := 0
        sent_bytes := 0
        busy := false
        callback := 0 }
    LEUART0_IEN_TXBL := false
    LEUART0_IEN_TXC := false
    LEUART0_TXDATA := []
    ble_cbuf :=
      { cbuf := List.replicate CSIZE 0
        size_mask := CSIZE - 1
        size := CSIZE
        read_ptr := 0
        write_ptr := 0 }
    result_str := List.replicate CSIZE 0 }

/-- The world a completed two-byte read leaves behind when it was started from `w` and its
read address was not acknowledged `k` times (closed form, proved equal to the run of the
engine in `i2c_read_trace_run`). -/
def readFinal (w : World) (i2c : I2C_TypeDef) (address_slave command callback : Nat)
    (k hi lo : Nat) : World :=
  { w with
    event_scheduled := add_scheduled_event w.event_scheduled callback
    i2c_sm :=
      { state := DEFINED_STATES.start_comm
        slave_address := address_slave
        command_ := command
        I2C_periph := i2c
        data := ((hi <<< 8) % U32) ||| lo
        callback := callback
        numbytes := 2
        busy := false
        read := true }
    i2c_writes := w.i2c_writes ++
      [(i2c, I2C_RegWrite.CMD I2C_CMD.I2C_CMD_START),
       (i2c, I2C_RegWrite.TXDATA (((address_slave <<< 1) % U32) ||| WRITE)),
       (i2c, I2C_RegWrite.TXDATA command),
       (i2c, I2C_RegWrite.CMD I2C_CMD.I2C_CMD_START),
       (i2c, I2C_RegWrite.TXDATA (((address_slave <<< 1) % U32) ||| READ))]
      ++ nackWrites i2c address_slave k
      ++ [(i2c, I2C_RegWrite.CMD I2C_CMD.I2C_CMD_ACK),
          (i2c, I2C_RegWrite.CMD I2C_CMD.I2C_CMD_NACK),
          (i2c, I2C_RegWrite.CMD I2C_CMD.I2C_CMD_STOP)] }

/-- The bytes that `j` buffer-ready interrupts write to `TXDATA` when the first of them finds
`sent_bytes = s`: elements `s, s + 1, …, s + j - 1` of the engine's character array. -/
def txblWrites (string_ : List Nat) (s j : Nat) : List Nat :=
  (List.range j).map (fun i => string_.getD (s + i) 0 % 256)

/-- The test the dispatch code applies to the flag word, `get_scheduled_events() & event`
(as in `EFM_ASSERT(BLE_TX_DONE_CB & get_scheduled_events())` of `app.c`): the event is
pending when some bit of `event` is set. -/
def event_pending (event_scheduled event : Nat) : Bool :=
  (get_scheduled_events event_scheduled &&& event) != 0

/-- The flag word after `n` consecutive calls `add_scheduled_event(event)`. -/
def add_scheduled_event_times (event : Nat) : Nat → Nat → Nat
  | 0, event_scheduled => event_scheduled
  | n + 1, event_scheduled =>
    add_scheduled_event_times event n (add_scheduled_event event_scheduled event)

/-- The length byte `ble_circ_pop` reads: `cbuf[read_ptr]`. -/
def pop_length (b : BLE_CIRCULAR_BUF) : Nat := b.cbuf.getD b.read_ptr 0

/-- The local array `print_str` that `ble_circ_pop` fills: `length - 1` bytes taken from the
slots `(read_ptr + 1 + i) & size_mask`. -/
def pop_print_str (b : BLE_CIRCULAR_BUF) : List Nat :=
  (List.range (pop_length b - 1)).map fun i =>
    b.cbuf.getD (((b.read_ptr + 1 + i) % U32) &&& b.size_mask) 0

/-- The diagnostic buffer after the test-mode copy loop of `ble_circ_pop`. -/
def pop_result_str (b : BLE_CIRCULAR_BUF) (result_str stack : List Nat) : List Nat :=
  (List.range (pop_length b)).foldl
    (fun r i => array_store r i ((pop_print_str b ++ stack).getD i 0)) result_str

/-- The interrupt trace of a one-byte read whose read address is not acknowledged `k` times:
`ACK, ACK, NACK^k, ACK, RXDATAV(x), MSTOP`. -/
def readTrace1 (k x : Nat) : List I2C_IF :=
  [I2C_IF.ACK, I2C_IF.ACK] ++ List.replicate k I2C_IF.NACK
    ++ [I2C_IF.ACK, I2C_IF.RXDATAV x, I2C_IF.MSTOP]

/-- The veto table after each interrupt of a run that raises no assertion (the list stops at
the first interrupt whose handler fails an assertion). -/
def i2c_tables : World → List I2C_IF → List SleepTable
  | _, [] => []
  | w, e :: es =>
    match I2C_IRQHandler w e with
    | .ok w1 => w1.lowest_energy_mode :: i2c_tables w1 es
    | _ => []

/-- The calls `letimer_start` makes to the veto interface, in order. `LETIMER_STATUS_RUNNING`
(a bit mask of the device header) and `LETIMER_EM` (of `letimer.h`) are macros that are not
among the sources and are parameters. `STATUS` is the value of `letimer->STATUS` when the
routine is entered; the conditions are `!LETIMER_STATUS_RUNNING && enable` and
`LETIMER_STATUS_RUNNING && !enable`, which do not read it. -/
def letimer_start_calls (LETIMER_STATUS_RUNNING LETIMER_EM : Nat) (_STATUS : Nat)
    (enable : Bool) : List SleepCall :=
  (if (!(LETIMER_STATUS_RUNNING != 0) && enable) then [SleepCall.block LETIMER_EM] else [])
    ++ (if ((LETIMER_STATUS_RUNNING != 0) && !enable) then [SleepCall.unblock LETIMER_EM]
        else [])

/-- `letimer_start` acting on the veto table (the write to the timer through
`LETIMER_Enable` and the wait on `SYNCBUSY` do not touch it). -/
def letimer_start (LETIMER_STATUS_RUNNING LETIMER_EM : Nat) (t : SleepTable) (STATUS : Nat)
    (enable : Bool) : Outcome SleepTable :=
  runSleepCalls t (letimer_start_calls LETIMER_STATUS_RUNNING LETIMER_EM STATUS enable)

/-- Well-formed table: `MAX_ENERGY_MODES` entries, none negative. -/
def SleepTableOk (M : Nat) (t : SleepTable) : Prop :=
  t.length = M ∧ ∀ j, 0 ≤ countAt t j

/-! # Part II: properties -/

theorem Outcome.state_ite {σ : Type} (c : Prop) [Decidable c] (a : σ) :
    (if c then Outcome.ok a else Outcome.assertFailed a).state = a := by
  split <;> rfl

/-! ## Sleep arbiter -/

theorem countAt_set_self (t : SleepTable) (d : Nat) (v : Int) (hd : d < t.length) :
    countAt (t.set d v) d = v := by
  simp [countAt, List.getD_eq_getElem?_getD, hd]

theorem countAt_set_other (t : SleepTable) (d j : Nat) (v : Int) (hj : j ≠ d) :
    countAt (t.set d v) j = countAt t j := by
  simp [countAt, List.getD_eq_getElem?_getD, List.getElem?_set_ne (Ne.symm hj)]

theorem sleep_block_mode_state (t : SleepTable) (d : Nat) :
    (sleep_block_mode t d).state = t.set d (countAt t d + 1) := by
  unfold sleep_block_mode
  simp only [Outcome.state_ite]

theorem sleep_unblock_mode_state (t : SleepTable) (d : Nat) :
    (sleep_unblock_mode t d).state
      = if countAt t d > 0 then t.set d (countAt t d - 1) else t := by
  unfold sleep_unblock_mode
  simp only [Outcome.state_ite]

theorem sleep_open_ok (M : Nat) : SleepTableOk M (sleep_open M) := by
  refine ⟨by simp [sleep_open], fun j => ?_⟩
  unfold countAt sleep_open
  rw [List.getD_eq_getElem?_getD]
  by_cases h : j < M
  · simp [List.getElem?_replicate, h]
  · simp [List.getElem?_replicate, h]

theorem SleepCall.run_ok (M : Nat) (t : SleepTable) (c : SleepCall)
    (ht : SleepTableOk M t) : SleepTableOk M (c.run t).state := by
  obtain ⟨hlen, hpos⟩ := ht
  cases c with
  | block d =>
    simp only [SleepCall.run, sleep_block_mode_state]
    refine ⟨by simp [hlen], fun j => ?_⟩
    by_cases hj : j = d
    · subst hj
      by_cases hd : j < t.length
      · rw [countAt_set_self t j _ hd]
        have := hpos j
        omega
      · have : t.set j (countAt t j + 1) = t := List.set_eq_of_length_le (by omega)
        rw [this]
        exact hpos j
    · rw [countAt_set_other t d j _ hj]
      exact hpos j
  | unblock d =>
    simp only [SleepCall.run, sleep_unblock_mode_state]
    split
    · rename_i hgt
      refine ⟨by simp [hlen], fun j => ?_⟩
      by_cases hj : j = d
      · subst hj
        by_cases hd : j < t.length
        · rw [countAt_set_self t j _ hd]
          omega
        · have : t.set j (countAt t j - 1) = t := List.set_eq_of_length_le (by omega)
          rw [this]
          exact hpos j
      · rw [countAt_set_other t d j _ hj]
        exact hpos j
    · exact ⟨hlen, hpos⟩

theorem sleepCallsTable_ok (M : Nat) (cs : List SleepCall) (t : SleepTable)
    (ht : SleepTableOk M t) : SleepTableOk M (sleepCallsTable t cs) := by
  induction cs generalizing t with
  | nil => exact ht
  | cons c cs ih => exact ih _ (SleepCall.run_ok M t c ht)

theorem SleepReachable.ok {M : Nat} {t : SleepTable} (h : SleepReachable M t) :
    SleepTableOk M t := by
  obtain ⟨cs, _, rfl⟩ := h
  exact sleepCallsTable_ok M cs _ (sleep_open_ok M)

/-- On a run in which every assertion holds, the table of the fatal-assertion semantics is
the table of the run that ignores assertions. -/
theorem sleepCallsTable_of_run (cs : List SleepCall) (t t1 : SleepTable)
    (h : runSleepCalls t cs = Outcome.ok t1) : sleepCallsTable t cs = t1 := by
  induction cs generalizing t with
  | nil =>
    simp only [runSleepCalls, Outcome.ok.injEq] at h
    exact h
  | cons c cs ih =>
    simp only [runSleepCalls] at h
    simp only [sleepCallsTable]
    cases hc : c.run t with
    | ok s =>
      rw [hc] at h
      exact ih s h
    | assertFailed s =>
      rw [hc] at h
      simp [Outcome.andThen] at h
    | spins s =>
      rw [hc] at h
      simp [Outcome.andThen] at h

/-- Characterisation of the search loop: either it falls through (every inspected count is
zero) or it stops at the first inspected index whose count is nonzero. -/
theorem current_block_energy_mode_loop_cases (M : Nat) (t : SleepTable) :
    ∀ n i : Nat,
      (current_block_energy_mode_loop M t n i = M - 1 ∧
          ∀ j, i ≤ j → j < i + n → countAt t j = 0) ∨
      (i ≤ current_block_energy_mode_loop M t n i ∧
          current_block_energy_mode_loop M t n i < i + n ∧
          countAt t (current_block_energy_mode_loop M t n i) ≠ 0 ∧
          ∀ j, i ≤ j → j < current_block_energy_mode_loop M t n i → countAt t j = 0) := by
  intro n
  induction n with
  | zero =>
    intro i
    left
    refine ⟨rfl, fun j h1 h2 => ?_⟩
    omega
  | succ n ih =>
    intro i
    by_cases hi : countAt t i ≠ 0
    · right
      have hr : current_block_energy_mode_loop M t (n + 1) i = i := by
        simp [current_block_energy_mode_loop, hi]
      rw [hr]
      refine ⟨le_refl _, by omega, hi, fun j h1 h2 => ?_⟩
      omega
    · have hz : countAt t i = 0 := by
        by_contra h
        exact hi h
      have hr : current_block_energy_mode_loop M t (n + 1) i
          = current_block_energy_mode_loop M t n (i + 1) := by
        simp [current_block_energy_mode_loop, hz]
      rw [hr]
      rcases ih (i + 1) with ⟨h1, h2⟩ | ⟨h1, h2, h3, h4⟩
      · left
        refine ⟨h1, fun j hj1 hj2 => ?_⟩
        by_cases hji : j = i
        · rw [hji]
          exact hz
        · exact h2 j (by omega) (by omega)
      · right
        refine ⟨by omega, by omega, h3, fun j hj1 hj2 => ?_⟩
        by_cases hji : j = i
        · rw [hji]
          exact hz
        · exact h4 j (by omega) hj2

/-- On a table of `M` entries the result is the shallowest blocked depth whenever one exists. -/
theorem current_block_energy_mode_of_blocked (M : Nat) (t : SleepTable) (hlen : t.length = M)
    (b : Nat) (hb : IsShallowestBlocked t b) : current_block_energy_mode M t = b := by
  obtain ⟨hbl, hbn, hbz⟩ := hb
  unfold current_block_energy_mode
  rcases current_block_energy_mode_loop_cases M t M 0 with ⟨_, h2⟩ | ⟨_, h2, h3, h4⟩
  · exact absurd (h2 b (Nat.zero_le _) (by omega)) hbn
  · rcases Nat.lt_trichotomy (current_block_energy_mode_loop M t M 0) b with h | h | h
    · exact absurd (hbz _ h) h3
    · exact h
    · exact absurd (h4 b (Nat.zero_le _) h) hbn

/-- On a table with no blocked depth the result is `MAX_ENERGY_MODES - 1`. -/
theorem current_block_energy_mode_of_none (M : Nat) (t : SleepTable) (hlen : t.length = M)
    (hn : NoneBlocked t) : current_block_energy_mode M t = M - 1 := by
  unfold current_block_energy_mode
  rcases current_block_energy_mode_loop_cases M t M 0 with ⟨h1, _⟩ | ⟨_, h2, h3, _⟩
  · exact h1
  · exact absurd (hn _ (by omega)) h3

/-- The result is `MAX_ENERGY_MODES - 1` exactly when no depth shallower than the deepest one
is blocked. -/
theorem current_block_energy_mode_eq_last_iff (M : Nat) (t : SleepTable) :
    current_block_energy_mode M t = M - 1 ↔ ∀ j, j + 1 < M → countAt t j = 0 := by
  unfold current_block_energy_mode
  rcases current_block_energy_mode_loop_cases M t M 0 with ⟨h1, h2⟩ | ⟨_, h2, h3, h4⟩
  · exact ⟨fun _ j hj => h2 j (Nat.zero_le _) (by omega), fun _ => h1⟩
  · constructor
    · intro h j hj
      exact h4 j (Nat.zero_le _) (by omega)
    · intro h
      by_contra hne
      exact h3 (h _ (by omega))

/-- C5 (as stated, refuted). With five depths, the table reached by `sleep_open` followed by
`sleep_block_mode(EM4)` (its assertion holds) has depth 4 blocked, yet
`current_block_energy_mode` returns `MAX_ENERGY_MODES - 1`, the very value it returns when
nothing is blocked: the "none blocked" result is returned while a depth is blocked. -/
theorem C5_none_result_while_blocked :
    sleep_block_mode (sleep_open 5) EM4 = Outcome.ok [0, 0, 0, 0, 1] ∧
    SleepReachable 5 [0, 0, 0, 0, 1] ∧
    IsShallowestBlocked [0, 0, 0, 0, 1] 4 ∧
    ¬ NoneBlocked [0, 0, 0, 0, 1] ∧
    current_block_energy_mode 5 [0, 0, 0, 0, 1] = 5 - 1 ∧
    current_block_energy_mode 5 (sleep_open 5) = 5 - 1 := by
  refine ⟨by decide, ⟨[SleepCall.block 4], by decide, by decide⟩, ?_, ?_, by decide, by decide⟩
  · refine ⟨by decide, by decide, fun j hj => ?_⟩
    interval_cases j <;> decide
  · intro h
    exact absurd (h 4 (by decide)) (by decide)

/-- C5 (amended). For every veto table reached from `sleep_open` by `sleep_block_mode` /
`sleep_unblock_mode` calls: when some depth is blocked, `current_block_energy_mode` returns
the shallowest blocked depth; when no depth is blocked it returns `MAX_ENERGY_MODES - 1`; and
it returns `MAX_ENERGY_MODES - 1` exactly when every depth shallower than the deepest one has
count zero (so that value does not tell "nothing blocked" from "only the deepest blocked"). -/
theorem C5_current_block_energy_mode (M : Nat) (t : SleepTable) (h : SleepReachable M t) :
    (∀ b, IsShallowestBlocked t b → current_block_energy_mode M t = b) ∧
    (NoneBlocked t → current_block_energy_mode M t = M - 1) ∧
    (current_block_energy_mode M t = M - 1 ↔ ∀ j, j + 1 < M → countAt t j = 0) :=
  ⟨fun b hb => current_block_energy_mode_of_blocked M t h.ok.1 b hb,
   fun hn => current_block_energy_mode_of_none M t h.ok.1 hn,
   current_block_energy_mode_eq_last_iff M t⟩

/-- C5 witness: the table `[0, 0, 1, 2, 0]`, reached by blocking EM2 once and EM3 twice. -/
theorem C5_current_block_energy_mode_witness :
    SleepReachable 5 [0, 0, 1, 2, 0] ∧
    ((∀ b, IsShallowestBlocked [0, 0, 1, 2, 0] b → current_block_energy_mode 5 [0, 0, 1, 2, 0] = b) ∧
     (NoneBlocked [0, 0, 1, 2, 0] → current_block_energy_mode 5 [0, 0, 1, 2, 0] = 5 - 1) ∧
     (current_block_energy_mode 5 [0, 0, 1, 2, 0] = 5 - 1 ↔
        ∀ j, j + 1 < 5 → countAt [0, 0, 1, 2, 0] j = 0)) :=
  ⟨⟨[SleepCall.block 3, SleepCall.block 2, SleepCall.block 3], by decide, by decide⟩,
   C5_current_block_energy_mode 5 [0, 0, 1, 2, 0]
     ⟨[SleepCall.block 3, SleepCall.block 2, SleepCall.block 3], by decide, by decide⟩⟩

/-- C6. For every veto table reached by `sleep_block_mode` / `sleep_unblock_mode` calls (the
table holds at least the depths `EM0 .. EM3` that `enter_sleep` reads), the energy mode that
`enter_sleep` enters, if it enters one, is strictly shallower than every depth whose veto
count is nonzero. -/
theorem C6_enter_sleep_shallower_than_vetoes (M : Nat) (_hM : 4 ≤ M) (t : SleepTable)
    (h : SleepReachable M t) (m : Nat) (hm : (enter_sleep t).depth = some m)
    (d : Nat) (hd : d < M) (hb : countAt t d ≠ 0) : m < d := by
  have hpos := h.ok.2
  have h0 := hpos 0
  have h1 := hpos 1
  have h2 := hpos 2
  have h3 := hpos 3
  unfold enter_sleep at hm
  simp only [EM0, EM1, EM2, EM3] at hm
  split_ifs at hm with c0 c1 c2 c3 <;>
    simp only [SleepAction.depth, EM1, EM2, EM3, Option.some.injEq, reduceCtorEq] at hm
  all_goals
    subst hm
    by_contra hlt
    have hd3 : d ≤ 3 := by omega
    interval_cases d <;> omega

/-- C6 witness: with EM3 blocked twice the processor enters EM2, shallower than depth 3. -/
theorem C6_enter_sleep_shallower_than_vetoes_witness :
    (4 ≤ 5 ∧ SleepReachable 5 [0, 0, 0, 2, 0] ∧ (enter_sleep [0, 0, 0, 2, 0]).depth = some 2 ∧
      3 < 5 ∧ countAt [0, 0, 0, 2, 0] 3 ≠ 0) ∧ 2 < 3 :=
  ⟨⟨by decide, ⟨[SleepCall.block 3, SleepCall.block 3], by decide, by decide⟩, by decide,
     by decide, by decide⟩,
   C6_enter_sleep_shallower_than_vetoes 5 (by decide) [0, 0, 0, 2, 0]
     ⟨[SleepCall.block 3, SleepCall.block 3], by decide, by decide⟩ 2 (by decide) 3
     (by decide) (by decide)⟩

/-- C7. `enter_sleep` sleeps as deep as the vetoes allow, on every reachable table of the
depths `EM0 .. EM3` or `EM0 .. EM4`: if `EM0` or `EM1` is blocked it takes no sleep action;
otherwise, with `b` the shallowest blocked depth, it enters the depth `b - 1` immediately
shallower than `b`; and if nothing is blocked it enters `EM3`, the deepest depth that any
action of `enter_sleep` enters. -/
theorem C7_enter_sleep_as_deep_as_allowed (M : Nat) (hM : 4 ≤ M) (hM5 : M ≤ 5)
    (t : SleepTable) (h : SleepReachable M t) :
    ((countAt t EM0 ≠ 0 ∨ countAt t EM1 ≠ 0) → enter_sleep t = SleepAction.noAction) ∧
    (countAt t EM0 = 0 → countAt t EM1 = 0 →
      ∀ b, IsShallowestBlocked t b → (enter_sleep t).depth = some (b - 1)) ∧
    (NoneBlocked t → enter_sleep t = SleepAction.EMU_EnterEM3) ∧
    (∀ a : SleepAction, ∀ m, a.depth = some m → m ≤ EM3) := by
  obtain ⟨hlen, hpos⟩ := h.ok
  have h0 := hpos 0
  have h1 := hpos 1
  have h2 := hpos 2
  have h3 := hpos 3
  refine ⟨?_, ?_, ?_, ?_⟩
  · intro hb
    unfold enter_sleep
    simp only [EM0, EM1] at hb ⊢
    split_ifs with c0 c1 c2 c3
    · rfl
    · rfl
    all_goals omega
  · intro z0 z1 b hb
    obtain ⟨hbl, hbn, hbz⟩ := hb
    simp only [EM0, EM1] at z0 z1
    have hb4 : b ≤ 4 := by omega
    unfold enter_sleep
    simp only [EM0, EM1, EM2, EM3]
    have hb2 : 2 ≤ b := by
      by_contra hlt
      have : b ≤ 1 := by omega
      interval_cases b <;> omega
    interval_cases b
    · have p2 : countAt t 2 > 0 := by
        have := hpos 2
        omega
      simp [z0, z1, p2, SleepAction.depth, EM1]
    · have q2 := hbz 2 (by omega)
      have p3 : countAt t 3 > 0 := by
        have := hpos 3
        omega
      simp [z0, z1, q2, p3, SleepAction.depth, EM2]
    · have q2 := hbz 2 (by omega)
      have q3 := hbz 3 (by omega)
      simp [z0, z1, q2, q3, SleepAction.depth, EM3]
  · intro hn
    have z0 := hn 0 (by omega)
    have z1 := hn 1 (by omega)
    have z2 := hn 2 (by omega)
    have z3 := hn 3 (by omega)
    simp [enter_sleep, EM0, EM1, EM2, EM3, z0, z1, z2, z3]
  · intro a m ha
    cases a <;> simp [SleepAction.depth, EM1, EM2, EM3] at ha ⊢ <;> omega

/-- C7 witness: five depths, EM3 blocked twice and EM4 once. -/
theorem C7_enter_sleep_as_deep_as_allowed_witness :
    (4 ≤ 5 ∧ 5 ≤ 5 ∧ SleepReachable 5 [0, 0, 0, 2, 1]) ∧
    (((countAt [0, 0, 0, 2, 1] EM0 ≠ 0 ∨ countAt [0, 0, 0, 2, 1] EM1 ≠ 0) →
        enter_sleep [0, 0, 0, 2, 1] = SleepAction.noAction) ∧
     (countAt [0, 0, 0, 2, 1] EM0 = 0 → countAt [0, 0, 0, 2, 1] EM1 = 0 →
        ∀ b, IsShallowestBlocked [0, 0, 0, 2, 1] b →
          (enter_sleep [0, 0, 0, 2, 1]).depth = some (b - 1)) ∧
     (NoneBlocked [0, 0, 0, 2, 1] → enter_sleep [0, 0, 0, 2, 1] = SleepAction.EMU_EnterEM3) ∧
     (∀ a : SleepAction, ∀ m, a.depth = some m → m ≤ EM3)) :=
  ⟨⟨by decide, by decide,
     ⟨[SleepCall.block 3, SleepCall.block 4, SleepCall.block 3], by decide, by decide⟩⟩,
   C7_enter_sleep_as_deep_as_allowed 5 (by decide) (by decide) [0, 0, 0, 2, 1]
     ⟨[SleepCall.block 3, SleepCall.block 4, SleepCall.block 3], by decide, by decide⟩⟩

/-- C8 (as stated, refuted). Releasing depth `EM2` on the freshly opened table, whose count
at `EM2` is zero, returns normally and leaves the table unchanged: the assertion
`lowest_energy_mode[EM] >= 0` holds, so the double release is not fatal. -/
theorem C8_unblock_at_zero_not_fatal :
    countAt (sleep_open 5) EM2 = 0 ∧
    sleep_unblock_mode (sleep_open 5) EM2 = Outcome.ok (sleep_open 5) := by
  decide

/-- C8 (amended). For every veto table and every depth `d` of the table,
`sleep_unblock_mode(d)` decrements the count at `d` by one when it is positive, leaving every
other count unchanged, and when the count at `d` is zero the call changes nothing and returns
normally (its assertion holds). -/
theorem C8_sleep_unblock_mode (t : SleepTable) (d : Nat) (hd : d < t.length) :
    (0 < countAt t d →
      sleep_unblock_mode t d = Outcome.ok (t.set d (countAt t d - 1)) ∧
      countAt (sleep_unblock_mode t d).state d = countAt t d - 1 ∧
      (∀ j, j ≠ d → countAt (sleep_unblock_mode t d).state j = countAt t j) ∧
      (sleep_unblock_mode t d).state.length = t.length) ∧
    (countAt t d = 0 → sleep_unblock_mode t d = Outcome.ok t) := by
  constructor
  · intro hp
    have hs : sleep_unblock_mode t d = Outcome.ok (t.set d (countAt t d - 1)) := by
      unfold sleep_unblock_mode
      have hge : countAt (t.set d (countAt t d - 1)) d ≥ 0 := by
        rw [countAt_set_self t d _ hd]
        omega
      simp [hp, hge]
    refine ⟨hs, ?_, ?_, ?_⟩
    · rw [hs]
      exact countAt_set_self t d _ hd
    · intro j hj
      rw [hs]
      exact countAt_set_other t d j _ hj
    · rw [hs]
      simp [Outcome.state]
  · intro hz
    unfold sleep_unblock_mode
    simp [hz]

/-- C8 witness: the table `[0, 0, 2, 0, 0]` and depth `EM2`. -/
theorem C8_sleep_unblock_mode_witness :
    2 < ([0, 0, 2, 0, 0] : SleepTable).length ∧
    ((0 < countAt [0, 0, 2, 0, 0] 2 →
      sleep_unblock_mode [0, 0, 2, 0, 0] 2
          = Outcome.ok (([0, 0, 2, 0, 0] : SleepTable).set 2 (countAt [0, 0, 2, 0, 0] 2 - 1)) ∧
      countAt (sleep_unblock_mode [0, 0, 2, 0, 0] 2).state 2 = countAt [0, 0, 2, 0, 0] 2 - 1 ∧
      (∀ j, j ≠ 2 →
        countAt (sleep_unblock_mode [0, 0, 2, 0, 0] 2).state j = countAt [0, 0, 2, 0, 0] j) ∧
      (sleep_unblock_mode [0, 0, 2, 0, 0] 2).state.length
          = ([0, 0, 2, 0, 0] : SleepTable).length) ∧
    (countAt [0, 0, 2, 0, 0] 2 = 0 →
      sleep_unblock_mode [0, 0, 2, 0, 0] 2 = Outcome.ok [0, 0, 2, 0, 0])) :=
  ⟨by decide, C8_sleep_unblock_mode [0, 0, 2, 0, 0] 2 (by decide)⟩

/-- C9. For every veto table and every depth `d` of the table (whose count can be
incremented without `int` overflow), `sleep_block_mode(d)` increments the count at `d` by
exactly one and leaves every other count unchanged; its assertion fails if and only if the
resulting count is 5 or more. -/
theorem C9_sleep_block_mode (t : SleepTable) (d : Nat) (hd : d < t.length)
    (_hmax : countAt t d < 2 ^ 31 - 1) :
    countAt (sleep_block_mode t d).state d = countAt t d + 1 ∧
    (∀ j, j ≠ d → countAt (sleep_block_mode t d).state j = countAt t j) ∧
    (sleep_block_mode t d).state.length = t.length ∧
    (sleep_block_mode t d = Outcome.assertFailed (sleep_block_mode t d).state ↔
      5 ≤ countAt t d + 1) ∧
    (sleep_block_mode t d = Outcome.ok (sleep_block_mode t d).state ↔
      countAt t d + 1 < 5) := by
  have hst := sleep_block_mode_state t d
  refine ⟨?_, ?_, ?_, ?_, ?_⟩
  · rw [hst]
    exact countAt_set_self t d _ hd
  · intro j hj
    rw [hst]
    exact countAt_set_other t d j _ hj
  · rw [hst]
    simp
  · rw [hst]
    unfold sleep_block_mode
    simp only [countAt_set_self t d _ hd]
    by_cases hc : countAt t d + 1 < 5
    · simp [hc]
    · simp only [hc, if_false, true_iff]
      omega
  · rw [hst]
    unfold sleep_block_mode
    simp only [countAt_set_self t d _ hd]
    by_cases hc : countAt t d + 1 < 5
    · simp [hc]
    · simp [hc]

/-- C9 witness: blocking `EM2` on a table whose `EM2` count is already 4 trips the ceiling. -/
theorem C9_sleep_block_mode_witness :
    (2 < ([0, 0, 4, 1, 0] : SleepTable).length ∧ countAt [0, 0, 4, 1, 0] 2 < 2 ^ 31 - 1) ∧
    (countAt (sleep_block_mode [0, 0, 4, 1, 0] 2).state 2 = countAt [0, 0, 4, 1, 0] 2 + 1 ∧
     (∀ j, j ≠ 2 →
        countAt (sleep_block_mode [0, 0, 4, 1, 0] 2).state j = countAt [0, 0, 4, 1, 0] j) ∧
     (sleep_block_mode [0, 0, 4, 1, 0] 2).state.length = ([0, 0, 4, 1, 0] : SleepTable).length ∧
     (sleep_block_mode [0, 0, 4, 1, 0] 2
          = Outcome.assertFailed (sleep_block_mode [0, 0, 4, 1, 0] 2).state ↔
        5 ≤ countAt [0, 0, 4, 1, 0] 2 + 1) ∧
     (sleep_block_mode [0, 0, 4, 1, 0] 2
          = Outcome.ok (sleep_block_mode [0, 0, 4, 1, 0] 2).state ↔
        countAt [0, 0, 4, 1, 0] 2 + 1 < 5)) :=
  ⟨⟨by decide, by decide⟩, C9_sleep_block_mode [0, 0, 4, 1, 0] 2 (by decide) (by decide)⟩

/-! ## Bus transaction engine -/

theorem U32_eq : U32 = 4294967296 := by
  norm_num [U32]

theorem set_countAt_self (t : SleepTable) (d : Nat) : t.set d (countAt t d) = t := by
  apply List.ext_getElem?
  intro i
  by_cases hi : d = i
  · subst hi
    by_cases hd : d < t.length
    · simp [countAt, List.getD_eq_getElem?_getD, List.getElem?_set, hd]
    · rw [List.set_eq_of_length_le (by omega)]
  · simp [List.getElem?_set, hi]

theorem sleep_block_mode_ok (t : SleepTable) (d : Nat) (hd : d < t.length)
    (hc : countAt t d + 1 < 5) :
    sleep_block_mode t d = Outcome.ok (t.set d (countAt t d + 1)) := by
  unfold sleep_block_mode
  simp [countAt_set_self t d _ hd, hc]

/-- A veto followed by its release restores the table. -/
theorem sleep_unblock_after_block (t : SleepTable) (d : Nat) (hd : d < t.length)
    (h0 : 0 ≤ countAt t d) :
    sleep_unblock_mode (t.set d (countAt t d + 1)) d = Outcome.ok t := by
  unfold sleep_unblock_mode
  have h1 : countAt (t.set d (countAt t d + 1)) d = countAt t d + 1 :=
    countAt_set_self t d _ hd
  have h2 : (0 : Int) < countAt t d + 1 := by omega
  simp only [h1, gt_iff_lt, h2, if_true, add_sub_cancel_right, List.set_set, set_countAt_self,
    ge_iff_le, h0]

theorem i2c_run_append (es1 es2 : List I2C_IF) (w : World) :
    i2c_run w (es1 ++ es2) = (i2c_run w es1).andThen (fun w1 => i2c_run w1 es2) := by
  induction es1 generalizing w with
  | nil => rfl
  | cons e es ih =>
    show i2c_run w (e :: (es ++ es2)) = _
    simp only [i2c_run]
    cases I2C_IRQHandler w e with
    | ok s => simp only [Outcome.andThen, ih]
    | assertFailed s => rfl
    | spins s => rfl

theorem i2c_states_append (es1 es2 : List I2C_IF) (w w1 : World)
    (h : i2c_run w es1 = Outcome.ok w1) :
    i2c_states w (es1 ++ es2) = i2c_states w es1 ++ i2c_states w1 es2 := by
  induction es1 generalizing w with
  | nil =>
    simp only [i2c_run, Outcome.ok.injEq] at h
    subst h
    rfl
  | cons e es ih =>
    show i2c_states w (e :: (es ++ es2)) = _
    simp only [i2c_states]
    simp only [i2c_run] at h
    cases hh : I2C_IRQHandler w e with
    | ok s =>
      rw [hh] at h
      simp only [Outcome.andThen] at h
      simp only [ih s h, List.cons_append]
    | assertFailed s =>
      rw [hh] at h
      simp [Outcome.andThen] at h
    | spins s =>
      rw [hh] at h
      simp [Outcome.andThen] at h

/-- The case split of `u32_sub` is subtraction modulo `2 ^ 32`. -/
theorem u32_sub_eq_mod (x y : Nat) (hx : x < U32) (hy : y < U32) :
    u32_sub x y = (x + U32 - y) % U32 := by
  rw [U32_eq] at hx hy
  unfold u32_sub
  rw [U32_eq]
  split <;> omega

/-- Data phase of a write: from `slave_rw` with `n + 1` bytes remaining, `n + 1` acknowledge
events each transmit the data word, and the last one moves the engine to `end_comm`. -/
theorem i2c_write_data_phase (n : Nat) (w : World) (hr : w.i2c_sm.read = false)
    (hs : w.i2c_sm.state = DEFINED_STATES.slave_rw) (hn : w.i2c_sm.numbytes = n + 1) :
    i2c_run w (List.replicate (n + 1) I2C_IF.ACK) = Outcome.ok (afterWriteData w (n + 1)) ∧
    i2c_states w (List.replicate (n + 1) I2C_IF.ACK)
      = List.replicate n DEFINED_STATES.slave_rw ++ [DEFINED_STATES.end_comm] := by
  induction n generalizing w with
  | zero =>
    have hstep : I2C_IRQHandler w I2C_IF.ACK = Outcome.ok (afterWriteData w 1) := by
      simp only [I2C_IRQHandler, i2c_ack, hr, hs, World.i2c_write, hn, afterWriteData, u32_sub]
      simp
    simp only [List.replicate, i2c_run, i2c_states, hstep, Outcome.andThen]
    simp [afterWriteData]
  | succ n ih =>
    let w1 : World :=
      { w with
        i2c_sm := { w.i2c_sm with numbytes := n + 1 }
        i2c_writes := w.i2c_writes ++ [(w.i2c_sm.I2C_periph, I2C_RegWrite.TXDATA w.i2c_sm.data)] }
    have hstep : I2C_IRQHandler w I2C_IF.ACK = Outcome.ok w1 := by
      simp only [I2C_IRQHandler, i2c_ack, hr, hs, World.i2c_write, hn, u32_sub]
      simp [w1, hs, hr]
    have ih1 := ih w1 hr hs rfl
    have hw : afterWriteData w1 (n + 1) = afterWriteData w (n + 1 + 1) := by
      simp [afterWriteData, w1, List.replicate_succ]
    constructor
    · rw [List.replicate_succ, i2c_run, hstep]
      simp only [Outcome.andThen]
      rw [ih1.1, hw]
    · rw [List.replicate_succ, i2c_states, hstep]
      simp only []
      rw [ih1.2]
      simp [List.replicate_succ, w1, hs]

/-- Before the last data byte: from `slave_rw` with `n + 1` bytes remaining, `k ≤ n`
acknowledge events each transmit the data word and leave the engine in `slave_rw`. -/
theorem i2c_write_data_partway (k n : Nat) (w : World) (hr : w.i2c_sm.read = false)
    (hs : w.i2c_sm.state = DEFINED_STATES.slave_rw) (hn : w.i2c_sm.numbytes = n + 1)
    (hk : k ≤ n) :
    i2c_run w (List.replicate k I2C_IF.ACK)
      = Outcome.ok
          { w with
            i2c_sm := { w.i2c_sm with numbytes := n + 1 - k }
            i2c_writes := w.i2c_writes
              ++ List.replicate k (w.i2c_sm.I2C_periph, I2C_RegWrite.TXDATA w.i2c_sm.data) } := by
  induction k generalizing w n with
  | zero =>
    simp only [List.replicate, i2c_run, Nat.sub_zero, List.append_nil, ← hn]
  | succ k ih =>
    obtain ⟨m, rfl⟩ : ∃ m, n = m + 1 := ⟨n - 1, by omega⟩
    let w1 : World :=
      { w with
        i2c_sm := { w.i2c_sm with numbytes := m + 1 }
        i2c_writes := w.i2c_writes ++ [(w.i2c_sm.I2C_periph, I2C_RegWrite.TXDATA w.i2c_sm.data)] }
    have hstep : I2C_IRQHandler w I2C_IF.ACK = Outcome.ok w1 := by
      simp only [I2C_IRQHandler, i2c_ack, hr, hs, World.i2c_write, hn, u32_sub]
      simp [w1, hs, hr]
    have ih1 := ih m w1 hr hs rfl (by omega)
    rw [List.replicate_succ, i2c_run, hstep]
    simp only [Outcome.andThen]
    rw [ih1]
    simp [w1, List.replicate_succ]

/-- The world `i2c_start` leaves when its assertions hold. -/
theorem i2c_start_ok (w : World) (i2c : I2C_TypeDef)
    (address_slave command data_ callback numbytes : Nat) (busy read : Bool)
    (hEM : EM2 < w.lowest_energy_mode.length)
    (h4 : countAt w.lowest_energy_mode EM2 + 1 < 5) :
    i2c_start w true i2c address_slave command data_ callback numbytes busy read
      = Outcome.ok
          { w with
            lowest_energy_mode :=
              w.lowest_energy_mode.set EM2 (countAt w.lowest_energy_mode EM2 + 1)
            i2c_sm :=
              { state := DEFINED_STATES.start_comm
                slave_address := address_slave
                command_ := command
                I2C_periph := i2c
                data := data_
                callback := callback
                numbytes := numbytes
                busy := busy
                read := read }
            i2c_writes := w.i2c_writes ++
              [(i2c, I2C_RegWrite.CMD I2C_CMD.I2C_CMD_START),
               (i2c, I2C_RegWrite.TXDATA (((address_slave <<< 1) % U32) ||| WRITE))] } := by
  simp only [i2c_start, World.sleep_block_mode, sleep_block_mode_ok _ _ hEM h4, Outcome.map,
    Outcome.andThen, World.i2c_write, if_true]
  simp

/-- C3 (as stated, refuted). A one-byte write on the freshly booted engine: the state after
the first acknowledge is `slave_rw` (the enumerator the read path uses for AddrReadRepeat),
not `command`; the states visited are `slave_rw, end_comm, start_comm`, and an acknowledge
received in `command` during a write fails the assertion. -/
theorem C3_write_path_skips_command :
    ∃ w0 : World,
      i2c_start (World.boot 5 64) true I2C_TypeDef.I2C0 0x40 0xE6 0x3A 8 1 true false
        = Outcome.ok w0 ∧
      w0.i2c_sm.state = DEFINED_STATES.start_comm ∧
      i2c_states w0 [I2C_IF.ACK, I2C_IF.ACK, I2C_IF.ACK]
        = [DEFINED_STATES.slave_rw, DEFINED_STATES.end_comm, DEFINED_STATES.start_comm] ∧
      DEFINED_STATES.command ∉ i2c_states w0 [I2C_IF.ACK, I2C_IF.ACK, I2C_IF.ACK] ∧
      (i2c_ack { w0 with i2c_sm := { w0.i2c_sm with state := DEFINED_STATES.command } }).isOk
        = false := by
  refine ⟨_, rfl, ?_, ?_, ?_, ?_⟩ <;> decide

/-- C3 (amended). For every `N ≥ 1`, a write transaction of `N` bytes started by `i2c_start`
(`read = false`) and driven only by acknowledge events passes exactly through the states
`start_comm` (AddrWrite) → `slave_rw` → `end_comm` (End), never through `command`: the first
acknowledge transmits the command byte, each of the next `N` acknowledges transmits the data
word, and the last of them enters `end_comm`; until then no event is set and `busy` keeps
the value given to `i2c_start`. The following acknowledge sets `callback` in the event
registry, clears `busy`, releases the EM2 veto and resets the state to `start_comm`. -/
theorem C3_i2c_write_transaction (w : World) (i2c : I2C_TypeDef)
    (address_slave command data_ callback N : Nat) (busy : Bool)
    (hN : 1 ≤ N) (_hN32 : N < U32)
    (hEM : EM2 < w.lowest_energy_mode.length)
    (h0 : 0 ≤ countAt w.lowest_energy_mode EM2)
    (h4 : countAt w.lowest_energy_mode EM2 + 1 < 5) :
    ∃ w0 w1 w2 : World,
      i2c_start w true i2c address_slave command data_ callback N busy false = Outcome.ok w0 ∧
      w0.i2c_sm.state = DEFINED_STATES.start_comm ∧
      i2c_run w0 (List.replicate (N + 1) I2C_IF.ACK) = Outcome.ok w1 ∧
      i2c_states w0 (List.replicate (N + 1) I2C_IF.ACK)
        = List.replicate N DEFINED_STATES.slave_rw ++ [DEFINED_STATES.end_comm] ∧
      w1.i2c_writes = w0.i2c_writes ++
        (i2c, I2C_RegWrite.TXDATA command) :: List.replicate N (i2c, I2C_RegWrite.TXDATA data_) ∧
      (∀ k, k ≤ N + 1 → ∃ wk : World,
        i2c_run w0 (List.replicate k I2C_IF.ACK) = Outcome.ok wk ∧
        wk.event_scheduled = w.event_scheduled ∧ wk.i2c_sm.busy = busy) ∧
      I2C_IRQHandler w1 I2C_IF.ACK = Outcome.ok w2 ∧
      w2.event_scheduled = add_scheduled_event w.event_scheduled callback ∧
      w2.i2c_sm.busy = false ∧
      w2.i2c_sm.state = DEFINED_STATES.start_comm ∧
      w2.lowest_energy_mode = w.lowest_energy_mode ∧
      w2.i2c_writes = w1.i2c_writes := by
  obtain ⟨n, rfl⟩ : ∃ n, N = n + 1 := ⟨N - 1, by omega⟩
  have hstart := i2c_start_ok w i2c address_slave command data_ callback (n + 1) busy false hEM h4
  generalize hw0 : ({ w with
      lowest_energy_mode := w.lowest_energy_mode.set EM2 (countAt w.lowest_energy_mode EM2 + 1)
      i2c_sm :=
        { state := DEFINED_STATES.start_comm
          slave_address := address_slave
          command_ := command
          I2C_periph := i2c
          data := data_
          callback := callback
          numbytes := n + 1
          busy := busy
          read := false }
      i2c_writes := w.i2c_writes ++
        [(i2c, I2C_RegWrite.CMD I2C_CMD.I2C_CMD_START),
         (i2c, I2C_RegWrite.TXDATA (((address_slave <<< 1) % U32) ||| WRITE))] } : World) = w0
    at hstart
  let wa : World :=
    { w0 with
      i2c_sm := { w0.i2c_sm with state := DEFINED_STATES.slave_rw }
      i2c_writes := w0.i2c_writes ++ [(i2c, I2C_RegWrite.TXDATA command)] }
  have hA : I2C_IRQHandler w0 I2C_IF.ACK = Outcome.ok wa := by
    subst hw0
    simp [I2C_IRQHandler, i2c_ack, World.i2c_write, wa]
  have hread : wa.i2c_sm.read = false := by
    subst hw0
    rfl
  have hstate : wa.i2c_sm.state = DEFINED_STATES.slave_rw := rfl
  have hnum : wa.i2c_sm.numbytes = n + 1 := by
    subst hw0
    rfl
  obtain ⟨hrun, hstates⟩ := i2c_write_data_phase n wa hread hstate hnum
  refine ⟨w0, afterWriteData wa (n + 1),
    { w0 with
      lowest_energy_mode := w.lowest_energy_mode
      event_scheduled := add_scheduled_event w.event_scheduled callback
      i2c_sm := { w0.i2c_sm with state := DEFINED_STATES.start_comm, numbytes := 0, busy := false }
      i2c_writes := (afterWriteData wa (n + 1)).i2c_writes },
    hstart, ?_, ?_, ?_, ?_, ?_, ?_, rfl, rfl, rfl, rfl, rfl⟩
  · subst hw0
    rfl
  · rw [List.replicate_succ, i2c_run, hA]
    exact hrun
  · rw [List.replicate_succ, i2c_states, hA]
    simp only []
    rw [hstates]
    simp [List.replicate_succ]
  · subst hw0
    simp [afterWriteData, wa]
  · intro k hk
    cases k with
    | zero =>
      refine ⟨w0, rfl, ?_, ?_⟩ <;> (subst hw0; rfl)
    | succ j =>
      rw [List.replicate_succ, i2c_run, hA]
      simp only [Outcome.andThen]
      by_cases hj : j ≤ n
      · rw [i2c_write_data_partway j n wa hread hstate hnum hj]
        refine ⟨_, rfl, ?_, ?_⟩ <;> (subst hw0; rfl)
      · have hjn : j = n + 1 := by omega
        subst hjn
        rw [hrun]
        refine ⟨_, rfl, ?_, ?_⟩ <;> (subst hw0; rfl)
  · subst hw0
    have hun := sleep_unblock_after_block w.lowest_energy_mode EM2 hEM h0
    simp [I2C_IRQHandler, i2c_ack, afterWriteData, wa, World.sleep_unblock_mode, hun,
      Outcome.map, Outcome.andThen, World.add_scheduled_event]

/-- C3 witness: a three-byte write on the freshly booted engine. -/
theorem C3_i2c_write_transaction_witness :
    (1 ≤ 3 ∧ 3 < U32 ∧ EM2 < (World.boot 5 64).lowest_energy_mode.length ∧
      0 ≤ countAt (World.boot 5 64).lowest_energy_mode EM2 ∧
      countAt (World.boot 5 64).lowest_energy_mode EM2 + 1 < 5) ∧
    ∃ w0 w1 w2 : World,
      i2c_start (World.boot 5 64) true I2C_TypeDef.I2C0 0x40 0xE6 0x3A 8 3 true false
        = Outcome.ok w0 ∧
      w0.i2c_sm.state = DEFINED_STATES.start_comm ∧
      i2c_run w0 (List.replicate (3 + 1) I2C_IF.ACK) = Outcome.ok w1 ∧
      i2c_states w0 (List.replicate (3 + 1) I2C_IF.ACK)
        = List.replicate 3 DEFINED_STATES.slave_rw ++ [DEFINED_STATES.end_comm] ∧
      w1.i2c_writes = w0.i2c_writes ++
        (I2C_TypeDef.I2C0, I2C_RegWrite.TXDATA 0xE6)
          :: List.replicate 3 (I2C_TypeDef.I2C0, I2C_RegWrite.TXDATA 0x3A) ∧
      (∀ k, k ≤ 3 + 1 → ∃ wk : World,
        i2c_run w0 (List.replicate k I2C_IF.ACK) = Outcome.ok wk ∧
        wk.event_scheduled = (World.boot 5 64).event_scheduled ∧ wk.i2c_sm.busy = true) ∧
      I2C_IRQHandler w1 I2C_IF.ACK = Outcome.ok w2 ∧
      w2.event_scheduled = add_scheduled_event (World.boot 5 64).event_scheduled 8 ∧
      w2.i2c_sm.busy = false ∧
      w2.i2c_sm.state = DEFINED_STATES.start_comm ∧
      w2.lowest_energy_mode = (World.boot 5 64).lowest_energy_mode ∧
      w2.i2c_writes = w1.i2c_writes :=
  ⟨⟨by decide, by decide, by decide, by decide, by decide⟩,
   C3_i2c_write_transaction (World.boot 5 64) I2C_TypeDef.I2C0 0x40 0xE6 0x3A 8 3 true
     (by decide) (by decide) (by decide) (by decide) (by decide)⟩

/-- Not-acknowledge retries: in `slave_rw` of a read, `k` NACK events change nothing but the
register log, to which each adds a repeated start and the read address. -/
theorem i2c_nack_retry (k : Nat) (w : World) (hr : w.i2c_sm.read = true)
    (hs : w.i2c_sm.state = DEFINED_STATES.slave_rw) :
    i2c_run w (List.replicate k I2C_IF.NACK)
      = Outcome.ok
          { w with
            i2c_writes := w.i2c_writes
              ++ nackWrites w.i2c_sm.I2C_periph w.i2c_sm.slave_address k } := by
  induction k generalizing w with
  | zero => simp [i2c_run, nackWrites]
  | succ k ih =>
    let w1 : World :=
      { w with
        i2c_writes := w.i2c_writes ++
          [(w.i2c_sm.I2C_periph, I2C_RegWrite.CMD I2C_CMD.I2C_CMD_START),
           (w.i2c_sm.I2C_periph,
             I2C_RegWrite.TXDATA (((w.i2c_sm.slave_address <<< 1) % U32) ||| READ))] }
    have hstep : I2C_IRQHandler w I2C_IF.NACK = Outcome.ok w1 := by
      simp only [I2C_IRQHandler, i2c_nack, hr, hs, World.i2c_write, if_true]
      simp only [w1, ← hs, Outcome.ok.injEq]
      rw [← hr]
      simp
    rw [List.replicate_succ, i2c_run, hstep]
    simp only [Outcome.andThen]
    rw [ih w1 hr hs]
    simp [w1, nackWrites]

/-- The run of a two-byte read with `k` NACK retries, in closed form. -/
theorem i2c_read_trace_run (w : World) (i2c : I2C_TypeDef)
    (address_slave command data_ callback : Nat) (busy : Bool) (k hi lo : Nat)
    (hEM : EM2 < w.lowest_energy_mode.length)
    (h0 : 0 ≤ countAt w.lowest_energy_mode EM2)
    (h4 : countAt w.lowest_energy_mode EM2 + 1 < 5) :
    (i2c_start w true i2c address_slave command data_ callback 2 busy true).andThen
        (fun w0 => i2c_run w0 (readTrace k hi lo))
      = Outcome.ok (readFinal w i2c address_slave command callback k hi lo) := by
  rw [i2c_start_ok w i2c address_slave command data_ callback 2 busy true hEM h4]
  simp only [Outcome.andThen, readTrace, List.append_assoc, i2c_run_append]
  have hun := sleep_unblock_after_block w.lowest_energy_mode EM2 hEM h0
  simp only [i2c_run, I2C_IRQHandler, i2c_ack, World.i2c_write, if_true, Outcome.andThen]
  rw [i2c_nack_retry k _ rfl rfl]
  simp [i2c_run, I2C_IRQHandler, i2c_ack, i2c_rxdatav, i2c_mstop, World.i2c_write,
    Outcome.andThen, World.sleep_unblock_mode, hun, Outcome.map, World.add_scheduled_event,
    readFinal]

/-- C4. NACK retry equivalence: for a two-byte read started by `i2c_start` (whose assertions
hold) and every `k ≥ 0`, the interrupt trace `ACK, ACK, NACK^k, ACK, RXDATAV(hi),
RXDATAV(lo), MSTOP` raises no assertion and ends with the same engine state, the same stored
result `hi << 8 | lo`, the same sleep-veto counts and the same pending events as the trace
with `k = 0`; the two final worlds differ at most in the log of register writes. -/
theorem C4_nack_retry_equivalence (w : World) (i2c : I2C_TypeDef)
    (address_slave command data_ callback : Nat) (busy : Bool) (k hi lo : Nat)
    (hhi : hi < 256) (_hlo : lo < 256)
    (hEM : EM2 < w.lowest_energy_mode.length)
    (h0 : 0 ≤ countAt w.lowest_energy_mode EM2)
    (h4 : countAt w.lowest_energy_mode EM2 + 1 < 5) :
    ∃ w0 wk wz : World,
      i2c_start w true i2c address_slave command data_ callback 2 busy true = Outcome.ok w0 ∧
      i2c_run w0 (readTrace k hi lo) = Outcome.ok wk ∧
      i2c_run w0 (readTrace 0 hi lo) = Outcome.ok wz ∧
      wk.i2c_sm = wz.i2c_sm ∧
      wk.i2c_sm.state = DEFINED_STATES.start_comm ∧
      wk.i2c_sm.busy = false ∧
      wk.i2c_sm.data = (hi <<< 8) ||| lo ∧
      wk.lowest_energy_mode = wz.lowest_energy_mode ∧
      wk.event_scheduled = wz.event_scheduled ∧
      wk = { wz with i2c_writes := wk.i2c_writes } := by
  have hstart := i2c_start_ok w i2c address_slave command data_ callback 2 busy true hEM h4
  have hk := i2c_read_trace_run w i2c address_slave command data_ callback busy k hi lo hEM h0 h4
  have hz := i2c_read_trace_run w i2c address_slave command data_ callback busy 0 hi lo hEM h0 h4
  rw [hstart] at hk hz
  simp only [Outcome.andThen] at hk hz
  have hshift : (hi <<< 8) % U32 = hi <<< 8 := by
    rw [Nat.shiftLeft_eq, U32_eq]
    exact Nat.mod_eq_of_lt (by omega)
  refine ⟨_, _, _, hstart, hk, hz, rfl, rfl, rfl, ?_, rfl, rfl, rfl⟩
  simp only [readFinal, hshift]

/-- C4 witness: the responder rejects the read address twice (`k = 2`), bytes `0x12, 0x34`. -/
theorem C4_nack_retry_equivalence_witness :
    (0x12 < 256 ∧ 0x34 < 256 ∧ EM2 < (World.boot 5 64).lowest_energy_mode.length ∧
      0 ≤ countAt (World.boot 5 64).lowest_energy_mode EM2 ∧
      countAt (World.boot 5 64).lowest_energy_mode EM2 + 1 < 5) ∧
    ∃ w0 wk wz : World,
      i2c_start (World.boot 5 64) true I2C_TypeDef.I2C0 0x40 0xF5 0 8 2 true true
        = Outcome.ok w0 ∧
      i2c_run w0 (readTrace 2 0x12 0x34) = Outcome.ok wk ∧
      i2c_run w0 (readTrace 0 0x12 0x34) = Outcome.ok wz ∧
      wk.i2c_sm = wz.i2c_sm ∧
      wk.i2c_sm.state = DEFINED_STATES.start_comm ∧
      wk.i2c_sm.busy = false ∧
      wk.i2c_sm.data = (0x12 <<< 8) ||| 0x34 ∧
      wk.lowest_energy_mode = wz.lowest_energy_mode ∧
      wk.event_scheduled = wz.event_scheduled ∧
      wk = { wz with i2c_writes := wk.i2c_writes } :=
  ⟨⟨by decide, by decide, by decide, by decide, by decide⟩,
   C4_nack_retry_equivalence (World.boot 5 64) I2C_TypeDef.I2C0 0x40 0xF5 0 8 true 2 0x12 0x34
     (by decide) (by decide) (by decide) (by decide) (by decide)⟩

/-! ## Serial transmit engine -/

/-- C2 (the code at the failing input `"hi"`). After `leuart_start("hi", BLE_TX_DONE_CB)` on
the idle engine the first buffer-ready interrupt writes `'h'` and, because the sent count 1
already equals `string_length - 1`, disarms the buffer-ready interrupt and enters `stop`.
The second buffer-ready interrupt of the scenario fails the assertion of `leuart_txbl`; when
it is delivered through `LEUART0_IRQHandler` it is masked and dropped. Either way the
transmit register receives `'h'` only: `'i'` is never written, although the
transmission-complete interrupt then reports completion. -/
theorem C2_leuart_hi_drops_last_byte :
    ∃ w1 w2 w3 : World,
      leuart_start EM3 (World.boot 5 64) [104, 105] BLE_TX_DONE_CB = Outcome.ok w1 ∧
      leuart_txbl w1 = Outcome.ok w2 ∧
      w2.LEUART0_TXDATA = [104] ∧
      w2.leuart_sm.state = LEUART_STATES.stop ∧
      w2.LEUART0_IEN_TXBL = false ∧
      leuart_txbl w2 = Outcome.assertFailed w2 ∧
      leuart_txbl_times 2 w1 = Outcome.assertFailed w2 ∧
      (LEUART0_TXBL_times EM3 2 w1).andThen (fun w => LEUART0_IRQHandler EM3 w false true)
        = Outcome.ok w3 ∧
      w3.LEUART0_TXDATA = [104] ∧
      leuart_tx_busy w3 = false ∧
      w3.event_scheduled = BLE_TX_DONE_CB := by
  refine ⟨_, _, _, rfl, rfl, ?_, ?_, ?_, ?_, ?_, rfl, ?_, ?_, ?_⟩ <;> decide

theorem txblWrites_succ (string_ : List Nat) (s j : Nat) :
    txblWrites string_ s (j + 1) = (string_.getD s 0 % 256) :: txblWrites string_ (s + 1) j := by
  simp only [txblWrites, List.range_succ_eq_map, List.map_cons, List.map_map, Nat.add_zero,
    List.cons.injEq, true_and]
  apply List.map_congr_left
  intro i _
  simp only [Function.comp, Nat.succ_eq_add_one]
  rw [show s + (i + 1) = s + 1 + i by omega]

/-- The transmit phase in general: when `j + 2` characters are still unsent, `j + 1`
buffer-ready interrupts write `j + 1` of them and the last one enters `stop` with the
buffer-ready interrupt disarmed, one character short of the message. -/
theorem leuart_txbl_run (j : Nat) (w : World)
    (hs : w.leuart_sm.state = LEUART_STATES.transmit)
    (hlen : w.leuart_sm.sent_bytes + j + 2 = w.leuart_sm.string_length)
    (h32 : w.leuart_sm.string_length < U32) :
    leuart_txbl_times (j + 1) w
      = Outcome.ok
          { w with
            leuart_sm :=
              { w.leuart_sm with
                sent_bytes := w.leuart_sm.sent_bytes + j + 1
                state := LEUART_STATES.stop }
            LEUART0_IEN_TXC := true
            LEUART0_IEN_TXBL := false
            LEUART0_TXDATA := w.LEUART0_TXDATA
              ++ txblWrites w.leuart_sm.string_ w.leuart_sm.sent_bytes (j + 1) } := by
  rw [U32_eq] at h32
  induction j generalizing w with
  | zero =>
    have hm : (w.leuart_sm.sent_bytes + 1) % 4294967296 = w.leuart_sm.sent_bytes + 1 :=
      Nat.mod_eq_of_lt (by omega)
    have hsub : u32_sub w.leuart_sm.string_length 1 = w.leuart_sm.sent_bytes + 1 := by
      unfold u32_sub
      split <;> omega
    simp only [leuart_txbl_times, leuart_txbl, hs, leuart_app_transmit_byte, U32_eq, hm, hsub,
      if_true, Outcome.andThen]
    simp [txblWrites, List.range_succ]
  | succ j ih =>
    have hm : (w.leuart_sm.sent_bytes + 1) % 4294967296 = w.leuart_sm.sent_bytes + 1 :=
      Nat.mod_eq_of_lt (by omega)
    have hsub : ¬ (w.leuart_sm.sent_bytes + 1 = u32_sub w.leuart_sm.string_length 1) := by
      unfold u32_sub
      split <;> omega
    let w1 : World :=
      { w with
        leuart_sm := { w.leuart_sm with sent_bytes := w.leuart_sm.sent_bytes + 1 }
        LEUART0_TXDATA := w.LEUART0_TXDATA
          ++ [w.leuart_sm.string_.getD w.leuart_sm.sent_bytes 0 % 256] }
    have hstep : leuart_txbl w = Outcome.ok w1 := by
      simp only [leuart_txbl, hs, leuart_app_transmit_byte, U32_eq, hm, hsub, if_false, w1]
    have ih1 := ih w1 hs
      (by show w.leuart_sm.sent_bytes + 1 + j + 2 = w.leuart_sm.string_length; omega) h32
    rw [leuart_txbl_times, hstep]
    simp only [Outcome.andThen]
    rw [ih1, txblWrites_succ w.leuart_sm.string_ w.leuart_sm.sent_bytes (j + 1)]
    simp only [w1, List.append_assoc, List.singleton_append, Outcome.ok.injEq]
    rw [show w.leuart_sm.sent_bytes + 1 + j + 1 = w.leuart_sm.sent_bytes + (j + 1) + 1 by omega]

theorem leuart_txbl_times_succ_last (n : Nat) (v : World) :
    leuart_txbl_times (n + 1) v = (leuart_txbl_times n v).andThen leuart_txbl := by
  induction n generalizing v with
  | zero =>
    show (leuart_txbl v).andThen (leuart_txbl_times 0) = leuart_txbl v
    cases leuart_txbl v <;> rfl
  | succ n ih =>
    show (leuart_txbl v).andThen (leuart_txbl_times (n + 1))
      = ((leuart_txbl v).andThen (leuart_txbl_times n)).andThen leuart_txbl
    cases leuart_txbl v with
    | ok s => exact ih s
    | assertFailed s => rfl
    | spins s => rfl

/-- In `stop` a further buffer-ready interrupt fails the assertion of `leuart_txbl`. -/
theorem leuart_txbl_in_stop (w : World) (hs : w.leuart_sm.state = LEUART_STATES.stop) :
    leuart_txbl w = Outcome.assertFailed w := by
  simp only [leuart_txbl, hs]

/-- The characters `leuart_start` copied are read back from the engine's array. -/
theorem txblWrites_strcpy (dst string : List Nat) (j : Nat) (hj : j ≤ string.length) :
    txblWrites (strcpy dst string) 0 j = (string.take j).map (fun c => c % 256) := by
  apply List.ext_getElem
  · simp [txblWrites, hj]
  · intro i h1 h2
    simp only [txblWrites, List.length_map, List.length_range] at h1
    have hi : i < string.length := by omega
    simp only [txblWrites, strcpy, List.getElem_map, List.getElem_range, Nat.zero_add,
      List.append_assoc, List.getD_append _ _ _ _ hi, List.getElem_take]
    rw [List.getD_eq_getElem _ _ hi]

/-- For every message of `n ≥ 2` characters sent from an idle engine (whose veto is
accepted): after `leuart_start`, `n - 1` buffer-ready interrupts write the first `n - 1`
characters and leave the engine in `stop`, and the `n`-th buffer-ready interrupt fails the
assertion, so `n` buffer-ready interrupts never write the `n` characters. -/
theorem leuart_message_one_short (LEUART_TX_EM : Nat) (w : World) (string : List Nat)
    (call_back : Nat) (hidle : leuart_tx_busy w = false) (hn : 2 ≤ string.length)
    (h32 : string.length < U32)
    (hEM : LEUART_TX_EM < w.lowest_energy_mode.length)
    (h4 : countAt w.lowest_energy_mode LEUART_TX_EM + 1 < 5) :
    ∃ w1 w2 : World,
      leuart_start LEUART_TX_EM w string call_back = Outcome.ok w1 ∧
      leuart_txbl_times (string.length - 1) w1 = Outcome.ok w2 ∧
      w2.leuart_sm.state = LEUART_STATES.stop ∧
      w2.LEUART0_TXDATA
        = w.LEUART0_TXDATA ++ (string.take (string.length - 1)).map (fun c => c % 256) ∧
      leuart_txbl_times string.length w1 = Outcome.assertFailed w2 := by
  obtain ⟨j, hj⟩ : ∃ j, string.length = j + 2 := ⟨string.length - 2, by omega⟩
  let w1 : World :=
    { w with
      lowest_energy_mode :=
        w.lowest_energy_mode.set LEUART_TX_EM (countAt w.lowest_energy_mode LEUART_TX_EM + 1)
      leuart_sm :=
        { state := LEUART_STATES.transmit
          string_ := strcpy w.leuart_sm.string_ string
          string_length := string.length
          sent_bytes := 0
          busy := true
          callback := call_back }
      LEUART0_IEN_TXBL := true }
  have hstart : leuart_start LEUART_TX_EM w string call_back = Outcome.ok w1 := by
    simp only [leuart_start, hidle, World.sleep_block_mode, sleep_block_mode_ok _ _ hEM h4,
      Outcome.map, Outcome.andThen, w1]
    simp
  have hrun := leuart_txbl_run j w1 rfl (by show 0 + j + 2 = string.length; omega)
    (by show string.length < U32; exact h32)
  have hlen1 : string.length - 1 = j + 1 := by omega
  refine ⟨_, _, hstart, by rw [hlen1]; exact hrun, rfl, ?_, ?_⟩
  · show w.LEUART0_TXDATA ++ txblWrites (strcpy w.leuart_sm.string_ string) 0 (j + 1) = _
    rw [txblWrites_strcpy _ _ _ (by omega), hlen1]
  · rw [show string.length = (j + 1) + 1 by omega, leuart_txbl_times_succ_last (j + 1), hrun]
    simp only [Outcome.andThen]
    exact leuart_txbl_in_stop _ rfl

/-! ## Framed output ring buffer -/

theorem land_63 (x : Nat) : x &&& 63 = x % 64 :=
  Nat.and_pow_two_sub_one_eq_mod x 6

/-- Free space in terms of the indices, for a buffer set up by `ble_circ_init`. -/
theorem ble_circ_space_eq (b : BLE_CIRCULAR_BUF) (hsize : b.size = CSIZE)
    (hmask : b.size_mask = CSIZE - 1) (hr : b.read_ptr < CSIZE) (hw : b.write_ptr < CSIZE) :
    ble_circ_space b = 64 - (b.write_ptr + 64 - b.read_ptr) % 64 := by
  simp only [CSIZE] at hsize hmask hr hw
  simp only [ble_circ_space, hsize, hmask, Nat.add_one_sub_one, land_63, u32_sub, U32_eq]
  split_ifs <;> omega

/-- Shape of a successful push: only `cbuf` and `write_ptr` change, and the write index
advances by `len(m)`. -/
theorem ble_circ_push_ok (b : BLE_CIRCULAR_BUF) (m : List Nat)
    (hfit : m.length + 1 ≤ ble_circ_space b) :
    ∃ c : List Nat,
      ble_circ_push b m
        = Outcome.ok
            { b with
              cbuf := c
              write_ptr := ((b.write_ptr + m.length) % U32) &&& b.size_mask } := by
  exact ⟨m.foldl (fun cbuf ch => cbuf.set b.write_ptr ch)
      (b.cbuf.set b.write_ptr ((m.length + 1) % 256)),
    by simp only [ble_circ_push, hfit, if_true, update_circ_wrtindex]⟩

/-- What `ble_circ_push` does to the free space, for every message that passes its check:
the write index advances by `len(m)` and the free space shrinks by `len(m)` (not by the
`len(m) + 1` slots the check reserved). -/
theorem ble_circ_push_space (b : BLE_CIRCULAR_BUF) (m : List Nat) (hsize : b.size = CSIZE)
    (hmask : b.size_mask = CSIZE - 1) (hr : b.read_ptr < CSIZE) (hw : b.write_ptr < CSIZE)
    (hfit : m.length + 1 ≤ ble_circ_space b) :
    ∃ b1 : BLE_CIRCULAR_BUF,
      ble_circ_push b m = Outcome.ok b1 ∧
      b1.read_ptr = b.read_ptr ∧
      b1.write_ptr = (b.write_ptr + m.length) % 64 ∧
      ble_circ_space b1 + m.length = ble_circ_space b := by
  have hsp := ble_circ_space_eq b hsize hmask hr hw
  have hw1 : ((b.write_ptr + m.length) % U32) &&& b.size_mask = (b.write_ptr + m.length) % 64 := by
    simp only [CSIZE] at hmask hr hw
    rw [hmask, land_63, U32_eq]
    omega
  obtain ⟨c, hc⟩ := ble_circ_push_ok b m hfit
  rw [hw1] at hc
  refine ⟨_, hc, rfl, rfl, ?_⟩
  have hlt : (b.write_ptr + m.length) % 64 < CSIZE := by
    simp only [CSIZE]
    omega
  rw [ble_circ_space_eq
    { b with cbuf := c, write_ptr := (b.write_ptr + m.length) % 64 } hsize hmask hr hlt, hsp]
  rw [hsp] at hfit
  show 64 - ((b.write_ptr + m.length) % 64 + 64 - b.read_ptr) % 64 + m.length
      = 64 - (b.write_ptr + 64 - b.read_ptr) % 64
  simp only [CSIZE] at hr hw
  omega

theorem foldl_set_same (i : Nat) (m : List Nat) (c : List Nat) (x : Nat) :
    (x :: m).foldl (fun cbuf ch => cbuf.set i ch) c = c.set i ((x :: m).getLast (by simp)) := by
  induction m generalizing c x with
  | nil => rfl
  | cons y m ih =>
    rw [List.foldl_cons, ih (c.set i x) y, List.set_set]
    rfl

/-- What `ble_circ_push` stores, for every non-empty message that passes its check: the only
slot that changes is `cbuf[write_ptr]`, and it ends up holding the last character of the
message (the length byte and the other characters were overwritten in the same slot). -/
theorem ble_circ_push_cbuf (b : BLE_CIRCULAR_BUF) (x : Nat) (m : List Nat)
    (hfit : (x :: m).length + 1 ≤ ble_circ_space b) :
    ∃ b1 : BLE_CIRCULAR_BUF,
      ble_circ_push b (x :: m) = Outcome.ok b1 ∧
      b1.cbuf = b.cbuf.set b.write_ptr ((x :: m).getLast (by simp)) := by
  have hpush : ble_circ_push b (x :: m)
      = Outcome.ok (update_circ_wrtindex
          { b with
            cbuf := (x :: m).foldl (fun cbuf c => cbuf.set b.write_ptr c)
              (b.cbuf.set b.write_ptr (((x :: m).length + 1) % 256)) }
          (x :: m).length) := by
    simp only [ble_circ_push, hfit, if_true]
  refine ⟨_, hpush, ?_⟩
  show (x :: m).foldl (fun cbuf c => cbuf.set b.write_ptr c)
      (b.cbuf.set b.write_ptr (((x :: m).length + 1) % 256)) = _
  rw [foldl_set_same, List.set_set]

/-- C10 (the code at the failing input). On the empty buffer (`ble_circ_space() = 64`),
pushing the 50-byte test message leaves `ble_circ_space() = 14`, a decrease of 50 =
`len(m)`, not the 13 = `64 - 50 - 1` that `circular_buff_test` asserts; pushing the 25-byte
and the 5-byte test messages onto the empty buffer leaves 34, not `64 - 26 - 6 = 32`. -/
theorem C10_push_space_decreases_by_len_only :
    ble_circ_space (World.boot 5 64).ble_cbuf = 64 ∧
    (ble_circ_push (World.boot 5 64).ble_cbuf test_str_0).map ble_circ_space = Outcome.ok 14 ∧
    ((ble_circ_push (World.boot 5 64).ble_cbuf test_str_1).andThen
        (fun b => ble_circ_push b test_str_2)).map ble_circ_space = Outcome.ok 34 ∧
    (ble_circ_push (World.boot 5 64).ble_cbuf test_str_0).map (fun b => b.write_ptr)
      = Outcome.ok 50 := by
  refine ⟨?_, ?_, ?_, ?_⟩ <;> decide

/-- C1 (the code at the failing input). The first push and pop of `circular_buff_test`: the
50-byte message `1, 2, …, 50` is pushed onto the empty, zero-initialised buffer and popped in
diagnostic mode with the serial engine idle. Every byte of the message was stored in slot 0,
so slot 0 holds 50 (the last byte), which the pop takes for the length byte; the 49 payload
bytes it extracts are the untouched slots 1..49, all zero. The popped bytes differ from the
pushed message already at index 0 (0 instead of 1). -/
theorem C1_round_trip_fails_on_test_message :
    ∃ (b1 : BLE_CIRCULAR_BUF) (w2 : World),
      leuart_tx_busy (World.boot 5 64) = false ∧
      ble_circ_push (World.boot 5 64).ble_cbuf test_str_0 = Outcome.ok b1 ∧
      b1.cbuf = 50 :: List.replicate 63 0 ∧
      ble_circ_pop EM3 { World.boot 5 64 with ble_cbuf := b1 } true [0]
        = Outcome.ok (false, w2) ∧
      w2.result_str.take 49 = List.replicate 49 0 ∧
      test_str_0.getD 0 0 = 1 ∧
      w2.result_str.getD 0 0 = 0 ∧
      w2.result_str.take 50 ≠ test_str_0 := by
  refine ⟨_, _, rfl, rfl, ?_, rfl, ?_, ?_, ?_, ?_⟩ <;> decide

/-- C11. Ring buffer overflow: for every message `m` with `ble_circ_space() < len(m) + 1`,
`ble_circ_push(m)` signals the overflow (its `EFM_ASSERT(false)` branch) and makes no change:
the buffer the run ends in is the buffer before the call, so the read index, the write index
and every buffer byte are the same (no partial write, no truncation). -/
theorem C11_push_overflow_no_change (b : BLE_CIRCULAR_BUF) (m : List Nat)
    (h : ble_circ_space b < m.length + 1) :
    ble_circ_push b m = Outcome.assertFailed b ∧
    (ble_circ_push b m).state.read_ptr = b.read_ptr ∧
    (ble_circ_push b m).state.write_ptr = b.write_ptr ∧
    (ble_circ_push b m).state.cbuf = b.cbuf := by
  have hpush : ble_circ_push b m = Outcome.assertFailed b := by
    have hn : ¬ (m.length + 1 ≤ ble_circ_space b) := by omega
    simp only [ble_circ_push, hn, if_false]
  rw [hpush]
  exact ⟨rfl, rfl, rfl, rfl⟩

/-- C11 witness: four free slots (`read_ptr = 0`, `write_ptr = 60`) and a four-byte message,
which needs five. -/
theorem C11_push_overflow_no_change_witness :
    ble_circ_space { (World.boot 5 64).ble_cbuf with write_ptr := 60 }
        < ([1, 2, 3, 4] : List Nat).length + 1 ∧
    (ble_circ_push { (World.boot 5 64).ble_cbuf with write_ptr := 60 } [1, 2, 3, 4]
        = Outcome.assertFailed { (World.boot 5 64).ble_cbuf with write_ptr := 60 } ∧
     (ble_circ_push { (World.boot 5 64).ble_cbuf with write_ptr := 60 } [1, 2, 3, 4]).state.read_ptr
        = ({ (World.boot 5 64).ble_cbuf with write_ptr := 60 } : BLE_CIRCULAR_BUF).read_ptr ∧
     (ble_circ_push { (World.boot 5 64).ble_cbuf with write_ptr := 60 } [1, 2, 3, 4]).state.write_ptr
        = ({ (World.boot 5 64).ble_cbuf with write_ptr := 60 } : BLE_CIRCULAR_BUF).write_ptr ∧
     (ble_circ_push { (World.boot 5 64).ble_cbuf with write_ptr := 60 } [1, 2, 3, 4]).state.cbuf
        = ({ (World.boot 5 64).ble_cbuf with write_ptr := 60 } : BLE_CIRCULAR_BUF).cbuf) :=
  ⟨by decide,
   C11_push_overflow_no_change { (World.boot 5 64).ble_cbuf with write_ptr := 60 } [1, 2, 3, 4]
     (by decide)⟩

/-- `ble_circ_pop` in diagnostic mode when there is something to pop: it returns `false`,
advances the read index by the length byte and fills the diagnostic buffer; nothing else
changes. -/
theorem ble_circ_pop_test (LEUART_TX_EM : Nat) (w : World) (stack : List Nat)
    (hidle : leuart_tx_busy w = false)
    (hne : w.ble_cbuf.read_ptr ≠ w.ble_cbuf.write_ptr) :
    ble_circ_pop LEUART_TX_EM w true stack
      = Outcome.ok (false,
          { w with
            ble_cbuf := update_circ_readindex w.ble_cbuf (pop_length w.ble_cbuf)
            result_str := pop_result_str w.ble_cbuf w.result_str stack }) := by
  simp only [ble_circ_pop, hidle, hne, if_true, if_false, Bool.false_eq_true]
  rfl

/-- Push then pop on an empty buffer, in general: for every non-empty message of at most 63
characters pushed at index `p = read_ptr = write_ptr` and popped once in diagnostic mode with
the serial engine idle, the write index ends at `(p + len(m)) % 64` and the read index at
`(p + c) % 64`, where `c` is the last character of the message (which the pop takes for the
length byte). The indices meet only when `c` and `len(m)` agree modulo 64. -/
theorem ble_push_pop_indices (LEUART_TX_EM : Nat) (w : World) (x : Nat) (m stack : List Nat)
    (hidle : leuart_tx_busy w = false)
    (hsize : w.ble_cbuf.size = CSIZE) (hmask : w.ble_cbuf.size_mask = CSIZE - 1)
    (hempty : w.ble_cbuf.read_ptr = w.ble_cbuf.write_ptr)
    (hw : w.ble_cbuf.write_ptr < CSIZE) (hcbuf : w.ble_cbuf.cbuf.length = CSIZE)
    (hlen : (x :: m).length ≤ CSIZE - 1) :
    ∃ (b1 : BLE_CIRCULAR_BUF) (w2 : World),
      ble_circ_push w.ble_cbuf (x :: m) = Outcome.ok b1 ∧
      ble_circ_pop LEUART_TX_EM { w with ble_cbuf := b1 } true stack = Outcome.ok (false, w2) ∧
      w2.ble_cbuf.write_ptr = (w.ble_cbuf.write_ptr + (x :: m).length) % 64 ∧
      w2.ble_cbuf.read_ptr = (w.ble_cbuf.write_ptr + (x :: m).getLast (by simp)) % 64 := by
  have hr : w.ble_cbuf.read_ptr < CSIZE := by rw [hempty]; exact hw
  have hsp : ble_circ_space w.ble_cbuf = 64 := by
    rw [ble_circ_space_eq _ hsize hmask hr hw, hempty]
    simp only [CSIZE] at hw
    omega
  simp only [CSIZE] at hw hlen hcbuf
  have hfit : (x :: m).length + 1 ≤ ble_circ_space w.ble_cbuf := by
    rw [hsp]
    omega
  have hw1 : ((w.ble_cbuf.write_ptr + (x :: m).length) % U32) &&& w.ble_cbuf.size_mask
      = (w.ble_cbuf.write_ptr + (x :: m).length) % 64 := by
    simp only [CSIZE] at hmask
    rw [hmask, land_63, U32_eq]
    omega
  have hpush : ble_circ_push w.ble_cbuf (x :: m)
      = Outcome.ok
          { w.ble_cbuf with
            cbuf := w.ble_cbuf.cbuf.set w.ble_cbuf.write_ptr ((x :: m).getLast (by simp))
            write_ptr := (w.ble_cbuf.write_ptr + (x :: m).length) % 64 } := by
    simp only [ble_circ_push, hfit, if_true, update_circ_wrtindex, hw1, foldl_set_same,
      List.set_set]
  have hne : ¬ (w.ble_cbuf.read_ptr = (w.ble_cbuf.write_ptr + (x :: m).length) % 64) := by
    rw [hempty]
    have : 1 ≤ (x :: m).length := by simp
    omega
  have hget : (w.ble_cbuf.cbuf.set w.ble_cbuf.write_ptr ((x :: m).getLast (by simp))).getD
      w.ble_cbuf.read_ptr 0 = (x :: m).getLast (by simp) := by
    rw [hempty, List.getD_eq_getElem?_getD, List.getElem?_set_self (by omega)]
    rfl
  have hr1 : ((w.ble_cbuf.read_ptr + (x :: m).getLast (by simp)) % U32) &&& w.ble_cbuf.size_mask
      = (w.ble_cbuf.write_ptr + (x :: m).getLast (by simp)) % 64 := by
    simp only [CSIZE] at hmask
    rw [hmask, land_63, U32_eq, hempty]
    omega
  have hpop := ble_circ_pop_test LEUART_TX_EM
    { w with
      ble_cbuf :=
        { w.ble_cbuf with
          cbuf := w.ble_cbuf.cbuf.set w.ble_cbuf.write_ptr ((x :: m).getLast (by simp))
          write_ptr := (w.ble_cbuf.write_ptr + (x :: m).length) % 64 } }
    stack hidle hne
  refine ⟨_, _, hpush, hpop, rfl, ?_⟩
  show ((w.ble_cbuf.read_ptr + (w.ble_cbuf.cbuf.set w.ble_cbuf.write_ptr
      ((x :: m).getLast (by simp))).getD w.ble_cbuf.read_ptr 0) % U32) &&& w.ble_cbuf.size_mask
    = _
  rw [hget]
  exact hr1

/-- C12 (the code at the failing input). The one-byte message `"\x05"` is pushed onto the
empty buffer and popped once in diagnostic mode with the serial engine idle. The push left
the character 5 in slot 0 and advanced the write index to 1; the pop reads 5 as the length
byte and advances the read index to 5. The indices differ and `ble_circ_space()` is 4, not
64. (For the 50-byte message of `circular_buff_test` the indices do meet, because its last
character happens to equal its length.) -/
theorem C12_push_pop_indices_do_not_meet :
    ∃ (b1 : BLE_CIRCULAR_BUF) (w2 : World),
      leuart_tx_busy (World.boot 5 64) = false ∧
      (World.boot 5 64).ble_cbuf.read_ptr = (World.boot 5 64).ble_cbuf.write_ptr ∧
      ble_circ_push (World.boot 5 64).ble_cbuf [5] = Outcome.ok b1 ∧
      ble_circ_pop EM3 { World.boot 5 64 with ble_cbuf := b1 } true [0]
        = Outcome.ok (false, w2) ∧
      w2.ble_cbuf.write_ptr = 1 ∧
      w2.ble_cbuf.read_ptr = 5 ∧
      ble_circ_space w2.ble_cbuf = 4 ∧
      ((ble_circ_push (World.boot 5 64).ble_cbuf test_str_0).andThen fun b =>
          (ble_circ_pop EM3 { World.boot 5 64 with ble_cbuf := b } true [0]).map
            fun r => r.2.ble_cbuf).map (fun b => (b.read_ptr, b.write_ptr, ble_circ_space b))
        = Outcome.ok (50, 50, 64) := by
  refine ⟨_, _, rfl, rfl, rfl, rfl, ?_, ?_, ?_, ?_⟩ <;> decide

/-- C13. If the serial transmit engine is busy, or the ring buffer is empty
(`read_ptr == write_ptr`), `ble_circ_pop` returns `true` ("nothing to send") and has no side
effects: the whole state (read index, write index, buffer bytes, diagnostic result buffer,
serial engine, sleep vetoes, events) is the state before the call, in either mode. -/
theorem C13_pop_nothing_to_send (LEUART_TX_EM : Nat) (w : World) (test : Bool)
    (stack : List Nat)
    (h : leuart_tx_busy w = true ∨ w.ble_cbuf.read_ptr = w.ble_cbuf.write_ptr) :
    ble_circ_pop LEUART_TX_EM w test stack = Outcome.ok (true, w) := by
  unfold ble_circ_pop
  rcases h with h | h
  · simp only [h, if_true]
  · by_cases hb : leuart_tx_busy w = true
    · simp only [hb, if_true]
    · simp [hb, h]

/-- C13 witness: the freshly booted world, whose ring buffer is empty. -/
theorem C13_pop_nothing_to_send_witness :
    (leuart_tx_busy (World.boot 5 64) = true ∨
      (World.boot 5 64).ble_cbuf.read_ptr = (World.boot 5 64).ble_cbuf.write_ptr) ∧
    ble_circ_pop EM3 (World.boot 5 64) false [] = Outcome.ok (true, World.boot 5 64) :=
  ⟨Or.inr (by decide), C13_pop_nothing_to_send EM3 (World.boot 5 64) false [] (Or.inr (by decide))⟩

/-! ## Event registry -/

theorem lor_land_self (s e : Nat) : (s ||| e) &&& e = e := by
  apply Nat.eq_of_testBit_eq
  intro i
  simp only [Nat.testBit_and, Nat.testBit_or]
  cases s.testBit i <;> cases e.testBit i <;> rfl

theorem lor_lor_self (s e : Nat) : (s ||| e) ||| e = s ||| e := by
  rw [Nat.lor_assoc, Nat.or_self]

theorem lor_eq_of_land_eq (s e : Nat) (h : s &&& e = e) : s ||| e = s := by
  apply Nat.eq_of_testBit_eq
  intro i
  have hi : (s &&& e).testBit i = e.testBit i := by rw [h]
  simp only [Nat.testBit_and] at hi
  simp only [Nat.testBit_or]
  cases hs : s.testBit i <;> cases he : e.testBit i <;> simp_all

theorem testBit_of_lt_U32 (e i : Nat) (he : e < U32) (hi : ¬ i < 32) : e.testBit i = false :=
  Nat.testBit_lt_two_pow
    (lt_of_lt_of_le he (Nat.pow_le_pow_right (by norm_num) (by omega)))

/-- Bits of the flag word after `remove_scheduled_event`: a bit of the 32-bit word survives
when it was set and is not a bit of the event. -/
theorem testBit_remove_scheduled_event (s e i : Nat) (hi : i < 32) :
    (remove_scheduled_event s e).testBit i = (s.testBit i && !e.testBit i) := by
  simp only [remove_scheduled_event, U32, Nat.testBit_and, Nat.testBit_xor,
    Nat.testBit_two_pow_sub_one]
  simp [hi]

/-- Bits of the flag word after `add_scheduled_event`. -/
theorem testBit_add_scheduled_event (s e i : Nat) :
    (add_scheduled_event s e).testBit i = (s.testBit i || e.testBit i) := by
  simp only [add_scheduled_event, Nat.testBit_or]

theorem remove_land_self (s e : Nat) (he : e < U32) : remove_scheduled_event s e &&& e = 0 := by
  apply Nat.eq_of_testBit_eq
  intro i
  by_cases hi : i < 32
  · simp only [Nat.testBit_and, testBit_remove_scheduled_event s e i hi, Nat.zero_testBit]
    cases s.testBit i <;> cases e.testBit i <;> rfl
  · simp only [Nat.testBit_and, testBit_of_lt_U32 e i he hi, Nat.zero_testBit, Bool.and_false]

theorem add_scheduled_event_times_succ (e n s : Nat) :
    add_scheduled_event_times e (n + 1) s = add_scheduled_event s e := by
  induction n generalizing s with
  | zero => rfl
  | succ n ih =>
    rw [add_scheduled_event_times, ih]
    exact lor_lor_self s e

/-- For a single-bit event the dispatch test reads the bit of the flag word. -/
theorem event_pending_two_pow (s j : Nat) : event_pending s (2 ^ j) = s.testBit j := by
  simp only [event_pending, get_scheduled_events, Nat.and_two_pow]
  cases s.testBit j
  · simp
  · have : (2 : Nat) ^ j ≠ 0 := by positivity
    simp [this]

/-- C14. Event coalescing: for every flag word `s` and every event `e` (a nonzero 32-bit
mask), `add_scheduled_event(e)` makes `e` pending (all its bits are set); triggering `e`
again while it is pending leaves the flag word unchanged; any number `n ≥ 1` of triggers
leaves the same flag word as one trigger, and a single `remove_scheduled_event(e)` after them
leaves `e` not pending. -/
theorem C14_event_coalescing (s e : Nat) (he0 : e ≠ 0) (he : e < U32) :
    event_pending (add_scheduled_event s e) e = true ∧
    add_scheduled_event s e &&& e = e ∧
    add_scheduled_event (add_scheduled_event s e) e = add_scheduled_event s e ∧
    (s &&& e = e → add_scheduled_event s e = s) ∧
    (∀ n, 1 ≤ n →
      add_scheduled_event_times e n s = add_scheduled_event s e ∧
      event_pending (remove_scheduled_event (add_scheduled_event_times e n s) e) e = false ∧
      remove_scheduled_event (add_scheduled_event_times e n s) e &&& e = 0) := by
  refine ⟨?_, lor_land_self s e, lor_lor_self s e, lor_eq_of_land_eq s e, ?_⟩
  · simp only [event_pending, get_scheduled_events, add_scheduled_event, lor_land_self]
    simpa using he0
  · intro n hn
    obtain ⟨k, rfl⟩ : ∃ k, n = k + 1 := ⟨n - 1, by omega⟩
    refine ⟨add_scheduled_event_times_succ e k s, ?_, remove_land_self _ e he⟩
    simp only [event_pending, get_scheduled_events, remove_land_self _ e he]
    rfl

/-- C14 witness: three triggers of `BLE_TX_DONE_CB` on a word with two other events pending. -/
theorem C14_event_coalescing_witness :
    (BLE_TX_DONE_CB ≠ 0 ∧ BLE_TX_DONE_CB < U32) ∧
    (event_pending (add_scheduled_event 0x84 BLE_TX_DONE_CB) BLE_TX_DONE_CB = true ∧
     add_scheduled_event 0x84 BLE_TX_DONE_CB &&& BLE_TX_DONE_CB = BLE_TX_DONE_CB ∧
     add_scheduled_event (add_scheduled_event 0x84 BLE_TX_DONE_CB) BLE_TX_DONE_CB
        = add_scheduled_event 0x84 BLE_TX_DONE_CB ∧
     (0x84 &&& BLE_TX_DONE_CB = BLE_TX_DONE_CB → add_scheduled_event 0x84 BLE_TX_DONE_CB = 0x84) ∧
     (∀ n, 1 ≤ n →
       add_scheduled_event_times BLE_TX_DONE_CB n 0x84 = add_scheduled_event 0x84 BLE_TX_DONE_CB ∧
       event_pending
          (remove_scheduled_event (add_scheduled_event_times BLE_TX_DONE_CB n 0x84) BLE_TX_DONE_CB)
          BLE_TX_DONE_CB = false ∧
       remove_scheduled_event (add_scheduled_event_times BLE_TX_DONE_CB n 0x84) BLE_TX_DONE_CB
          &&& BLE_TX_DONE_CB = 0)) :=
  ⟨⟨by decide, by decide⟩, C14_event_coalescing 0x84 BLE_TX_DONE_CB (by decide) (by decide)⟩

/-- C15. Event frame: for every flag word `s` and distinct single-bit events `e = 2 ^ i` and
`f = 2 ^ j` of the 32-bit word, `remove_scheduled_event(e)` clears `e` and leaves the pending
status of `f` unchanged, `add_scheduled_event(e)` sets `e` and leaves `f` unchanged, and
`get_scheduled_events()` returns the flag word itself (it is a pure read). -/
theorem C15_event_frame (s i j : Nat) (hi : i < 32) (hj : j < 32) (hij : i ≠ j) :
    event_pending (remove_scheduled_event s (2 ^ i)) (2 ^ i) = false ∧
    event_pending (remove_scheduled_event s (2 ^ i)) (2 ^ j) = event_pending s (2 ^ j) ∧
    event_pending (add_scheduled_event s (2 ^ i)) (2 ^ i) = true ∧
    event_pending (add_scheduled_event s (2 ^ i)) (2 ^ j) = event_pending s (2 ^ j) ∧
    get_scheduled_events s = s := by
  have hji : ¬ (i = j) := hij
  simp only [event_pending_two_pow, testBit_remove_scheduled_event _ _ _ hi,
    testBit_remove_scheduled_event _ _ _ hj, testBit_add_scheduled_event,
    Nat.testBit_two_pow_self, Nat.testBit_two_pow, hji]
  simp [get_scheduled_events]

/-- C15 witness: `e = BLE_TX_DONE_CB = 2 ^ 5` and `f = SI7021_READ_CB = 2 ^ 7`. -/
theorem C15_event_frame_witness :
    (5 < 32 ∧ 7 < 32 ∧ 5 ≠ 7) ∧
    (event_pending (remove_scheduled_event 0xA0 (2 ^ 5)) (2 ^ 5) = false ∧
     event_pending (remove_scheduled_event 0xA0 (2 ^ 5)) (2 ^ 7) = event_pending 0xA0 (2 ^ 7) ∧
     event_pending (add_scheduled_event 0xA0 (2 ^ 5)) (2 ^ 5) = true ∧
     event_pending (add_scheduled_event 0xA0 (2 ^ 5)) (2 ^ 7) = event_pending 0xA0 (2 ^ 7) ∧
     get_scheduled_events 0xA0 = 0xA0) :=
  ⟨⟨by decide, by decide, by decide⟩, C15_event_frame 0xA0 5 7 (by decide) (by decide) (by decide)⟩

/-! ## Bus transaction engine: start and single events -/

theorem sleep_unblock_mode_pos (t : SleepTable) (d : Nat) (hd : d < t.length)
    (hp : 0 < countAt t d) :
    sleep_unblock_mode t d = Outcome.ok (t.set d (countAt t d - 1)) := by
  unfold sleep_unblock_mode
  have hge : countAt (t.set d (countAt t d - 1)) d ≥ 0 := by
    rw [countAt_set_self t d _ hd]
    omega
  simp [hp, hge]

/-- `i2c_start` with the bus not idle: the first assertion fails and nothing is changed. -/
theorem i2c_start_not_idle (w : World) (i2c : I2C_TypeDef)
    (address_slave command data_ callback numbytes : Nat) (busy read : Bool) :
    i2c_start w false i2c address_slave command data_ callback numbytes busy read
      = Outcome.assertFailed w := by
  simp [i2c_start]

/-- `i2c_start` returns normally exactly when the bus state reads IDLE and the EM2 count
stays below the ceiling of `sleep_block_mode`. -/
theorem i2c_start_isOk_iff (w : World) (STATE_idle : Bool) (i2c : I2C_TypeDef)
    (address_slave command data_ callback numbytes : Nat) (busy read : Bool)
    (hEM : EM2 < w.lowest_energy_mode.length) :
    (i2c_start w STATE_idle i2c address_slave command data_ callback numbytes busy read).isOk
        = true ↔
      STATE_idle = true ∧ countAt w.lowest_energy_mode EM2 + 1 < 5 := by
  cases STATE_idle with
  | false => simp [i2c_start, Outcome.isOk]
  | true =>
    by_cases h4 : countAt w.lowest_energy_mode EM2 + 1 < 5
    · rw [i2c_start_ok w i2c address_slave command data_ callback numbytes busy read hEM h4]
      simp [Outcome.isOk, h4]
    · have hb : sleep_block_mode w.lowest_energy_mode EM2
          = Outcome.assertFailed
              (w.lowest_energy_mode.set EM2 (countAt w.lowest_energy_mode EM2 + 1)) := by
        unfold sleep_block_mode
        simp [countAt_set_self _ _ _ hEM, h4]
      simp [i2c_start, World.sleep_block_mode, hb, Outcome.map, Outcome.andThen, Outcome.isOk, h4]

/-- C16 (as stated, refuted). A two-byte read is started on the booted engine and driven up
to `end_comm` (STOP has been issued, the stop-detected interrupt has not been serviced yet):
`i2c_busy()` is true. A second `i2c_start` issued now, with the bus state reading IDLE, is
accepted: no assertion fails and the outstanding transaction is overwritten. -/
theorem C16_start_accepted_while_busy :
    ∃ w0 w1 w2 : World,
      i2c_start (World.boot 5 64) true I2C_TypeDef.I2C0 0x40 0xF5 0 8 2 true true
        = Outcome.ok w0 ∧
      i2c_run w0 [I2C_IF.ACK, I2C_IF.ACK, I2C_IF.ACK, I2C_IF.RXDATAV 0x12, I2C_IF.RXDATAV 0x34]
        = Outcome.ok w1 ∧
      w1.i2c_sm.state = DEFINED_STATES.end_comm ∧
      i2c_busy w1 = true ∧
      i2c_start w1 true I2C_TypeDef.I2C0 0x40 0xE3 0 0x100 2 true true = Outcome.ok w2 ∧
      w2.i2c_sm.command_ = 0xE3 ∧
      w2.i2c_sm.state = DEFINED_STATES.start_comm ∧
      countAt w2.lowest_energy_mode EM2 = 2 := by
  refine ⟨_, _, _, rfl, rfl, ?_, ?_, rfl, ?_, ?_, ?_⟩ <;> decide

/-- C16 (amended). `i2c_start` does not consult the busy flag: for every argument tuple and
every state of the engine its start assertion fails exactly when the bus state register does
not read IDLE, leaving everything unchanged; it returns normally exactly when the bus state
reads IDLE and the EM2 veto count stays below its ceiling, and this does not depend on
whether `i2c_busy()` is true or false. -/
theorem C16_i2c_start_checks_bus_state (w : World) (STATE_idle : Bool) (i2c : I2C_TypeDef)
    (address_slave command data_ callback numbytes : Nat) (busy read : Bool)
    (hEM : EM2 < w.lowest_energy_mode.length) :
    (STATE_idle = false →
      i2c_start w STATE_idle i2c address_slave command data_ callback numbytes busy read
        = Outcome.assertFailed w) ∧
    ((i2c_start w STATE_idle i2c address_slave command data_ callback numbytes busy read).isOk
        = true ↔
      STATE_idle = true ∧ countAt w.lowest_energy_mode EM2 + 1 < 5) ∧
    (∀ b : Bool,
      (i2c_start { w with i2c_sm := { w.i2c_sm with busy := b } } STATE_idle i2c address_slave
          command data_ callback numbytes busy read).isOk
        = (i2c_start w STATE_idle i2c address_slave command data_ callback numbytes busy
            read).isOk) := by
  refine ⟨?_, i2c_start_isOk_iff w STATE_idle i2c address_slave command data_ callback numbytes
    busy read hEM, ?_⟩
  · intro h
    rw [h]
    exact i2c_start_not_idle w i2c address_slave command data_ callback numbytes busy read
  · intro b
    have h1 := i2c_start_isOk_iff { w with i2c_sm := { w.i2c_sm with busy := b } } STATE_idle
      i2c address_slave command data_ callback numbytes busy read hEM
    have h2 := i2c_start_isOk_iff w STATE_idle i2c address_slave command data_ callback
      numbytes busy read hEM
    rw [Bool.eq_iff_iff, h1, h2]

/-- C16 witness: the booted world, bus not idle. -/
theorem C16_i2c_start_checks_bus_state_witness :
    EM2 < (World.boot 5 64).lowest_energy_mode.length ∧
    ((false = false →
      i2c_start (World.boot 5 64) false I2C_TypeDef.I2C0 0x40 0xF5 0 8 2 true true
        = Outcome.assertFailed (World.boot 5 64)) ∧
     ((i2c_start (World.boot 5 64) false I2C_TypeDef.I2C0 0x40 0xF5 0 8 2 true true).isOk
        = true ↔
      false = true ∧ countAt (World.boot 5 64).lowest_energy_mode EM2 + 1 < 5) ∧
     (∀ b : Bool,
      (i2c_start { World.boot 5 64 with i2c_sm := { (World.boot 5 64).i2c_sm with busy := b } }
          false I2C_TypeDef.I2C0 0x40 0xF5 0 8 2 true true).isOk
        = (i2c_start (World.boot 5 64) false I2C_TypeDef.I2C0 0x40 0xF5 0 8 2 true
            true).isOk)) :=
  ⟨by decide,
   C16_i2c_start_checks_bus_state (World.boot 5 64) false I2C_TypeDef.I2C0 0x40 0xF5 0 8 2 true
     true (by decide)⟩

/-- C17 (as stated, refuted). `i2c_start` copies its `busy` argument into the engine: started
with `busy = false` on the idle booted engine, the transaction is set up and the address is
transmitted, yet `i2c_busy()` is false. -/
theorem C17_start_with_busy_false :
    ∃ w0 : World,
      i2c_start (World.boot 5 64) true I2C_TypeDef.I2C0 0x40 0xF5 0 8 2 false true
        = Outcome.ok w0 ∧
      w0.i2c_sm.state = DEFINED_STATES.start_comm ∧
      w0.i2c_writes = [(I2C_TypeDef.I2C0, I2C_RegWrite.CMD I2C_CMD.I2C_CMD_START),
        (I2C_TypeDef.I2C0, I2C_RegWrite.TXDATA 0x80)] ∧
      i2c_busy w0 = false := by
  refine ⟨_, rfl, ?_, ?_, ?_⟩ <;> decide

/-- C17 (amended). `i2c_start` on an idle bus (its assertions hold) vetoes the bus-active
sleep depth (EM2 count + 1, other depths unchanged), records target address, command, data
reference, length, direction and completion event, sets the busy flag to the value of its
`busy` argument, sets the state to `start_comm`, issues a START and transmits
`(target << 1) | 0`, the target with the write direction bit, for reads as well as writes;
nothing else changes. -/
theorem C17_i2c_start_effects (w : World) (i2c : I2C_TypeDef)
    (address_slave command data_ callback numbytes : Nat) (busy read : Bool)
    (hEM : EM2 < w.lowest_energy_mode.length)
    (h4 : countAt w.lowest_energy_mode EM2 + 1 < 5) :
    ∃ w0 : World,
      i2c_start w true i2c address_slave command data_ callback numbytes busy read
        = Outcome.ok w0 ∧
      countAt w0.lowest_energy_mode EM2 = countAt w.lowest_energy_mode EM2 + 1 ∧
      (∀ j, j ≠ EM2 → countAt w0.lowest_energy_mode j = countAt w.lowest_energy_mode j) ∧
      w0.i2c_sm =
        { state := DEFINED_STATES.start_comm
          slave_address := address_slave
          command_ := command
          I2C_periph := i2c
          data := data_
          callback := callback
          numbytes := numbytes
          busy := busy
          read := read } ∧
      i2c_busy w0 = busy ∧
      w0.i2c_writes = w.i2c_writes ++
        [(i2c, I2C_RegWrite.CMD I2C_CMD.I2C_CMD_START),
         (i2c, I2C_RegWrite.TXDATA (((address_slave <<< 1) % U32) ||| 0))] ∧
      ((address_slave <<< 1) % U32) ||| 0 = (2 * address_slave) % 2 ^ 32 ∧
      w0 = { w with
        lowest_energy_mode := w0.lowest_energy_mode
        i2c_sm := w0.i2c_sm
        i2c_writes := w0.i2c_writes } := by
  refine ⟨_, i2c_start_ok w i2c address_slave command data_ callback numbytes busy read hEM h4,
    countAt_set_self _ _ _ hEM, fun j hj => countAt_set_other _ _ _ _ hj, rfl, rfl, rfl, ?_, rfl⟩
  rw [Nat.or_zero, Nat.shiftLeft_eq, U32, Nat.mul_comm, Nat.pow_one]

/-- C17 witness: a two-byte read and the booted world. -/
theorem C17_i2c_start_effects_witness :
    (EM2 < (World.boot 5 64).lowest_energy_mode.length ∧
      countAt (World.boot 5 64).lowest_energy_mode EM2 + 1 < 5) ∧
    ∃ w0 : World,
      i2c_start (World.boot 5 64) true I2C_TypeDef.I2C1 0x40 0xF5 0 8 2 true true
        = Outcome.ok w0 ∧
      countAt w0.lowest_energy_mode EM2 = countAt (World.boot 5 64).lowest_energy_mode EM2 + 1 ∧
      (∀ j, j ≠ EM2 →
        countAt w0.lowest_energy_mode j = countAt (World.boot 5 64).lowest_energy_mode j) ∧
      w0.i2c_sm =
        { state := DEFINED_STATES.start_comm
          slave_address := 0x40
          command_ := 0xF5
          I2C_periph := I2C_TypeDef.I2C1
          data := 0
          callback := 8
          numbytes := 2
          busy := true
          read := true } ∧
      i2c_busy w0 = true ∧
      w0.i2c_writes = (World.boot 5 64).i2c_writes ++
        [(I2C_TypeDef.I2C1, I2C_RegWrite.CMD I2C_CMD.I2C_CMD_START),
         (I2C_TypeDef.I2C1, I2C_RegWrite.TXDATA (((0x40 <<< 1) % U32) ||| 0))] ∧
      ((0x40 <<< 1) % U32) ||| 0 = (2 * 0x40) % 2 ^ 32 ∧
      w0 = { World.boot 5 64 with
        lowest_energy_mode := w0.lowest_energy_mode
        i2c_sm := w0.i2c_sm
        i2c_writes := w0.i2c_writes } :=
  ⟨⟨by decide, by decide⟩,
   C17_i2c_start_effects (World.boot 5 64) I2C_TypeDef.I2C1 0x40 0xF5 0 8 2 true true
     (by decide) (by decide)⟩

/-- C18. A not-acknowledged (NACK) event is accepted only for a read in `slave_rw`
(AddrReadRepeat): there it leaves the state and every transaction field unchanged and
re-issues a repeated START followed by `(target << 1) | 1`; a NACK in every other state of a
read, and in every state of a write, fails the assertion and changes nothing. -/
theorem C18_i2c_nack (w : World) :
    (w.i2c_sm.read = true → w.i2c_sm.state = DEFINED_STATES.slave_rw →
      i2c_nack w = Outcome.ok
        { w with
          i2c_writes := w.i2c_writes ++
            [(w.i2c_sm.I2C_periph, I2C_RegWrite.CMD I2C_CMD.I2C_CMD_START),
             (w.i2c_sm.I2C_periph,
               I2C_RegWrite.TXDATA (((w.i2c_sm.slave_address <<< 1) % U32) ||| 1))] }) ∧
    ((w.i2c_sm.read = false ∨ w.i2c_sm.state ≠ DEFINED_STATES.slave_rw) →
      i2c_nack w = Outcome.assertFailed w) := by
  constructor
  · intro hr hs
    simp only [i2c_nack, hr, hs, World.i2c_write, if_true, READ]
    simp only [← hs, Outcome.ok.injEq]
    rw [← hr]
    simp
  · intro h
    by_cases hr : w.i2c_sm.read = true
    · have hs : w.i2c_sm.state ≠ DEFINED_STATES.slave_rw := by
        rcases h with h | h
        · rw [hr] at h
          exact absurd h (by decide)
        · exact h
      simp only [i2c_nack, hr, if_true]
      cases hst : w.i2c_sm.state <;> first | rfl | exact absurd hst hs
    · simp [i2c_nack, hr]

/-- C18 witness: the engine in `slave_rw` of a read, reached by `i2c_start` and two
acknowledges: the NACK is accepted and only the register log grows. -/
theorem C18_i2c_nack_witness :
    ∃ w : World,
      (i2c_start (World.boot 5 64) true I2C_TypeDef.I2C0 0x40 0xF5 0 8 2 true true).andThen
          (fun w0 => i2c_run w0 [I2C_IF.ACK, I2C_IF.ACK]) = Outcome.ok w ∧
      w.i2c_sm.read = true ∧ w.i2c_sm.state = DEFINED_STATES.slave_rw ∧
      i2c_nack w = Outcome.ok
        { w with
          i2c_writes := w.i2c_writes ++
            [(I2C_TypeDef.I2C0, I2C_RegWrite.CMD I2C_CMD.I2C_CMD_START),
             (I2C_TypeDef.I2C0, I2C_RegWrite.TXDATA 0x81)] } :=
  ⟨_, rfl, rfl, rfl, (C18_i2c_nack _).1 rfl rfl⟩

theorem shiftLeft_8_lor (hi lo : Nat) (hlo : lo < 256) : (hi <<< 8) ||| lo = 256 * hi + lo := by
  rw [Nat.shiftLeft_eq, Nat.mul_comm]
  exact (Nat.mul_add_lt_is_or (i := 8) hlo hi).symm

theorem shiftLeft_8_mod (hi : Nat) (hhi : hi < 256) : (hi <<< 8) % U32 = hi <<< 8 := by
  rw [Nat.shiftLeft_eq, U32_eq]
  exact Nat.mod_eq_of_lt (by omega)

/-- C19. Read data assembly. For a read of length 2 and all received bytes `hi`, `lo` in
`0..255`, the data-ready event in `MS_byte` (DataHigh) stores `hi << 8`, sends ACK and moves
to `LS_byte` (DataLow), and the data-ready event in `LS_byte` ORs in `lo`, sends NACK then
STOP and moves to `end_comm` (End), so the stored result is `256 * hi + lo`. For a read of
length 1 the data-ready event in `MS_byte` stores the byte itself, sends NACK then STOP and
moves to `end_comm`. Nothing else changes. -/
theorem C19_i2c_read_data_assembly (w : World) (hi lo : Nat) (hhi : hi < 256) (hlo : lo < 256)
    (hr : w.i2c_sm.read = true) (hs : w.i2c_sm.state = DEFINED_STATES.MS_byte) :
    (w.i2c_sm.numbytes = 2 →
      ∃ w1 : World,
        i2c_rxdatav w hi = Outcome.ok w1 ∧
        w1 = { w with
          i2c_sm := { w.i2c_sm with state := DEFINED_STATES.LS_byte, data := hi <<< 8 }
          i2c_writes := w.i2c_writes
            ++ [(w.i2c_sm.I2C_periph, I2C_RegWrite.CMD I2C_CMD.I2C_CMD_ACK)] } ∧
        i2c_rxdatav w1 lo = Outcome.ok
          { w with
            i2c_sm := { w.i2c_sm with state := DEFINED_STATES.end_comm, data := 256 * hi + lo }
            i2c_writes := w.i2c_writes
              ++ [(w.i2c_sm.I2C_periph, I2C_RegWrite.CMD I2C_CMD.I2C_CMD_ACK),
                  (w.i2c_sm.I2C_periph, I2C_RegWrite.CMD I2C_CMD.I2C_CMD_NACK),
                  (w.i2c_sm.I2C_periph, I2C_RegWrite.CMD I2C_CMD.I2C_CMD_STOP)] }) ∧
    (w.i2c_sm.numbytes = 1 →
      i2c_rxdatav w lo = Outcome.ok
        { w with
          i2c_sm := { w.i2c_sm with state := DEFINED_STATES.end_comm, data := lo }
          i2c_writes := w.i2c_writes
            ++ [(w.i2c_sm.I2C_periph, I2C_RegWrite.CMD I2C_CMD.I2C_CMD_NACK),
                (w.i2c_sm.I2C_periph, I2C_RegWrite.CMD I2C_CMD.I2C_CMD_STOP)] }) := by
  constructor
  · intro hn
    refine ⟨_, ?_, rfl, ?_⟩
    · simp only [i2c_rxdatav, hr, hs, hn, World.i2c_write, if_true, shiftLeft_8_mod hi hhi]
    · simp only [i2c_rxdatav, hr, World.i2c_write, if_true, shiftLeft_8_lor hi lo hlo]
      simp
  · intro hn
    simp only [i2c_rxdatav, hr, hs, hn, World.i2c_write, if_true]
    simp

/-- C19 witness: the engine in `MS_byte` of a two-byte read, bytes `0x12`, `0x34`. -/
theorem C19_i2c_read_data_assembly_witness :
    ∃ w : World,
      (i2c_start (World.boot 5 64) true I2C_TypeDef.I2C0 0x40 0xF5 0 8 2 true true).andThen
          (fun w0 => i2c_run w0 [I2C_IF.ACK, I2C_IF.ACK, I2C_IF.ACK]) = Outcome.ok w ∧
      (0x12 < 256 ∧ 0x34 < 256 ∧ w.i2c_sm.read = true ∧
        w.i2c_sm.state = DEFINED_STATES.MS_byte ∧ w.i2c_sm.numbytes = 2) ∧
      ∃ w1 : World,
        i2c_rxdatav w 0x12 = Outcome.ok w1 ∧
        w1 = { w with
          i2c_sm := { w.i2c_sm with state := DEFINED_STATES.LS_byte, data := 0x12 <<< 8 }
          i2c_writes := w.i2c_writes
            ++ [(w.i2c_sm.I2C_periph, I2C_RegWrite.CMD I2C_CMD.I2C_CMD_ACK)] } ∧
        i2c_rxdatav w1 0x34 = Outcome.ok
          { w with
            i2c_sm :=
              { w.i2c_sm with state := DEFINED_STATES.end_comm, data := 256 * 0x12 + 0x34 }
            i2c_writes := w.i2c_writes
              ++ [(w.i2c_sm.I2C_periph, I2C_RegWrite.CMD I2C_CMD.I2C_CMD_ACK),
                  (w.i2c_sm.I2C_periph, I2C_RegWrite.CMD I2C_CMD.I2C_CMD_NACK),
                  (w.i2c_sm.I2C_periph, I2C_RegWrite.CMD I2C_CMD.I2C_CMD_STOP)] } :=
  ⟨_, rfl, ⟨by decide, by decide, rfl, rfl, rfl⟩,
   (C19_i2c_read_data_assembly _ 0x12 0x34 (by decide) (by decide) rfl rfl).1 rfl⟩

/-- C20. A stop-detected (MSTOP) event is accepted only for a read in `end_comm` (End), where
it releases the EM2 sleep veto (the held count drops by one), sets the transaction's
completion event in the event registry, clears busy and resets the state to `start_comm`
(with busy clear: the idle engine); in every other state of a read and in every state of a
write it fails the assertion and changes nothing. -/
theorem C20_i2c_mstop (w : World) (hEM : EM2 < w.lowest_energy_mode.length) :
    (w.i2c_sm.read = true → w.i2c_sm.state = DEFINED_STATES.end_comm →
      0 < countAt w.lowest_energy_mode EM2 →
      i2c_mstop w = Outcome.ok
        { w with
          lowest_energy_mode :=
            w.lowest_energy_mode.set EM2 (countAt w.lowest_energy_mode EM2 - 1)
          event_scheduled := add_scheduled_event w.event_scheduled w.i2c_sm.callback
          i2c_sm := { w.i2c_sm with state := DEFINED_STATES.start_comm, busy := false } }) ∧
    ((w.i2c_sm.read = false ∨ w.i2c_sm.state ≠ DEFINED_STATES.end_comm) →
      i2c_mstop w = Outcome.assertFailed w) := by
  constructor
  · intro hr hs hp
    simp only [i2c_mstop, hr, hs, if_true, World.sleep_unblock_mode,
      sleep_unblock_mode_pos _ _ hEM hp, Outcome.map, Outcome.andThen,
      World.add_scheduled_event]
  · intro h
    by_cases hr : w.i2c_sm.read = true
    · have hs : w.i2c_sm.state ≠ DEFINED_STATES.end_comm := by
        rcases h with h | h
        · rw [hr] at h
          exact absurd h (by decide)
        · exact h
      simp only [i2c_mstop, hr, if_true]
      cases hst : w.i2c_sm.state <;> first | rfl | exact absurd hst hs
    · simp [i2c_mstop, hr]

/-- C20 witness: a two-byte read driven to `end_comm`; the stop-detected event completes it,
and the same event one step earlier (in `LS_byte`) fails the assertion. -/
theorem C20_i2c_mstop_witness :
    ∃ w1 w : World,
      (i2c_start (World.boot 5 64) true I2C_TypeDef.I2C0 0x40 0xF5 0 8 2 true true).andThen
          (fun w0 => i2c_run w0 [I2C_IF.ACK, I2C_IF.ACK, I2C_IF.ACK, I2C_IF.RXDATAV 0x12])
        = Outcome.ok w1 ∧
      i2c_rxdatav w1 0x34 = Outcome.ok w ∧
      EM2 < w.lowest_energy_mode.length ∧
      (w.i2c_sm.read = true ∧ w.i2c_sm.state = DEFINED_STATES.end_comm ∧
        0 < countAt w.lowest_energy_mode EM2) ∧
      i2c_mstop w = Outcome.ok
        { w with
          lowest_energy_mode := [0, 0, 0, 0, 0]
          event_scheduled := 8
          i2c_sm := { w.i2c_sm with state := DEFINED_STATES.start_comm, busy := false } } ∧
      (w1.i2c_sm.read = false ∨ w1.i2c_sm.state ≠ DEFINED_STATES.end_comm) ∧
      i2c_mstop w1 = Outcome.assertFailed w1 :=
  ⟨_, _, rfl, rfl, by decide, ⟨rfl, rfl, by decide⟩,
   (C20_i2c_mstop _ (by decide)).1 rfl rfl (by decide),
   Or.inr (by decide), (C20_i2c_mstop _ (by decide)).2 (Or.inr (by decide))⟩

/-! ## Serial transmit engine: start, transmission complete -/

theorem sleep_unblock_mode_nonneg (t : SleepTable) (d : Nat) (hd : d < t.length)
    (h0 : 0 ≤ countAt t d) :
    sleep_unblock_mode t d
      = Outcome.ok (if countAt t d > 0 then t.set d (countAt t d - 1) else t) := by
  unfold sleep_unblock_mode
  by_cases hp : countAt t d > 0
  · have hge : countAt (t.set d (countAt t d - 1)) d ≥ 0 := by
      rw [countAt_set_self t d _ hd]
      omega
    simp [hp, hge]
  · simp [hp, h0]

/-- `leuart_txc` in `stop`, in closed form: the transmission-complete interrupt is disarmed,
busy is cleared, the veto at `LEUART_TX_EM` is released and `BLE_TX_DONE_CB` is added to the
event word. The state field and the stored `callback` are not touched. -/
theorem leuart_txc_in_stop (LEUART_TX_EM : Nat) (w : World)
    (hs : w.leuart_sm.state = LEUART_STATES.stop)
    (hEM : LEUART_TX_EM < w.lowest_energy_mode.length)
    (h0 : 0 ≤ countAt w.lowest_energy_mode LEUART_TX_EM) :
    leuart_txc LEUART_TX_EM w
      = Outcome.ok
          { w with
            lowest_energy_mode :=
              if countAt w.lowest_energy_mode LEUART_TX_EM > 0 then
                w.lowest_energy_mode.set LEUART_TX_EM
                  (countAt w.lowest_energy_mode LEUART_TX_EM - 1)
              else w.lowest_energy_mode
            event_scheduled := add_scheduled_event w.event_scheduled BLE_TX_DONE_CB
            leuart_sm := { w.leuart_sm with busy := false }
            LEUART0_IEN_TXC := false } := by
  simp only [leuart_txc, hs, World.sleep_unblock_mode, sleep_unblock_mode_nonneg _ _ hEM h0,
    Outcome.map, Outcome.andThen, World.add_scheduled_event]

/-- `leuart_txc` outside `stop` fails the assertion and changes nothing. -/
theorem leuart_txc_not_stop (LEUART_TX_EM : Nat) (w : World)
    (hs : w.leuart_sm.state ≠ LEUART_STATES.stop) :
    leuart_txc LEUART_TX_EM w = Outcome.assertFailed w := by
  unfold leuart_txc
  cases hst : w.leuart_sm.state <;> first | rfl | exact absurd hst hs

/-- `leuart_start` on an idle engine whose veto is accepted, in closed form. -/
theorem leuart_start_ok (LEUART_TX_EM : Nat) (w : World) (string : List Nat) (call_back : Nat)
    (hidle : leuart_tx_busy w = false)
    (hEM : LEUART_TX_EM < w.lowest_energy_mode.length)
    (h4 : countAt w.lowest_energy_mode LEUART_TX_EM + 1 < 5) :
    leuart_start LEUART_TX_EM w string call_back
      = Outcome.ok
          { w with
            lowest_energy_mode :=
              w.lowest_energy_mode.set LEUART_TX_EM
                (countAt w.lowest_energy_mode LEUART_TX_EM + 1)
            leuart_sm :=
              { state := LEUART_STATES.transmit
                string_ := strcpy w.leuart_sm.string_ string
                string_length := string.length
                sent_bytes := 0
                busy := true
                callback := call_back }
            LEUART0_IEN_TXBL := true } := by
  simp only [leuart_start, hidle, World.sleep_block_mode, sleep_block_mode_ok _ _ hEM h4,
    Outcome.map, Outcome.andThen]
  simp

/-- C21 (the code at the failing input). `leuart_start("hi", BLE_RX_DONE_CB)` stores the
completion event `0x40` in the engine; after the buffer-ready interrupt has brought the
engine to `stop`, the transmission-complete handler sets `BLE_TX_DONE_CB = 0x20` in the
event registry: the completion event that was passed is not pending, and an event that was
not passed is. (Interrupt disarmed, busy cleared and veto released as the claim says.) -/
theorem C21_txc_sets_fixed_event :
    ∃ w1 w2 w3 : World,
      leuart_start EM3 (World.boot 5 64) [104, 105] 0x40 = Outcome.ok w1 ∧
      w1.leuart_sm.callback = 0x40 ∧
      leuart_txbl w1 = Outcome.ok w2 ∧
      w2.leuart_sm.state = LEUART_STATES.stop ∧
      leuart_txc EM3 w2 = Outcome.ok w3 ∧
      w3.leuart_sm.callback = 0x40 ∧
      w3.event_scheduled = BLE_TX_DONE_CB ∧
      event_pending w3.event_scheduled 0x40 = false ∧
      event_pending w3.event_scheduled BLE_TX_DONE_CB = true ∧
      w3.LEUART0_IEN_TXC = false ∧
      leuart_tx_busy w3 = false ∧
      w3.lowest_energy_mode = (World.boot 5 64).lowest_energy_mode := by
  refine ⟨_, _, _, rfl, ?_, rfl, ?_, rfl, ?_, ?_, ?_, ?_, ?_, ?_, ?_⟩ <;> decide

/-- A transmission-complete flag raised while the interrupt is disarmed is dropped by
`LEUART0_IRQHandler`: nothing runs and nothing changes. -/
theorem LEUART0_IRQHandler_TXC_masked (LEUART_TX_EM : Nat) (w : World)
    (h : w.LEUART0_IEN_TXC = false) :
    LEUART0_IRQHandler LEUART_TX_EM w false true = Outcome.ok w := by
  simp [LEUART0_IRQHandler, h, Outcome.andThen]

/-- C22 (as stated, refuted). `"hi"` is started on the booted engine and brought to `stop` by
the buffer-ready interrupt; the transmission-complete interrupt is then handled. The engine
is still in `stop`, not back in `start`. A second transmission-complete interrupt raises no
assertion: delivered through `LEUART0_IRQHandler` it is masked and changes nothing, and
`leuart_txc` itself would accept it. -/
theorem C22_state_stays_stop_after_txc :
    ∃ w1 w2 w3 : World,
      leuart_start EM3 (World.boot 5 64) [104, 105] BLE_TX_DONE_CB = Outcome.ok w1 ∧
      LEUART0_IRQHandler EM3 w1 true false = Outcome.ok w2 ∧
      w2.leuart_sm.state = LEUART_STATES.stop ∧
      LEUART0_IRQHandler EM3 w2 false true = Outcome.ok w3 ∧
      w3.leuart_sm.state = LEUART_STATES.stop ∧
      w3.leuart_sm.state ≠ LEUART_STATES.start ∧
      LEUART0_IRQHandler EM3 w3 false true = Outcome.ok w3 ∧
      (leuart_txc EM3 w3).isOk = true := by
  refine ⟨_, _, _, rfl, rfl, ?_, rfl, ?_, ?_, ?_, ?_⟩ <;> decide

/-- C22 (amended). The transmission-complete interrupt is legal only in `stop`: in `start` or
`transmit` `leuart_txc` fails the assertion and changes nothing. Handled in `stop` it disarms
the transmission-complete interrupt, clears busy and releases the veto at `LEUART_TX_EM`,
and leaves the state at `stop`; a second transmission-complete interrupt with no intervening
`leuart_start` is masked by the disarmed interrupt-enable bit in `LEUART0_IRQHandler` and
changes nothing, so it neither releases the veto nor triggers the event a second time. -/
theorem C22_txc_legal_only_in_stop (LEUART_TX_EM : Nat) (w : World)
    (hEM : LEUART_TX_EM < w.lowest_energy_mode.length)
    (h0 : 0 ≤ countAt w.lowest_energy_mode LEUART_TX_EM) :
    ((w.leuart_sm.state = LEUART_STATES.start ∨ w.leuart_sm.state = LEUART_STATES.transmit) →
      leuart_txc LEUART_TX_EM w = Outcome.assertFailed w) ∧
    (w.leuart_sm.state = LEUART_STATES.stop →
      ∃ w1 : World,
        leuart_txc LEUART_TX_EM w = Outcome.ok w1 ∧
        w1.leuart_sm.state = LEUART_STATES.stop ∧
        w1.LEUART0_IEN_TXC = false ∧
        leuart_tx_busy w1 = false ∧
        countAt w1.lowest_energy_mode LEUART_TX_EM
          = (if countAt w.lowest_energy_mode LEUART_TX_EM > 0 then
              countAt w.lowest_energy_mode LEUART_TX_EM - 1
            else countAt w.lowest_energy_mode LEUART_TX_EM) ∧
        LEUART0_IRQHandler LEUART_TX_EM w1 false true = Outcome.ok w1) := by
  constructor
  · intro h
    apply leuart_txc_not_stop
    rcases h with h | h <;> rw [h] <;> decide
  · intro hs
    refine ⟨_, leuart_txc_in_stop LEUART_TX_EM w hs hEM h0, hs, rfl, rfl, ?_,
      LEUART0_IRQHandler_TXC_masked _ _ rfl⟩
    show countAt (if countAt w.lowest_energy_mode LEUART_TX_EM > 0 then
        w.lowest_energy_mode.set LEUART_TX_EM (countAt w.lowest_energy_mode LEUART_TX_EM - 1)
      else w.lowest_energy_mode) LEUART_TX_EM = _
    split
    · exact countAt_set_self _ _ _ hEM
    · rfl

/-- C22 witness: the engine in `stop` after `"hi"` was started and one buffer-ready interrupt
was handled. -/
theorem C22_txc_legal_only_in_stop_witness :
    ∃ w : World,
      (leuart_start EM3 (World.boot 5 64) [104, 105] BLE_TX_DONE_CB).andThen leuart_txbl
        = Outcome.ok w ∧
      (EM3 < w.lowest_energy_mode.length ∧ 0 ≤ countAt w.lowest_energy_mode EM3 ∧
        w.leuart_sm.state = LEUART_STATES.stop) ∧
      ∃ w1 : World,
        leuart_txc EM3 w = Outcome.ok w1 ∧
        w1.leuart_sm.state = LEUART_STATES.stop ∧
        w1.LEUART0_IEN_TXC = false ∧
        leuart_tx_busy w1 = false ∧
        countAt w1.lowest_energy_mode EM3
          = (if countAt w.lowest_energy_mode EM3 > 0 then countAt w.lowest_energy_mode EM3 - 1
            else countAt w.lowest_energy_mode EM3) ∧
        LEUART0_IRQHandler EM3 w1 false true = Outcome.ok w1 :=
  ⟨_, rfl, ⟨by decide, by decide, rfl⟩,
   (C22_txc_legal_only_in_stop EM3 _ (by decide) (by decide)).2 rfl⟩

/-- What `strcpy` leaves in the destination array: the characters, then a NUL; the array
keeps its length when the string and its terminator fit and is overrun otherwise. -/
theorem strcpy_spec (dst src : List Nat) :
    (∀ i, i < src.length → (strcpy dst src).getD i 0 = src.getD i 0) ∧
    (strcpy dst src).getD src.length 1 = 0 ∧
    (src.length + 1 ≤ dst.length → (strcpy dst src).length = dst.length) ∧
    (dst.length < src.length + 1 → (strcpy dst src).length = src.length + 1) := by
  refine ⟨fun i hi => ?_, ?_, fun h => ?_, fun h => ?_⟩
  · simp only [strcpy, List.append_assoc, List.getD_eq_getElem?_getD]
    rw [List.getElem?_append_left hi]
  · simp only [strcpy, List.append_assoc, List.getD_eq_getElem?_getD]
    rw [List.getElem?_append_right (le_refl _)]
    simp
  · simp only [strcpy, List.length_append, List.length_drop, List.length_singleton]
    omega
  · simp only [strcpy, List.length_append, List.length_drop, List.length_singleton]
    omega

/-- C23 (as stated, refuted). The engine's array has 8 elements and the message has 10
characters: `leuart_start` raises no assertion, and the copy (10 characters and the NUL)
extends to 11 elements, past the end of the array. -/
theorem C23_long_message_accepted :
    ∃ w1 : World,
      (World.boot 5 8).leuart_sm.string_.length = 8 ∧
      leuart_start EM3 (World.boot 5 8) (List.replicate 10 65) 0 = Outcome.ok w1 ∧
      w1.leuart_sm.string_ = List.replicate 10 65 ++ [0] ∧
      w1.leuart_sm.string_.length = 11 := by
  refine ⟨_, ?_, rfl, ?_, ?_⟩ <;> decide

/-- C23 (amended). `leuart_start` copies the message and its terminating NUL into the
engine's array without comparing its length with the capacity: on an idle engine (and with
the veto at `LEUART_TX_EM` accepted) the call succeeds for every message, the array then
holds the message followed by NUL and `string_length` is the message length; the array keeps
its capacity when the message and the NUL fit, and otherwise the copy runs past its end. -/
theorem C23_leuart_start_copies_unchecked (LEUART_TX_EM : Nat) (w : World) (string : List Nat)
    (call_back : Nat) (hidle : leuart_tx_busy w = false)
    (hEM : LEUART_TX_EM < w.lowest_energy_mode.length)
    (h4 : countAt w.lowest_energy_mode LEUART_TX_EM + 1 < 5) :
    ∃ w1 : World,
      leuart_start LEUART_TX_EM w string call_back = Outcome.ok w1 ∧
      (∀ i, i < string.length → w1.leuart_sm.string_.getD i 0 = string.getD i 0) ∧
      w1.leuart_sm.string_.getD string.length 1 = 0 ∧
      w1.leuart_sm.string_length = string.length ∧
      (string.length + 1 ≤ w.leuart_sm.string_.length →
        w1.leuart_sm.string_.length = w.leuart_sm.string_.length) ∧
      (w.leuart_sm.string_.length < string.length + 1 →
        w1.leuart_sm.string_.length = string.length + 1) := by
  obtain ⟨h1, h2, h3, h5⟩ := strcpy_spec w.leuart_sm.string_ string
  exact ⟨_, leuart_start_ok LEUART_TX_EM w string call_back hidle hEM h4, h1, h2, rfl, h3, h5⟩

/-- C23 witness: `"hi"` started on the booted engine with a 64-element array. -/
theorem C23_leuart_start_copies_unchecked_witness :
    leuart_tx_busy (World.boot 5 64) = false ∧
    EM3 < (World.boot 5 64).lowest_energy_mode.length ∧
    countAt (World.boot 5 64).lowest_energy_mode EM3 + 1 < 5 ∧
    ∃ w1 : World,
      leuart_start EM3 (World.boot 5 64) [104, 105] BLE_TX_DONE_CB = Outcome.ok w1 ∧
      (∀ i, i < [104, 105].length → w1.leuart_sm.string_.getD i 0 = [104, 105].getD i 0) ∧
      w1.leuart_sm.string_.getD [104, 105].length 1 = 0 ∧
      w1.leuart_sm.string_length = [104, 105].length ∧
      ([104, 105].length + 1 ≤ (World.boot 5 64).leuart_sm.string_.length →
        w1.leuart_sm.string_.length = (World.boot 5 64).leuart_sm.string_.length) ∧
      ((World.boot 5 64).leuart_sm.string_.length < [104, 105].length + 1 →
        w1.leuart_sm.string_.length = [104, 105].length + 1) :=
  ⟨by decide, by decide, by decide,
   C23_leuart_start_copies_unchecked EM3 (World.boot 5 64) [104, 105] BLE_TX_DONE_CB
     (by decide) (by decide) (by decide)⟩

/-! ## Sleep arbiter: the count invariant -/

/-- C24. Veto-count invariant: starting from `sleep_open`, after every finite sequence of
`sleep_block_mode` and `sleep_unblock_mode` calls on depths below `MAX_ENERGY_MODES`, the
count of every depth is non-negative. It holds along runs in which every assertion passes
(`runSleepCalls`) and also when execution continues past a failed ceiling assertion
(`sleepCallsTable`). -/
theorem C24_veto_counts_never_negative (MAX_ENERGY_MODES : Nat) (cs : List SleepCall)
    (hcs : ∀ c ∈ cs, c.depth < MAX_ENERGY_MODES) :
    (∀ d, 0 ≤ countAt (sleepCallsTable (sleep_open MAX_ENERGY_MODES) cs) d) ∧
    (∀ t, runSleepCalls (sleep_open MAX_ENERGY_MODES) cs = Outcome.ok t → ∀ d, 0 ≤ countAt t d) := by
  have h : SleepReachable MAX_ENERGY_MODES (sleepCallsTable (sleep_open MAX_ENERGY_MODES) cs) :=
    ⟨cs, hcs, rfl⟩
  refine ⟨h.ok.2, fun t ht => ?_⟩
  rw [← sleepCallsTable_of_run cs _ t ht]
  exact h.ok.2

/-- C24 witness: block `EM2`, release it twice, block `EM3`. -/
theorem C24_veto_counts_never_negative_witness :
    (∀ c ∈ [SleepCall.block EM2, SleepCall.unblock EM2, SleepCall.unblock EM2,
        SleepCall.block EM3], c.depth < 5) ∧
    (∀ d, 0 ≤ countAt (sleepCallsTable (sleep_open 5)
      [SleepCall.block EM2, SleepCall.unblock EM2, SleepCall.unblock EM2,
        SleepCall.block EM3]) d) ∧
    runSleepCalls (sleep_open 5)
      [SleepCall.block EM2, SleepCall.unblock EM2, SleepCall.unblock EM2, SleepCall.block EM3]
      = Outcome.ok [0, 0, 0, 1, 0] :=
  ⟨by decide,
   (C24_veto_counts_never_negative 5
     [SleepCall.block EM2, SleepCall.unblock EM2, SleepCall.unblock EM2, SleepCall.block EM3]
     (by decide)).1,
   by decide⟩

/-! ## Circular buffer: free space, layout, pop -/

/-- C25. For all 32-bit read and write indices of a buffer with the size and mask that
`ble_circ_init` sets (capacity 64), `ble_circ_space()` equals
`capacity - ((write - read) mod capacity)`, the difference taken in the integers; and right
after `ble_circ_init` it equals `CSIZE`. -/
theorem C25_ble_circ_space (b : BLE_CIRCULAR_BUF) (hsize : b.size = CSIZE)
    (hmask : b.size_mask = CSIZE - 1) (hr : b.read_ptr < U32) (hw : b.write_ptr < U32) :
    (ble_circ_space b : Int) = 64 - ((b.write_ptr : Int) - (b.read_ptr : Int)) % 64 ∧
    ble_circ_space (ble_circ_init b) = CSIZE := by
  constructor
  · simp only [CSIZE] at hsize hmask
    rw [U32_eq] at hr hw
    simp only [ble_circ_space, hsize, hmask, Nat.add_one_sub_one, land_63, u32_sub, U32_eq]
    split_ifs <;> omega
  · simp [ble_circ_space, ble_circ_init, u32_sub, CSIZE]

/-- C25 witness: read index 60, write index 3 (the write index has wrapped). -/
theorem C25_ble_circ_space_witness :
    (ble_circ_space { ble_circ_init (World.boot 5 64).ble_cbuf with
        read_ptr := 60, write_ptr := 3 } : Int) = 64 - ((3 : Int) - 60) % 64 ∧
    ble_circ_space (ble_circ_init { ble_circ_init (World.boot 5 64).ble_cbuf with
        read_ptr := 60, write_ptr := 3 }) = CSIZE :=
  C25_ble_circ_space { ble_circ_init (World.boot 5 64).ble_cbuf with
      read_ptr := 60, write_ptr := 3 } rfl rfl (by decide) (by decide)

/-! ## I2C read path: acknowledge transitions -/

/-- C27. Acknowledge transitions of a read. In `start_comm` the command byte is sent and the
state becomes `command`; in `command` a repeated `START` is issued, `(target << 1) | 1` is
sent (the shift taken in 32 bits, which is `2 * target + 1` for every target below `2 ^ 31`)
and the state becomes `slave_rw`; in `slave_rw` the state becomes `MS_byte` and nothing is
transmitted; in `MS_byte`, `LS_byte` and `end_comm` the assertion fails and nothing changes. -/
theorem C27_i2c_ack_read_path (w : World) (hr : w.i2c_sm.read = true) :
    (w.i2c_sm.state = DEFINED_STATES.start_comm →
      i2c_ack w = Outcome.ok
        { w with
          i2c_sm := { w.i2c_sm with state := DEFINED_STATES.command }
          i2c_writes := w.i2c_writes
            ++ [(w.i2c_sm.I2C_periph, I2C_RegWrite.TXDATA w.i2c_sm.command_)] }) ∧
    (w.i2c_sm.state = DEFINED_STATES.command →
      i2c_ack w = Outcome.ok
        { w with
          i2c_sm := { w.i2c_sm with state := DEFINED_STATES.slave_rw }
          i2c_writes := w.i2c_writes
            ++ [(w.i2c_sm.I2C_periph, I2C_RegWrite.CMD I2C_CMD.I2C_CMD_START),
                (w.i2c_sm.I2C_periph,
                  I2C_RegWrite.TXDATA (((w.i2c_sm.slave_address <<< 1) % U32) ||| 1))] } ∧
      (w.i2c_sm.slave_address < 2 ^ 31 →
        ((w.i2c_sm.slave_address <<< 1) % U32) ||| 1 = 2 * w.i2c_sm.slave_address + 1)) ∧
    (w.i2c_sm.state = DEFINED_STATES.slave_rw →
      i2c_ack w = Outcome.ok
        { w with i2c_sm := { w.i2c_sm with state := DEFINED_STATES.MS_byte } }) ∧
    (w.i2c_sm.state = DEFINED_STATES.MS_byte ∨ w.i2c_sm.state = DEFINED_STATES.LS_byte ∨
        w.i2c_sm.state = DEFINED_STATES.end_comm →
      i2c_ack w = Outcome.assertFailed w) := by
  refine ⟨fun hs => ?_, fun hs => ⟨?_, fun ha => ?_⟩, fun hs => ?_, fun hs => ?_⟩
  · simp [i2c_ack, hr, hs, World.i2c_write]
  · simp [i2c_ack, hr, hs, World.i2c_write, READ]
  · have h1 : (w.i2c_sm.slave_address <<< 1) % U32 = 2 * w.i2c_sm.slave_address := by
      rw [Nat.shiftLeft_eq, U32_eq]
      omega
    rw [h1]
    have h2 := Nat.mul_add_lt_is_or (show 1 < 2 ^ 1 by decide) w.i2c_sm.slave_address
    simp only [pow_one] at h2
    exact h2.symm
  · simp [i2c_ack, hr, hs]
  · rcases hs with hs | hs | hs <;> simp [i2c_ack, hr, hs]

/-- C27 witness: a read of command `0x04` from target `0x48`, followed through its first
three acknowledges. -/
theorem C27_i2c_ack_read_path_witness :
    ∃ w0 w1 w2 w3 : World,
      i2c_start (World.boot 5 64) true I2C_TypeDef.I2C0 0x48 0x04 0 0x08 2 true true
        = Outcome.ok w0 ∧
      w0.i2c_sm.read = true ∧
      i2c_ack w0 = Outcome.ok w1 ∧ w1.i2c_sm.state = DEFINED_STATES.command ∧
      i2c_ack w1 = Outcome.ok w2 ∧ w2.i2c_sm.state = DEFINED_STATES.slave_rw ∧
      w2.i2c_writes = w1.i2c_writes
        ++ [(I2C_TypeDef.I2C0, I2C_RegWrite.CMD I2C_CMD.I2C_CMD_START),
            (I2C_TypeDef.I2C0, I2C_RegWrite.TXDATA 0x91)] ∧
      i2c_ack w2 = Outcome.ok w3 ∧ w3.i2c_sm.state = DEFINED_STATES.MS_byte ∧
      w3.i2c_writes = w2.i2c_writes ∧
      i2c_ack w3 = Outcome.assertFailed w3 := by
  refine ⟨_, _, _, _, rfl, rfl, rfl, rfl, rfl, rfl, ?_, rfl, rfl, rfl, ?_⟩
  · decide
  · exact (C27_i2c_ack_read_path _ rfl).2.2.2 (Or.inl rfl)

/-! ## Serial transmit engine: buffer-ready interrupt -/

/-- C28. The buffer-ready interrupt is legal only in `transmit`. There `leuart_txbl` writes
the byte `string[sent_bytes]` to `TXDATA` and increments `sent_bytes`; exactly when the
incremented count equals `string_length - 1` it disarms the buffer-ready interrupt, arms the
transmission-complete interrupt and moves to `stop`, and otherwise it leaves the state and
both interrupt enables as they were. In `start` and in `stop` the assertion fails and nothing
changes. (The counters are 32-bit; while unsent bytes remain, `sent_bytes < string_length`,
the increment and the subtraction do not wrap.) -/
theorem C28_leuart_txbl (w : World) :
    (w.leuart_sm.state = LEUART_STATES.start ∨ w.leuart_sm.state = LEUART_STATES.stop →
      leuart_txbl w = Outcome.assertFailed w) ∧
    (w.leuart_sm.state = LEUART_STATES.transmit →
      ∃ w1 : World,
        leuart_txbl w = Outcome.ok w1 ∧
        w1.LEUART0_TXDATA
          = w.LEUART0_TXDATA ++ [w.leuart_sm.string_.getD w.leuart_sm.sent_bytes 0 % 256] ∧
        w1.leuart_sm.sent_bytes = (w.leuart_sm.sent_bytes + 1) % U32 ∧
        w1.leuart_sm.string_ = w.leuart_sm.string_ ∧
        w1.leuart_sm.string_length = w.leuart_sm.string_length ∧
        (w1.leuart_sm.sent_bytes = u32_sub w.leuart_sm.string_length 1 →
          w1.leuart_sm.state = LEUART_STATES.stop ∧
          w1.LEUART0_IEN_TXBL = false ∧ w1.LEUART0_IEN_TXC = true) ∧
        (w1.leuart_sm.sent_bytes ≠ u32_sub w.leuart_sm.string_length 1 →
          w1.leuart_sm.state = LEUART_STATES.transmit ∧
          w1.LEUART0_IEN_TXBL = w.LEUART0_IEN_TXBL ∧
          w1.LEUART0_IEN_TXC = w.LEUART0_IEN_TXC)) ∧
    (w.leuart_sm.sent_bytes < w.leuart_sm.string_length → w.leuart_sm.string_length < U32 →
      (w.leuart_sm.sent_bytes + 1) % U32 = w.leuart_sm.sent_bytes + 1 ∧
      u32_sub w.leuart_sm.string_length 1 = w.leuart_sm.string_length - 1) := by
  refine ⟨fun hs => ?_, fun hs => ?_, fun hlt h32 => ⟨Nat.mod_eq_of_lt (by omega), ?_⟩⟩
  · rcases hs with hs | hs <;> simp only [leuart_txbl, hs]
  · by_cases hlast :
        (w.leuart_sm.sent_bytes + 1) % U32 = u32_sub w.leuart_sm.string_length 1
    · have h : leuart_txbl w = Outcome.ok
          { w with
            leuart_sm :=
              { w.leuart_sm with
                sent_bytes := (w.leuart_sm.sent_bytes + 1) % U32
                state := LEUART_STATES.stop }
            LEUART0_IEN_TXC := true
            LEUART0_IEN_TXBL := false
            LEUART0_TXDATA :=
              w.LEUART0_TXDATA ++ [w.leuart_sm.string_.getD w.leuart_sm.sent_bytes 0 % 256] } := by
        simp only [leuart_txbl, hs, leuart_app_transmit_byte]
        rw [if_pos hlast]
      exact ⟨_, h, rfl, rfl, rfl, rfl, fun _ => ⟨rfl, rfl, rfl⟩, fun hne => absurd hlast hne⟩
    · have h : leuart_txbl w = Outcome.ok
          { w with
            leuart_sm := { w.leuart_sm with sent_bytes := (w.leuart_sm.sent_bytes + 1) % U32 }
            LEUART0_TXDATA :=
              w.LEUART0_TXDATA ++ [w.leuart_sm.string_.getD w.leuart_sm.sent_bytes 0 % 256] } := by
        simp only [leuart_txbl, hs, leuart_app_transmit_byte]
        rw [if_neg hlast]
      exact ⟨_, h, rfl, rfl, rfl, rfl, fun he => absurd he hlast, fun _ => ⟨hs, rfl, rfl⟩⟩
  · unfold u32_sub
    rw [if_pos (by omega)]

/-- C28 witness: the three-character message `"abc"` started on the booted engine and its
first buffer-ready interrupt handled; the second one writes `'b'`, reaches
`string_length - 1 = 2` and moves to `stop`. -/
theorem C28_leuart_txbl_witness :
    ∃ w0 : World,
      (leuart_start EM3 (World.boot 5 64) [97, 98, 99] BLE_TX_DONE_CB).andThen leuart_txbl
        = Outcome.ok w0 ∧
      w0.leuart_sm.state = LEUART_STATES.transmit ∧
      w0.leuart_sm.sent_bytes = 1 ∧ w0.leuart_sm.string_length = 3 ∧
      (∃ w1 : World,
        leuart_txbl w0 = Outcome.ok w1 ∧
        w1.LEUART0_TXDATA
          = w0.LEUART0_TXDATA ++ [w0.leuart_sm.string_.getD w0.leuart_sm.sent_bytes 0 % 256] ∧
        w1.leuart_sm.sent_bytes = (w0.leuart_sm.sent_bytes + 1) % U32 ∧
        w1.leuart_sm.string_ = w0.leuart_sm.string_ ∧
        w1.leuart_sm.string_length = w0.leuart_sm.string_length ∧
        (w1.leuart_sm.sent_bytes = u32_sub w0.leuart_sm.string_length 1 →
          w1.leuart_sm.state = LEUART_STATES.stop ∧
          w1.LEUART0_IEN_TXBL = false ∧ w1.LEUART0_IEN_TXC = true) ∧
        (w1.leuart_sm.sent_bytes ≠ u32_sub w0.leuart_sm.string_length 1 →
          w1.leuart_sm.state = LEUART_STATES.transmit ∧
          w1.LEUART0_IEN_TXBL = w0.LEUART0_IEN_TXBL ∧
          w1.LEUART0_IEN_TXC = w0.LEUART0_IEN_TXC)) ∧
      ((w0.leuart_sm.sent_bytes + 1) % U32 = w0.leuart_sm.sent_bytes + 1 ∧
        u32_sub w0.leuart_sm.string_length 1 = w0.leuart_sm.string_length - 1) :=
  ⟨_, rfl, rfl, rfl, rfl, (C28_leuart_txbl _).2.1 rfl,
   (C28_leuart_txbl _).2.2 (by decide) (by decide)⟩

/-- C29 (the code at the failing input). The five-byte message `35, 36, 37, 38, 39` (the
third test message of `circular_buff_test`) is pushed onto the empty, zeroed buffer, write
index 0. The claimed layout is length byte 6 in slot 0, the message in slots 1 to 5 and write
index 6. The code leaves 39, the last message byte, in slot 0, leaves slots 1 to 5 at zero,
and sets the write index to 5. -/
theorem C29_push_layout_on_test_message :
    ∃ b1 : BLE_CIRCULAR_BUF,
      test_str_2 = [35, 36, 37, 38, 39] ∧
      (World.boot 5 64).ble_cbuf.write_ptr = 0 ∧
      ble_circ_push (World.boot 5 64).ble_cbuf test_str_2 = Outcome.ok b1 ∧
      b1.cbuf.getD 0 0 = 39 ∧
      b1.cbuf.take 6 = [39, 0, 0, 0, 0, 0] ∧
      b1.cbuf = (World.boot 5 64).ble_cbuf.cbuf.set 0 39 ∧
      b1.write_ptr = 5 := by
  refine ⟨_, ?_, ?_, rfl, ?_, ?_, ?_, ?_⟩ <;> decide

/-- C30 (the code at the failing input). On the empty, zeroed buffer two one-character
messages are pushed, the byte 2 and the letter `A`, which leaves 2 in slot 0 (read as the
length byte) and `A` in slot 1, read index 0, write index 2. `ble_circ_pop` reads `L = 2`
and extracts the one payload byte `A`, advances the read index to 2 and leaves the write
index and the buffer bytes alone, as claimed. But it does not hand over exactly that one byte: with `0x55, 0`
following the one-element `print_str` in memory, test mode copies `L = 2` elements, so
`result_str[1]` receives `0x55`, and operating mode passes the unterminated array to
`leuart_start`, which takes the two-character string `A`, `0x55`. -/
theorem C30_pop_hands_over_one_byte_more :
    ∃ (b1 b2 : BLE_CIRCULAR_BUF) (wt wo : World),
      ble_circ_push (World.boot 5 64).ble_cbuf [2] = Outcome.ok b1 ∧
      ble_circ_push b1 [65] = Outcome.ok b2 ∧
      b2.cbuf.take 3 = [2, 65, 0] ∧ b2.read_ptr = 0 ∧ b2.write_ptr = 2 ∧
      pop_length b2 = 2 ∧ pop_print_str b2 = [65] ∧
      ble_circ_pop EM3 { World.boot 5 64 with ble_cbuf := b2 } true [0x55, 0]
        = Outcome.ok (false, wt) ∧
      wt.ble_cbuf.read_ptr = 2 ∧ wt.ble_cbuf.write_ptr = 2 ∧ wt.ble_cbuf.cbuf = b2.cbuf ∧
      (World.boot 5 64).result_str.take 3 = [0, 0, 0] ∧
      wt.result_str.take 3 = [65, 0x55, 0] ∧
      ble_circ_pop EM3 { World.boot 5 64 with ble_cbuf := b2 } false [0x55, 0]
        = Outcome.ok (false, wo) ∧
      wo.ble_cbuf.read_ptr = 2 ∧ wo.ble_cbuf.write_ptr = 2 ∧ wo.ble_cbuf.cbuf = b2.cbuf ∧
      wo.leuart_sm.string_length = 2 ∧
      wo.leuart_sm.string_.take 3 = [65, 0x55, 0] := by
  refine ⟨_, _, _, _, rfl, rfl, ?_, ?_, ?_, ?_, ?_, rfl, ?_, ?_, ?_, ?_, ?_, rfl, ?_, ?_, ?_,
    ?_, ?_⟩ <;> decide

/-! ## Ring buffer: pop return value -/

/-- With the serial engine idle and the indices apart, `ble_circ_pop` returns `false`. -/
theorem ble_circ_pop_returns_false (LEUART_TX_EM : Nat) (w : World) (stack : List Nat)
    (hidle : leuart_tx_busy w = false)
    (hne : w.ble_cbuf.read_ptr ≠ w.ble_cbuf.write_ptr) :
    ∃ w1 : World, ble_circ_pop LEUART_TX_EM w true stack = Outcome.ok (false, w1) :=
  ⟨_, ble_circ_pop_test LEUART_TX_EM w stack hidle hne⟩

/-- C31 (the code at the failing input). One message, the single character `@` (byte 64), is
pushed onto the empty, zeroed buffer and popped once in diagnostic mode; the pop returns
`false`. Every pushed message has then been popped, but the next `ble_circ_pop` returns
`false` again instead of `true`: the push left 64 in slot 0 and advanced the write index to
1, the pop read 64 as the length byte and moved the read index to `64 & 63 = 0`, so the
indices differ. -/
theorem C31_pop_after_last_message_not_empty :
    ∃ (b1 : BLE_CIRCULAR_BUF) (w1 w2 : World),
      ble_circ_push (World.boot 5 64).ble_cbuf [64] = Outcome.ok b1 ∧
      b1.cbuf.getD 0 0 = 64 ∧ b1.read_ptr = 0 ∧ b1.write_ptr = 1 ∧
      ble_circ_pop EM3 { World.boot 5 64 with ble_cbuf := b1 } true [] = Outcome.ok (false, w1) ∧
      w1.ble_cbuf.read_ptr = 0 ∧ w1.ble_cbuf.write_ptr = 1 ∧
      leuart_tx_busy w1 = false ∧
      ble_circ_pop EM3 w1 true [] = Outcome.ok (false, w2) := by
  refine ⟨_, _, _, rfl, ?_, ?_, ?_, rfl, ?_, ?_, ?_, rfl⟩ <;> decide

/-! ## Bus transaction engine: the veto over a transaction -/

theorem i2c_tables_append (es1 es2 : List I2C_IF) (w : World) :
    i2c_tables w (es1 ++ es2)
      = i2c_tables w es1 ++
          (match i2c_run w es1 with
           | .ok w1 => i2c_tables w1 es2
           | _ => []) := by
  induction es1 generalizing w with
  | nil => rfl
  | cons e es ih =>
    show i2c_tables w (e :: (es ++ es2)) = _
    simp only [i2c_tables, i2c_run]
    cases I2C_IRQHandler w e with
    | ok s => simp only [Outcome.andThen, ih, List.cons_append]
    | assertFailed s => rfl
    | spins s => rfl

/-- Not-acknowledge retries leave the veto table alone. -/
theorem i2c_tables_nack (k : Nat) (w : World) (hr : w.i2c_sm.read = true)
    (hs : w.i2c_sm.state = DEFINED_STATES.slave_rw) :
    i2c_tables w (List.replicate k I2C_IF.NACK) = List.replicate k w.lowest_energy_mode := by
  induction k generalizing w with
  | zero => rfl
  | succ k ih =>
    let w1 : World :=
      { w with
        i2c_writes := w.i2c_writes ++
          [(w.i2c_sm.I2C_periph, I2C_RegWrite.CMD I2C_CMD.I2C_CMD_START),
           (w.i2c_sm.I2C_periph,
             I2C_RegWrite.TXDATA (((w.i2c_sm.slave_address <<< 1) % U32) ||| READ))] }
    have hstep : I2C_IRQHandler w I2C_IF.NACK = Outcome.ok w1 := by
      simp only [I2C_IRQHandler, i2c_nack, hr, hs, World.i2c_write, if_true]
      simp only [w1, ← hs, Outcome.ok.injEq]
      rw [← hr]
      simp
    rw [List.replicate_succ, i2c_tables, hstep]
    simp only []
    rw [ih w1 hr hs, List.replicate_succ]

/-- The data phase of a write leaves the veto table alone. -/
theorem i2c_tables_write_data (n : Nat) (w : World) (hr : w.i2c_sm.read = false)
    (hs : w.i2c_sm.state = DEFINED_STATES.slave_rw) (hn : w.i2c_sm.numbytes = n + 1) :
    i2c_tables w (List.replicate (n + 1) I2C_IF.ACK)
      = List.replicate (n + 1) w.lowest_energy_mode := by
  induction n generalizing w with
  | zero =>
    have hstep : I2C_IRQHandler w I2C_IF.ACK = Outcome.ok (afterWriteData w 1) := by
      simp only [I2C_IRQHandler, i2c_ack, hr, hs, World.i2c_write, hn, afterWriteData, u32_sub]
      simp
    simp only [List.replicate, i2c_tables, hstep]
    rfl
  | succ n ih =>
    let w1 : World :=
      { w with
        i2c_sm := { w.i2c_sm with numbytes := n + 1 }
        i2c_writes := w.i2c_writes ++ [(w.i2c_sm.I2C_periph, I2C_RegWrite.TXDATA w.i2c_sm.data)] }
    have hstep : I2C_IRQHandler w I2C_IF.ACK = Outcome.ok w1 := by
      simp only [I2C_IRQHandler, i2c_ack, hr, hs, World.i2c_write, hn, u32_sub]
      simp [w1, hs, hr]
    rw [List.replicate_succ, i2c_tables, hstep]
    simp only []
    rw [ih w1 hr hs rfl]
    rfl

theorem replicate_append_cons {α : Type} (k : Nat) (a : α) (l : List α) :
    List.replicate k a ++ a :: l = a :: (List.replicate k a ++ l) := by
  induction k with
  | zero => rfl
  | succ k ih => simp only [List.replicate_succ, List.cons_append, ih]

/-- The veto table over a two-byte read: held at every interrupt before `MSTOP`, restored by
`MSTOP`. -/
theorem i2c_tables_read2 (w : World) (i2c : I2C_TypeDef)
    (address_slave command data_ callback : Nat) (busy : Bool) (k hi lo : Nat)
    (hEM : EM2 < w.lowest_energy_mode.length)
    (h0 : 0 ≤ countAt w.lowest_energy_mode EM2)
    (h4 : countAt w.lowest_energy_mode EM2 + 1 < 5) :
    ∃ w0 : World,
      i2c_start w true i2c address_slave command data_ callback 2 busy true = Outcome.ok w0 ∧
      w0.lowest_energy_mode
        = w.lowest_energy_mode.set EM2 (countAt w.lowest_energy_mode EM2 + 1) ∧
      i2c_tables w0 (readTrace k hi lo)
        = List.replicate (k + 5)
            (w.lowest_energy_mode.set EM2 (countAt w.lowest_energy_mode EM2 + 1))
          ++ [w.lowest_energy_mode] := by
  refine ⟨_, i2c_start_ok w i2c address_slave command data_ callback 2 busy true hEM h4,
    rfl, ?_⟩
  have hun := sleep_unblock_after_block w.lowest_energy_mode EM2 hEM h0
  simp only [readTrace, List.append_assoc, i2c_tables_append]
  simp only [i2c_tables, i2c_run, I2C_IRQHandler, i2c_ack, World.i2c_write, if_true,
    Outcome.andThen]
  rw [i2c_nack_retry k _ rfl rfl, i2c_tables_nack k _ rfl rfl]
  simp [i2c_tables, I2C_IRQHandler, i2c_ack, i2c_rxdatav, i2c_mstop, World.i2c_write,
    Outcome.andThen, World.sleep_unblock_mode, hun, Outcome.map, World.add_scheduled_event,
    List.replicate_succ, replicate_append_cons]

/-- The veto table over a one-byte read: held at every interrupt before `MSTOP`, restored by
`MSTOP`. -/
theorem i2c_tables_read1 (w : World) (i2c : I2C_TypeDef)
    (address_slave command data_ callback : Nat) (busy : Bool) (k x : Nat)
    (hEM : EM2 < w.lowest_energy_mode.length)
    (h0 : 0 ≤ countAt w.lowest_energy_mode EM2)
    (h4 : countAt w.lowest_energy_mode EM2 + 1 < 5) :
    ∃ w0 : World,
      i2c_start w true i2c address_slave command data_ callback 1 busy true = Outcome.ok w0 ∧
      w0.lowest_energy_mode
        = w.lowest_energy_mode.set EM2 (countAt w.lowest_energy_mode EM2 + 1) ∧
      i2c_tables w0 (readTrace1 k x)
        = List.replicate (k + 4)
            (w.lowest_energy_mode.set EM2 (countAt w.lowest_energy_mode EM2 + 1))
          ++ [w.lowest_energy_mode] := by
  refine ⟨_, i2c_start_ok w i2c address_slave command data_ callback 1 busy true hEM h4,
    rfl, ?_⟩
  have hun := sleep_unblock_after_block w.lowest_energy_mode EM2 hEM h0
  simp only [readTrace1, List.append_assoc, i2c_tables_append]
  simp only [i2c_tables, i2c_run, I2C_IRQHandler, i2c_ack, World.i2c_write, if_true,
    Outcome.andThen]
  rw [i2c_nack_retry k _ rfl rfl, i2c_tables_nack k _ rfl rfl]
  simp [i2c_tables, I2C_IRQHandler, i2c_ack, i2c_rxdatav, i2c_mstop, World.i2c_write,
    Outcome.andThen, World.sleep_unblock_mode, hun, Outcome.map, World.add_scheduled_event,
    List.replicate_succ, replicate_append_cons]

/-- The veto table over a write of `n + 1` bytes: held at the command acknowledge and at every
data acknowledge, restored by the acknowledge received in `end_comm`. -/
theorem i2c_tables_write (w : World) (i2c : I2C_TypeDef)
    (address_slave command data_ callback n : Nat) (busy : Bool)
    (hEM : EM2 < w.lowest_energy_mode.length)
    (h0 : 0 ≤ countAt w.lowest_energy_mode EM2)
    (h4 : countAt w.lowest_energy_mode EM2 + 1 < 5) :
    ∃ w0 : World,
      i2c_start w true i2c address_slave command data_ callback (n + 1) busy false
        = Outcome.ok w0 ∧
      w0.lowest_energy_mode
        = w.lowest_energy_mode.set EM2 (countAt w.lowest_energy_mode EM2 + 1) ∧
      i2c_tables w0 ([I2C_IF.ACK] ++ List.replicate (n + 1) I2C_IF.ACK ++ [I2C_IF.ACK])
        = List.replicate (n + 2)
            (w.lowest_energy_mode.set EM2 (countAt w.lowest_energy_mode EM2 + 1))
          ++ [w.lowest_energy_mode] := by
  refine ⟨_, i2c_start_ok w i2c address_slave command data_ callback (n + 1) busy false hEM h4,
    rfl, ?_⟩
  have hun := sleep_unblock_after_block w.lowest_energy_mode EM2 hEM h0
  simp only [List.append_assoc, i2c_tables_append]
  generalize hacks : List.replicate (n + 1) I2C_IF.ACK = acks
  simp only [i2c_tables, i2c_run, I2C_IRQHandler, i2c_ack, World.i2c_write, Outcome.andThen,
    Bool.false_eq_true, if_false]
  subst hacks
  rw [(i2c_write_data_phase n _ rfl rfl rfl).1, i2c_tables_write_data n _ rfl rfl rfl]
  simp [i2c_tables, I2C_IRQHandler, i2c_ack, afterWriteData, World.sleep_unblock_mode, hun,
    Outcome.map, Outcome.andThen, World.add_scheduled_event, List.replicate_succ,
    replicate_append_cons]

/-- C32. Bus veto balance. A transaction is started by `i2c_start` when the EM2 count is
`c` with `0 ≤ c ≤ 3`. For a two-byte read (`ACK, ACK, NACK^k, ACK, RXDATAV, RXDATAV, MSTOP`),
a one-byte read (`ACK, ACK, NACK^k, ACK, RXDATAV, MSTOP`) and a write of `N ≥ 1` bytes
(`N + 2` acknowledges), no assertion is raised, the veto table after `i2c_start` and after
every event but the last is the table `held`, whose EM2 count is `c + 1` and whose other
counts are those before the start, and the table after the completing event is the table
before the start. -/
theorem C32_bus_veto_balance (w : World) (i2c : I2C_TypeDef)
    (address_slave command data_ callback : Nat) (busy : Bool)
    (hEM : EM2 < w.lowest_energy_mode.length)
    (h0 : 0 ≤ countAt w.lowest_energy_mode EM2)
    (h3 : countAt w.lowest_energy_mode EM2 ≤ 3) :
    ∃ held : SleepTable,
      countAt held EM2 = countAt w.lowest_energy_mode EM2 + 1 ∧
      (∀ j, j ≠ EM2 → countAt held j = countAt w.lowest_energy_mode j) ∧
      (∀ k hi lo, ∃ w0 : World,
        i2c_start w true i2c address_slave command data_ callback 2 busy true = Outcome.ok w0 ∧
        w0.lowest_energy_mode = held ∧
        i2c_tables w0 (readTrace k hi lo)
          = List.replicate (k + 5) held ++ [w.lowest_energy_mode]) ∧
      (∀ k x, ∃ w0 : World,
        i2c_start w true i2c address_slave command data_ callback 1 busy true = Outcome.ok w0 ∧
        w0.lowest_energy_mode = held ∧
        i2c_tables w0 (readTrace1 k x)
          = List.replicate (k + 4) held ++ [w.lowest_energy_mode]) ∧
      (∀ N, 1 ≤ N → ∃ w0 : World,
        i2c_start w true i2c address_slave command data_ callback N busy false
          = Outcome.ok w0 ∧
        w0.lowest_energy_mode = held ∧
        i2c_tables w0 (List.replicate (N + 2) I2C_IF.ACK)
          = List.replicate (N + 1) held ++ [w.lowest_energy_mode]) := by
  have h4 : countAt w.lowest_energy_mode EM2 + 1 < 5 := by omega
  refine ⟨w.lowest_energy_mode.set EM2 (countAt w.lowest_energy_mode EM2 + 1),
    countAt_set_self _ _ _ hEM, fun j hj => countAt_set_other _ _ _ _ hj,
    fun k hi lo => ?_, fun k x => ?_, fun N hN => ?_⟩
  · exact i2c_tables_read2 w i2c address_slave command data_ callback busy k hi lo hEM h0 h4
  · exact i2c_tables_read1 w i2c address_slave command data_ callback busy k x hEM h0 h4
  · obtain ⟨n, rfl⟩ : ∃ n, N = n + 1 := ⟨N - 1, by omega⟩
    have h := i2c_tables_write w i2c address_slave command data_ callback n busy hEM h0 h4
    have hl : [I2C_IF.ACK] ++ List.replicate (n + 1) I2C_IF.ACK ++ [I2C_IF.ACK]
        = List.replicate (n + 1 + 2) I2C_IF.ACK := by
      simp [List.replicate_succ, replicate_append_cons]
    rw [hl] at h
    exact h

/-- C32 witness: transactions on the freshly booted engine (EM2 count 0). -/
theorem C32_bus_veto_balance_witness :
    (EM2 < (World.boot 5 64).lowest_energy_mode.length ∧
      0 ≤ countAt (World.boot 5 64).lowest_energy_mode EM2 ∧
      countAt (World.boot 5 64).lowest_energy_mode EM2 ≤ 3) ∧
    ∃ held : SleepTable,
      countAt held EM2 = countAt (World.boot 5 64).lowest_energy_mode EM2 + 1 ∧
      (∀ j, j ≠ EM2 → countAt held j = countAt (World.boot 5 64).lowest_energy_mode j) ∧
      (∀ k hi lo, ∃ w0 : World,
        i2c_start (World.boot 5 64) true I2C_TypeDef.I2C0 0x40 0xF5 0 8 2 true true
          = Outcome.ok w0 ∧
        w0.lowest_energy_mode = held ∧
        i2c_tables w0 (readTrace k hi lo)
          = List.replicate (k + 5) held ++ [(World.boot 5 64).lowest_energy_mode]) ∧
      (∀ k x, ∃ w0 : World,
        i2c_start (World.boot 5 64) true I2C_TypeDef.I2C0 0x40 0xF5 0 8 1 true true
          = Outcome.ok w0 ∧
        w0.lowest_energy_mode = held ∧
        i2c_tables w0 (readTrace1 k x)
          = List.replicate (k + 4) held ++ [(World.boot 5 64).lowest_energy_mode]) ∧
      (∀ N, 1 ≤ N → ∃ w0 : World,
        i2c_start (World.boot 5 64) true I2C_TypeDef.I2C0 0x40 0xF5 0 8 N true false
          = Outcome.ok w0 ∧
        w0.lowest_energy_mode = held ∧
        i2c_tables w0 (List.replicate (N + 2) I2C_IF.ACK)
          = List.replicate (N + 1) held ++ [(World.boot 5 64).lowest_energy_mode]) :=
  ⟨⟨by decide, by decide, by decide⟩,
   C32_bus_veto_balance (World.boot 5 64) I2C_TypeDef.I2C0 0x40 0xF5 0 8 true
     (by decide) (by decide) (by decide)⟩

/-! ## Bus transaction engine: after completion -/

/-- An acknowledge in `start_comm`: the command byte is transmitted and the state becomes
`command` (read) or `slave_rw` (write). -/
theorem i2c_ack_start_comm (w : World) (hs : w.i2c_sm.state = DEFINED_STATES.start_comm) :
    i2c_ack w = Outcome.ok
      { w with
        i2c_sm :=
          { w.i2c_sm with
            state := if w.i2c_sm.read then DEFINED_STATES.command else DEFINED_STATES.slave_rw }
        i2c_writes :=
          w.i2c_writes ++ [(w.i2c_sm.I2C_periph, I2C_RegWrite.TXDATA w.i2c_sm.command_)] } := by
  cases hr : w.i2c_sm.read <;> simp [i2c_ack, hr, hs, World.i2c_write]

/-- C33 (as stated, refuted). A two-byte read on the booted engine is run to completion
(`MSTOP` handled): the engine is in `start_comm` with `busy` cleared. An acknowledge received
then, before any `i2c_start`, raises no assertion: it transmits the command byte `0xF5` again
and advances the state machine to `command`. -/
theorem C33_ack_accepted_after_completion :
    ∃ w0 w1 w2 : World,
      i2c_start (World.boot 5 64) true I2C_TypeDef.I2C0 0x40 0xF5 0 8 2 true true
        = Outcome.ok w0 ∧
      i2c_run w0 (readTrace 0 0x12 0x34) = Outcome.ok w1 ∧
      w1.i2c_sm.state = DEFINED_STATES.start_comm ∧
      i2c_busy w1 = false ∧
      i2c_ack w1 = Outcome.ok w2 ∧
      w2.i2c_sm.state = DEFINED_STATES.command ∧
      w2.i2c_writes = w1.i2c_writes ++ [(I2C_TypeDef.I2C0, I2C_RegWrite.TXDATA 0xF5)] := by
  refine ⟨_, _, _, rfl, rfl, ?_, ?_, rfl, ?_, ?_⟩ <;> decide

/-- C33 (amended). After a transaction completes (`MSTOP` in `end_comm` of a read, the
acknowledge in `end_comm` of a write) the engine is in `start_comm`, the state `i2c_start`
sets, with `busy` cleared; the engine has no separate idle state. An acknowledge received
then is handled like the first acknowledge of a transaction: it raises no assertion,
transmits the stored command byte and moves to `command` (read) or `slave_rw` (write). -/
theorem C33_ack_after_completion (w : World)
    (hEM : EM2 < w.lowest_energy_mode.length)
    (h0 : 0 ≤ countAt w.lowest_energy_mode EM2)
    (hs : w.i2c_sm.state = DEFINED_STATES.end_comm) :
    (w.i2c_sm.read = true →
      ∃ w1 w2 : World,
        i2c_mstop w = Outcome.ok w1 ∧
        w1.i2c_sm.state = DEFINED_STATES.start_comm ∧ i2c_busy w1 = false ∧
        i2c_ack w1 = Outcome.ok w2 ∧
        w2.i2c_sm.state = DEFINED_STATES.command ∧
        w2.i2c_writes
          = w.i2c_writes ++ [(w.i2c_sm.I2C_periph, I2C_RegWrite.TXDATA w.i2c_sm.command_)]) ∧
    (w.i2c_sm.read = false →
      ∃ w1 w2 : World,
        i2c_ack w = Outcome.ok w1 ∧
        w1.i2c_sm.state = DEFINED_STATES.start_comm ∧ i2c_busy w1 = false ∧
        i2c_ack w1 = Outcome.ok w2 ∧
        w2.i2c_sm.state = DEFINED_STATES.slave_rw ∧
        w2.i2c_writes
          = w.i2c_writes ++ [(w.i2c_sm.I2C_periph, I2C_RegWrite.TXDATA w.i2c_sm.command_)]) := by
  have hun := sleep_unblock_mode_nonneg w.lowest_energy_mode EM2 hEM h0
  constructor
  · intro hr
    have h1 : i2c_mstop w = Outcome.ok
        { w with
          lowest_energy_mode :=
            if countAt w.lowest_energy_mode EM2 > 0 then
              w.lowest_energy_mode.set EM2 (countAt w.lowest_energy_mode EM2 - 1)
            else w.lowest_energy_mode
          event_scheduled := add_scheduled_event w.event_scheduled w.i2c_sm.callback
          i2c_sm := { w.i2c_sm with state := DEFINED_STATES.start_comm, busy := false } } := by
      simp [i2c_mstop, hr, hs, World.sleep_unblock_mode, hun, Outcome.map, Outcome.andThen,
        World.add_scheduled_event]
    refine ⟨_, _, h1, rfl, rfl, i2c_ack_start_comm _ rfl, ?_, rfl⟩
    simp [hr]
  · intro hr
    have h1 : i2c_ack w = Outcome.ok
        { w with
          lowest_energy_mode :=
            if countAt w.lowest_energy_mode EM2 > 0 then
              w.lowest_energy_mode.set EM2 (countAt w.lowest_energy_mode EM2 - 1)
            else w.lowest_energy_mode
          event_scheduled := add_scheduled_event w.event_scheduled w.i2c_sm.callback
          i2c_sm := { w.i2c_sm with state := DEFINED_STATES.start_comm, busy := false } } := by
      simp [i2c_ack, hr, hs, World.sleep_unblock_mode, hun, Outcome.map, Outcome.andThen,
        World.add_scheduled_event]
    refine ⟨_, _, h1, rfl, rfl, i2c_ack_start_comm _ rfl, ?_, rfl⟩
    simp [hr]

/-- C33 witness: a one-byte write on the booted engine, brought to `end_comm` by two
acknowledges. -/
theorem C33_ack_after_completion_witness :
    ∃ w0 w : World,
      i2c_start (World.boot 5 64) true I2C_TypeDef.I2C0 0x40 0xE6 0x3A 8 1 true false
        = Outcome.ok w0 ∧
      i2c_run w0 [I2C_IF.ACK, I2C_IF.ACK] = Outcome.ok w ∧
      (EM2 < w.lowest_energy_mode.length ∧ 0 ≤ countAt w.lowest_energy_mode EM2 ∧
        w.i2c_sm.state = DEFINED_STATES.end_comm ∧ w.i2c_sm.read = false) ∧
      ∃ w1 w2 : World,
        i2c_ack w = Outcome.ok w1 ∧
        w1.i2c_sm.state = DEFINED_STATES.start_comm ∧ i2c_busy w1 = false ∧
        i2c_ack w1 = Outcome.ok w2 ∧
        w2.i2c_sm.state = DEFINED_STATES.slave_rw ∧
        w2.i2c_writes
          = w.i2c_writes ++ [(w.i2c_sm.I2C_periph, I2C_RegWrite.TXDATA w.i2c_sm.command_)] :=
  ⟨_, _, rfl, rfl, ⟨by decide, by decide, rfl, rfl⟩,
   (C33_ack_after_completion _ (by decide) (by decide) rfl).2 rfl⟩

/-! ## Serial transmit engine: messages of length 0 and 1 -/

/-- While the incremented count never equals `string_length - 1`, `j` buffer-ready
interrupts write elements `sent_bytes, …, sent_bytes + j - 1` of the array and change nothing
else: the engine stays in `transmit`. -/
theorem leuart_txbl_stays (j : Nat) (w : World)
    (hs : w.leuart_sm.state = LEUART_STATES.transmit)
    (hno : ∀ i, i < j → w.leuart_sm.sent_bytes + i + 1 ≠ u32_sub w.leuart_sm.string_length 1)
    (hlt : w.leuart_sm.sent_bytes + j < U32) :
    leuart_txbl_times j w
      = Outcome.ok
          { w with
            leuart_sm := { w.leuart_sm with sent_bytes := w.leuart_sm.sent_bytes + j }
            LEUART0_TXDATA := w.LEUART0_TXDATA
              ++ txblWrites w.leuart_sm.string_ w.leuart_sm.sent_bytes j } := by
  induction j generalizing w with
  | zero => simp [leuart_txbl_times, txblWrites]
  | succ j ih =>
    have hm : (w.leuart_sm.sent_bytes + 1) % U32 = w.leuart_sm.sent_bytes + 1 :=
      Nat.mod_eq_of_lt (by omega)
    have hsub : ¬ (w.leuart_sm.sent_bytes + 1 = u32_sub w.leuart_sm.string_length 1) :=
      hno 0 (by omega)
    let w1 : World :=
      { w with
        leuart_sm := { w.leuart_sm with sent_bytes := w.leuart_sm.sent_bytes + 1 }
        LEUART0_TXDATA := w.LEUART0_TXDATA
          ++ [w.leuart_sm.string_.getD w.leuart_sm.sent_bytes 0 % 256] }
    have hstep : leuart_txbl w = Outcome.ok w1 := by
      simp only [leuart_txbl, hs, leuart_app_transmit_byte, hm, hsub, if_false, w1]
    have ih1 := ih w1 hs
      (by
        intro i hi
        show w.leuart_sm.sent_bytes + 1 + i + 1 ≠ u32_sub w.leuart_sm.string_length 1
        have := hno (i + 1) (by omega)
        rwa [show w.leuart_sm.sent_bytes + 1 + i + 1 = w.leuart_sm.sent_bytes + (i + 1) + 1
          by omega])
      (by show w.leuart_sm.sent_bytes + 1 + j < U32; omega)
    rw [leuart_txbl_times, hstep]
    simp only [Outcome.andThen]
    rw [ih1, txblWrites_succ w.leuart_sm.string_ w.leuart_sm.sent_bytes j]
    simp only [w1, List.append_assoc, List.singleton_append, Outcome.ok.injEq]
    rw [show w.leuart_sm.sent_bytes + 1 + j = w.leuart_sm.sent_bytes + (j + 1) by omega]

/-- When the incremented count first equals `string_length - 1` at the `(j + 1)`-th
buffer-ready interrupt after a start (`sent_bytes = 0`), that interrupt moves the engine to
`stop`, disarms the buffer-ready interrupt and arms the transmission-complete interrupt. -/
theorem leuart_txbl_stops_at (j len : Nat) (w : World)
    (hs : w.leuart_sm.state = LEUART_STATES.transmit)
    (h0 : w.leuart_sm.sent_bytes = 0) (hlen : w.leuart_sm.string_length = len)
    (hno : ∀ i, i < j → i + 1 ≠ u32_sub len 1)
    (hlt : j + 1 < U32) (heq : j + 1 = u32_sub len 1) :
    ∃ w1 : World,
      leuart_txbl_times (j + 1) w = Outcome.ok w1 ∧
      w1.leuart_sm.sent_bytes = j + 1 ∧
      w1.leuart_sm.state = LEUART_STATES.stop ∧
      w1.LEUART0_IEN_TXBL = false ∧ w1.LEUART0_IEN_TXC = true := by
  have hm : (w.leuart_sm.sent_bytes + j + 1) % U32 = j + 1 := by
    rw [h0, Nat.zero_add]
    exact Nat.mod_eq_of_lt hlt
  have hno1 : ∀ i, i < j →
      w.leuart_sm.sent_bytes + i + 1 ≠ u32_sub w.leuart_sm.string_length 1 := by
    intro i hi
    rw [h0, hlen, Nat.zero_add]
    exact hno i hi
  have hlt1 : w.leuart_sm.sent_bytes + j < U32 := by
    rw [h0, Nat.zero_add]
    omega
  rw [leuart_txbl_times_succ_last, leuart_txbl_stays j w hs hno1 hlt1]
  simp only [Outcome.andThen]
  refine ⟨{ w with
      leuart_sm :=
        { w.leuart_sm with
          sent_bytes := j + 1
          state := LEUART_STATES.stop }
      LEUART0_IEN_TXC := true
      LEUART0_IEN_TXBL := false
      LEUART0_TXDATA := (w.LEUART0_TXDATA
          ++ txblWrites w.leuart_sm.string_ w.leuart_sm.sent_bytes j)
        ++ [w.leuart_sm.string_.getD (w.leuart_sm.sent_bytes + j) 0 % 256] },
    ?_, rfl, rfl, rfl, rfl⟩
  simp only [leuart_txbl, hs, leuart_app_transmit_byte, hm, hlen]
  rw [if_pos heq]

/-- The empty message on any idle engine: `2 ^ 32 - 1` buffer-ready interrupts bring the
engine to `stop`, the sent count being `2 ^ 32 - 1`, the 32-bit value of `0 - 1`. -/
theorem leuart_empty_message_stops (LEUART_TX_EM : Nat) (w : World) (call_back : Nat)
    (hidle : leuart_tx_busy w = false)
    (hEM : LEUART_TX_EM < w.lowest_energy_mode.length)
    (h4 : countAt w.lowest_energy_mode LEUART_TX_EM + 1 < 5) :
    ∃ w0 w1 : World,
      leuart_start LEUART_TX_EM w [] call_back = Outcome.ok w0 ∧
      w0.leuart_sm.string_length = 0 ∧
      leuart_txbl_times (U32 - 1) w0 = Outcome.ok w1 ∧
      w1.leuart_sm.sent_bytes = U32 - 1 ∧
      w1.leuart_sm.state = LEUART_STATES.stop ∧
      w1.LEUART0_IEN_TXBL = false ∧ w1.LEUART0_IEN_TXC = true := by
  let w0 : World :=
    { w with
      lowest_energy_mode :=
        w.lowest_energy_mode.set LEUART_TX_EM (countAt w.lowest_energy_mode LEUART_TX_EM + 1)
      leuart_sm :=
        { state := LEUART_STATES.transmit
          string_ := strcpy w.leuart_sm.string_ []
          string_length := ([] : List Nat).length
          sent_bytes := 0
          busy := true
          callback := call_back }
      LEUART0_IEN_TXBL := true }
  have hstart : leuart_start LEUART_TX_EM w [] call_back = Outcome.ok w0 :=
    leuart_start_ok LEUART_TX_EM w [] call_back hidle hEM h4
  have hsub : u32_sub 0 1 = 4294967295 := by
    unfold u32_sub
    rw [U32_eq]
    rfl
  have hU : U32 - 1 = 4294967294 + 1 := by
    rw [U32_eq]
  obtain ⟨w1, hrun, hsent, hstate, hbl, hc⟩ := leuart_txbl_stops_at 4294967294 0 w0 rfl rfl rfl
    (by
      intro i hi
      rw [hsub]
      omega)
    (by
      rw [U32_eq]
      omega)
    (by rw [hsub])
  refine ⟨w0, w1, hstart, rfl, ?_, ?_, hstate, hbl, hc⟩
  · rw [hU]
    exact hrun
  · rw [hsent, hU]

/-- C34 (as stated, refuted). The empty message is started on the booted engine. After
`2 ^ 32 - 1` buffer-ready interrupts the sent count is `2 ^ 32 - 1`, so it has not wrapped
around, and yet the engine is in `stop` with the buffer-ready interrupt disarmed and the
transmission-complete interrupt armed: for length 0 the 32-bit value of `length - 1` is
`2 ^ 32 - 1`, which the count meets before it wraps. -/
theorem C34_empty_message_stops_below_wrap :
    (1 ≤ U32 - 1 ∧ U32 - 1 < U32) ∧
    ∃ w0 w1 : World,
      leuart_start EM3 (World.boot 5 64) [] BLE_TX_DONE_CB = Outcome.ok w0 ∧
      w0.leuart_sm.string_length = 0 ∧
      leuart_txbl_times (U32 - 1) w0 = Outcome.ok w1 ∧
      w1.leuart_sm.sent_bytes = U32 - 1 ∧
      w1.leuart_sm.state = LEUART_STATES.stop ∧
      w1.LEUART0_IEN_TXBL = false ∧ w1.LEUART0_IEN_TXC = true :=
  ⟨⟨by rw [U32_eq]; omega, by rw [U32_eq]; omega⟩,
   leuart_empty_message_stops EM3 (World.boot 5 64) BLE_TX_DONE_CB
     (by decide) (by decide) (by decide)⟩

/-- C34 (amended). A message of length 1 or 0 is started on the idle engine. For every
number `k` of buffer-ready interrupts with `1 ≤ k ≤ 2 ^ 32 - 1` (length 1) or
`1 ≤ k ≤ 2 ^ 32 - 2` (length 0, where the 32-bit value of `length - 1` is `2 ^ 32 - 1`) the
engine is not in `stop`: no assertion is raised, the sent count is `k` and differs from
`string_length - 1`, the state is still `transmit`, the buffer-ready interrupt is still armed
and the transmission-complete interrupt is not. The `i`-th interrupt (counted from 0) has
written element `i` of the array, and for every `i ≥ 1` that index is at or beyond the
message length. -/
theorem C34_short_message_never_stops (LEUART_TX_EM : Nat) (w : World) (string : List Nat)
    (call_back : Nat) (k : Nat) (hidle : leuart_tx_busy w = false)
    (hEM : LEUART_TX_EM < w.lowest_energy_mode.length)
    (h4 : countAt w.lowest_energy_mode LEUART_TX_EM + 1 < 5)
    (hlen : string.length ≤ 1) (hk1 : 1 ≤ k) (hk : k + 1 - string.length < U32) :
    ∃ w0 wk : World,
      leuart_start LEUART_TX_EM w string call_back = Outcome.ok w0 ∧
      leuart_txbl_times k w0 = Outcome.ok wk ∧
      wk.leuart_sm.state = LEUART_STATES.transmit ∧
      wk.leuart_sm.state ≠ LEUART_STATES.stop ∧
      wk.LEUART0_IEN_TXBL = true ∧
      wk.LEUART0_IEN_TXC = w.LEUART0_IEN_TXC ∧
      wk.leuart_sm.sent_bytes = k ∧
      wk.leuart_sm.sent_bytes ≠ u32_sub wk.leuart_sm.string_length 1 ∧
      wk.LEUART0_TXDATA = w.LEUART0_TXDATA ++ txblWrites w0.leuart_sm.string_ 0 k ∧
      (∀ i, 1 ≤ i → i < k → w0.leuart_sm.string_length ≤ i) := by
  let w0 : World :=
    { w with
      lowest_energy_mode :=
        w.lowest_energy_mode.set LEUART_TX_EM (countAt w.lowest_energy_mode LEUART_TX_EM + 1)
      leuart_sm :=
        { state := LEUART_STATES.transmit
          string_ := strcpy w.leuart_sm.string_ string
          string_length := string.length
          sent_bytes := 0
          busy := true
          callback := call_back }
      LEUART0_IEN_TXBL := true }
  have hstart : leuart_start LEUART_TX_EM w string call_back = Outcome.ok w0 :=
    leuart_start_ok LEUART_TX_EM w string call_back hidle hEM h4
  rw [U32_eq] at hk
  have hne : ∀ i, i + 2 - string.length < 4294967296 → i + 1 ≠ u32_sub string.length 1 := by
    intro i hi
    unfold u32_sub
    rw [U32_eq]
    split <;> omega
  have hrun := leuart_txbl_stays k w0 rfl
    (by
      intro i hi
      show 0 + i + 1 ≠ u32_sub string.length 1
      rw [Nat.zero_add]
      exact hne i (by omega))
    (by
      show 0 + k < U32
      rw [U32_eq]
      omega)
  refine ⟨w0, _, hstart, hrun, rfl, by simp, rfl, rfl, ?_, ?_, ?_, ?_⟩
  · show 0 + k = k
    omega
  · show 0 + k ≠ u32_sub string.length 1
    rw [Nat.zero_add]
    obtain ⟨j, rfl⟩ : ∃ j, k = j + 1 := ⟨k - 1, by omega⟩
    exact hne j (by omega)
  · rfl
  · intro i hi _
    show string.length ≤ i
    omega

/-- C34 witness: the one-character message `"A"` and five buffer-ready interrupts; the bytes
written are `A`, the terminating NUL and three more elements of the array. -/
theorem C34_short_message_never_stops_witness :
    (leuart_tx_busy (World.boot 5 64) = false ∧
      EM3 < (World.boot 5 64).lowest_energy_mode.length ∧
      countAt (World.boot 5 64).lowest_energy_mode EM3 + 1 < 5 ∧
      [65].length ≤ 1 ∧ 1 ≤ 5 ∧ 5 + 1 - [65].length < U32) ∧
    ∃ w0 wk : World,
      leuart_start EM3 (World.boot 5 64) [65] BLE_TX_DONE_CB = Outcome.ok w0 ∧
      leuart_txbl_times 5 w0 = Outcome.ok wk ∧
      wk.leuart_sm.state = LEUART_STATES.transmit ∧
      wk.leuart_sm.state ≠ LEUART_STATES.stop ∧
      wk.LEUART0_IEN_TXBL = true ∧
      wk.LEUART0_IEN_TXC = (World.boot 5 64).LEUART0_IEN_TXC ∧
      wk.leuart_sm.sent_bytes = 5 ∧
      wk.leuart_sm.sent_bytes ≠ u32_sub wk.leuart_sm.string_length 1 ∧
      wk.LEUART0_TXDATA
        = (World.boot 5 64).LEUART0_TXDATA ++ txblWrites w0.leuart_sm.string_ 0 5 ∧
      (∀ i, 1 ≤ i → i < 5 → w0.leuart_sm.string_length ≤ i) :=
  ⟨⟨by decide, by decide, by decide, by decide, by decide, by decide⟩,
   C34_short_message_never_stops EM3 (World.boot 5 64) [65] BLE_TX_DONE_CB 5
     (by decide) (by decide) (by decide) (by decide) (by decide) (by decide)⟩

/-! ## Bus transaction engine: reads of other lengths -/

/-- C35. For a read whose length is neither 1 nor 2, a data-ready event in `MS_byte` raises
no assertion and changes nothing at all (state, stored data, register log), so every
sequence of data-ready events leaves the engine in `MS_byte` and never brings it to
`end_comm`. -/
theorem C35_rxdatav_other_lengths (w : World) (hr : w.i2c_sm.read = true)
    (hs : w.i2c_sm.state = DEFINED_STATES.MS_byte)
    (hn1 : w.i2c_sm.numbytes ≠ 1) (hn2 : w.i2c_sm.numbytes ≠ 2) :
    (∀ RXDATA, i2c_rxdatav w RXDATA = Outcome.ok w) ∧
    (∀ xs : List Nat, i2c_run w (xs.map I2C_IF.RXDATAV) = Outcome.ok w) ∧
    (∀ xs : List Nat,
      i2c_states w (xs.map I2C_IF.RXDATAV) = List.replicate xs.length DEFINED_STATES.MS_byte) ∧
    (∀ xs : List Nat, DEFINED_STATES.end_comm ∉ i2c_states w (xs.map I2C_IF.RXDATAV)) := by
  have h1 : ∀ RXDATA, i2c_rxdatav w RXDATA = Outcome.ok w := by
    intro RXDATA
    simp only [i2c_rxdatav, hr, hs, hn1, hn2, if_true, if_false]
  have h2 : ∀ xs : List Nat, i2c_run w (xs.map I2C_IF.RXDATAV) = Outcome.ok w := by
    intro xs
    induction xs with
    | nil => rfl
    | cons x xs ih =>
      simp only [List.map_cons, i2c_run, I2C_IRQHandler, h1, Outcome.andThen]
      exact ih
  have h3 : ∀ xs : List Nat,
      i2c_states w (xs.map I2C_IF.RXDATAV)
        = List.replicate xs.length DEFINED_STATES.MS_byte := by
    intro xs
    induction xs with
    | nil => rfl
    | cons x xs ih =>
      simp only [List.map_cons, i2c_states, I2C_IRQHandler, h1, List.length_cons,
        List.replicate_succ, hs, ih]
  refine ⟨h1, h2, h3, fun xs hmem => ?_⟩
  rw [h3 xs] at hmem
  have := List.eq_of_mem_replicate hmem
  exact absurd this (by decide)

/-- C35 witness: a read of three bytes started on the booted engine and brought to `MS_byte`
by three acknowledges. -/
theorem C35_rxdatav_other_lengths_witness :
    ∃ w0 w : World,
      i2c_start (World.boot 5 64) true I2C_TypeDef.I2C0 0x40 0xF5 0 8 3 true true
        = Outcome.ok w0 ∧
      i2c_run w0 [I2C_IF.ACK, I2C_IF.ACK, I2C_IF.ACK] = Outcome.ok w ∧
      (w.i2c_sm.read = true ∧ w.i2c_sm.state = DEFINED_STATES.MS_byte ∧
        w.i2c_sm.numbytes ≠ 1 ∧ w.i2c_sm.numbytes ≠ 2) ∧
      (∀ RXDATA, i2c_rxdatav w RXDATA = Outcome.ok w) ∧
      (∀ xs : List Nat, i2c_run w (xs.map I2C_IF.RXDATAV) = Outcome.ok w) ∧
      (∀ xs : List Nat,
        i2c_states w (xs.map I2C_IF.RXDATAV)
          = List.replicate xs.length DEFINED_STATES.MS_byte) ∧
      (∀ xs : List Nat, DEFINED_STATES.end_comm ∉ i2c_states w (xs.map I2C_IF.RXDATAV)) :=
  ⟨_, _, rfl, rfl, ⟨rfl, rfl, by decide, by decide⟩,
   C35_rxdatav_other_lengths _ rfl rfl (by decide) (by decide)⟩

/-! ## Ring buffer: the accesses made by a pop -/

/-- Advancing the write index by the capacity leaves the buffer record as it was. -/
theorem update_circ_wrtindex_CSIZE (b : BLE_CIRCULAR_BUF) (hmask : b.size_mask = CSIZE - 1)
    (hw : b.write_ptr < CSIZE) : update_circ_wrtindex b CSIZE = b := by
  simp only [CSIZE] at hmask hw
  have h : ((b.write_ptr + CSIZE) % U32) &&& b.size_mask = b.write_ptr := by
    rw [hmask, land_63, U32_eq]
    simp only [CSIZE]
    omega
  unfold update_circ_wrtindex
  rw [h]

/-- C37. For a buffer set up by `ble_circ_init` and all 32-bit read and write indices,
`ble_circ_space()` lies in `1..CSIZE` and is never 0; whenever `(write - read) mod CSIZE = 0`
it is `CSIZE`. Advancing the write index by `CSIZE` slots through `update_circ_wrtindex`
gives back the same index, so afterwards `ble_circ_space` returns what it returned before
and, if the buffer was empty before (`read_ptr = write_ptr`), `ble_circ_pop` still finds
`read_ptr == write_ptr` and returns `true`: the full buffer cannot be told from the empty
one. -/
theorem C37_space_never_zero (LEUART_TX_EM : Nat) (w : World)
    (hsize : w.ble_cbuf.size = CSIZE) (hmask : w.ble_cbuf.size_mask = CSIZE - 1)
    (hr : w.ble_cbuf.read_ptr < U32) (hw : w.ble_cbuf.write_ptr < U32) :
    1 ≤ ble_circ_space w.ble_cbuf ∧ ble_circ_space w.ble_cbuf ≤ CSIZE ∧
    (((w.ble_cbuf.write_ptr : Int) - (w.ble_cbuf.read_ptr : Int)) % 64 = 0 →
      ble_circ_space w.ble_cbuf = CSIZE) ∧
    (w.ble_cbuf.write_ptr < CSIZE →
      (update_circ_wrtindex w.ble_cbuf CSIZE).write_ptr = w.ble_cbuf.write_ptr ∧
      ble_circ_space (update_circ_wrtindex w.ble_cbuf CSIZE) = ble_circ_space w.ble_cbuf ∧
      (w.ble_cbuf.read_ptr = w.ble_cbuf.write_ptr →
        ble_circ_space (update_circ_wrtindex w.ble_cbuf CSIZE) = CSIZE ∧
        ∀ (test : Bool) (stack : List Nat),
          ble_circ_pop LEUART_TX_EM
              { w with ble_cbuf := update_circ_wrtindex w.ble_cbuf CSIZE } test stack
            = Outcome.ok (true, { w with ble_cbuf := update_circ_wrtindex w.ble_cbuf CSIZE }))) := by
  have hspace : ∀ b : BLE_CIRCULAR_BUF, b.size = CSIZE → b.size_mask = CSIZE - 1 →
      b.read_ptr < U32 → b.write_ptr < U32 →
      1 ≤ ble_circ_space b ∧ ble_circ_space b ≤ 64 ∧
      (((b.write_ptr : Int) - (b.read_ptr : Int)) % 64 = 0 → ble_circ_space b = 64) := by
    intro b hs hm h1 h2
    simp only [CSIZE] at hs hm
    rw [U32_eq] at h1 h2
    simp only [ble_circ_space, hs, hm, Nat.add_one_sub_one, land_63, u32_sub, U32_eq]
    split_ifs <;> omega
  obtain ⟨h1, h2, h3⟩ := hspace w.ble_cbuf hsize hmask hr hw
  refine ⟨h1, h2, h3, fun hw64 => ?_⟩
  have hb := update_circ_wrtindex_CSIZE w.ble_cbuf hmask hw64
  rw [hb]
  refine ⟨rfl, rfl, fun hrw => ⟨h3 (by omega), fun test stack => ?_⟩⟩
  show ble_circ_pop LEUART_TX_EM w test stack = Outcome.ok (true, w)
  by_cases hbusy : leuart_tx_busy w = true
  · simp only [ble_circ_pop, hbusy, if_true]
  · simp only [ble_circ_pop, hbusy, hrw, if_true, if_false, ite_self]

/-- C37 witness: read and write index both 5. -/
theorem C37_space_never_zero_witness :
    ∃ w : World,
      w = { World.boot 5 64 with
            ble_cbuf := { (World.boot 5 64).ble_cbuf with read_ptr := 5, write_ptr := 5 } } ∧
      (w.ble_cbuf.size = CSIZE ∧ w.ble_cbuf.size_mask = CSIZE - 1 ∧
        w.ble_cbuf.read_ptr < U32 ∧ w.ble_cbuf.write_ptr < U32 ∧
        w.ble_cbuf.write_ptr < CSIZE ∧ w.ble_cbuf.read_ptr = w.ble_cbuf.write_ptr) ∧
      ble_circ_space (update_circ_wrtindex w.ble_cbuf CSIZE) = CSIZE ∧
      ∀ (test : Bool) (stack : List Nat),
        ble_circ_pop EM3 { w with ble_cbuf := update_circ_wrtindex w.ble_cbuf CSIZE } test stack
          = Outcome.ok (true, { w with ble_cbuf := update_circ_wrtindex w.ble_cbuf CSIZE }) :=
  ⟨_, rfl, ⟨by decide, by decide, by decide, by decide, by decide, by decide⟩,
   ((C37_space_never_zero EM3 _ (by decide) (by decide) (by decide) (by decide)).2.2.2
     (by decide)).2.2 (by decide)⟩

/-! ## Sleep arbiter: the two readers of the table agree -/

/-- C38. With `MAX_ENERGY_MODES = 5` (modes `EM0 … EM4`), on every veto table whose counts
are non-negative `enter_sleep` and `current_block_energy_mode` agree: `enter_sleep` takes no
sleep action exactly when `current_block_energy_mode()` is `EM0` or `EM1`, and otherwise it
enters the energy mode numbered `current_block_energy_mode() - 1`; on the all-zero table the
result is `MAX_ENERGY_MODES - 1` and `enter_sleep` enters EM3. -/
theorem C38_enter_sleep_agrees (t : SleepTable) (h0 : ∀ j, 0 ≤ countAt t j) :
    (enter_sleep t = SleepAction.noAction ↔
      current_block_energy_mode 5 t = EM0 ∨ current_block_energy_mode 5 t = EM1) ∧
    (enter_sleep t ≠ SleepAction.noAction →
      (enter_sleep t).depth = some (current_block_energy_mode 5 t - 1)) ∧
    ((∀ j, countAt t j = 0) →
      current_block_energy_mode 5 t = 5 - 1 ∧ enter_sleep t = SleepAction.EMU_EnterEM3) := by
  have key : ∀ i, (0 < countAt t i ∧ countAt t i ≠ 0) ∨ countAt t i = 0 := fun i => by
    have := h0 i
    omega
  simp only [enter_sleep, current_block_energy_mode, current_block_energy_mode_loop, EM0, EM1,
    EM2, EM3, gt_iff_lt]
  refine ⟨?_, ?_, fun hz => ?_⟩
  · rcases key 0 with ⟨p0, n0⟩ | z0 <;> rcases key 1 with ⟨p1, n1⟩ | z1 <;>
      rcases key 2 with ⟨p2, n2⟩ | z2 <;> rcases key 3 with ⟨p3, n3⟩ | z3 <;>
      simp [*]
  · rcases key 0 with ⟨p0, n0⟩ | z0 <;> rcases key 1 with ⟨p1, n1⟩ | z1 <;>
      rcases key 2 with ⟨p2, n2⟩ | z2 <;> rcases key 3 with ⟨p3, n3⟩ | z3 <;>
      simp [*, SleepAction.depth, EM1, EM2, EM3]
  · simp [hz]

/-- C38 witness: only the EM3 veto is held; `current_block_energy_mode` is 3 and `enter_sleep`
enters EM2. -/
theorem C38_enter_sleep_agrees_witness :
    (∀ j, 0 ≤ countAt [0, 0, 0, 1, 0] j) ∧
    current_block_energy_mode 5 [0, 0, 0, 1, 0] = 3 ∧
    enter_sleep [0, 0, 0, 1, 0] = SleepAction.EMU_EnterEM2 ∧
    (enter_sleep [0, 0, 0, 1, 0]).depth = some (current_block_energy_mode 5 [0, 0, 0, 1, 0] - 1) :=
  have h : ∀ j, 0 ≤ countAt [0, 0, 0, 1, 0] j := (sleepCallsTable_ok 5 [SleepCall.block EM3] _
    (sleep_open_ok 5)).2
  ⟨h, by decide, by decide, (C38_enter_sleep_agrees [0, 0, 0, 1, 0] h).2.1 (by decide)⟩

/-! ## Bus transaction engine: the data word of a write -/

/-- C39. For a write transaction of `N ≥ 1` bytes (in particular `N ≥ 2`) started by
`i2c_start`: after the command acknowledge, each of the `N` data-phase acknowledges
transmits the same value, the data word given to `i2c_start`; after `k` of them the register
log holds the command byte followed by `k` copies of that word, and the stored data word is
unchanged. It is still unchanged after the completing acknowledge. -/
theorem C39_write_repeats_data_word (w : World) (i2c : I2C_TypeDef)
    (address_slave command data_ callback N : Nat) (busy : Bool) (hN : 1 ≤ N)
    (hEM : EM2 < w.lowest_energy_mode.length)
    (h0 : 0 ≤ countAt w.lowest_energy_mode EM2)
    (h4 : countAt w.lowest_energy_mode EM2 + 1 < 5) :
    ∃ w0 : World,
      i2c_start w true i2c address_slave command data_ callback N busy false = Outcome.ok w0 ∧
      w0.i2c_sm.data = data_ ∧
      (∀ k, k ≤ N → ∃ wk : World,
        i2c_run w0 (List.replicate (k + 1) I2C_IF.ACK) = Outcome.ok wk ∧
        wk.i2c_writes = w0.i2c_writes ++
          (i2c, I2C_RegWrite.TXDATA command) :: List.replicate k (i2c, I2C_RegWrite.TXDATA data_) ∧
        wk.i2c_sm.data = data_) ∧
      (∃ wf : World,
        i2c_run w0 (List.replicate (N + 2) I2C_IF.ACK) = Outcome.ok wf ∧
        wf.i2c_writes = w0.i2c_writes ++
          (i2c, I2C_RegWrite.TXDATA command) :: List.replicate N (i2c, I2C_RegWrite.TXDATA data_) ∧
        wf.i2c_sm.data = data_) := by
  obtain ⟨n, rfl⟩ : ∃ n, N = n + 1 := ⟨N - 1, by omega⟩
  let w0 : World :=
    { w with
      lowest_energy_mode := w.lowest_energy_mode.set EM2 (countAt w.lowest_energy_mode EM2 + 1)
      i2c_sm :=
        { state := DEFINED_STATES.start_comm
          slave_address := address_slave
          command_ := command
          I2C_periph := i2c
          data := data_
          callback := callback
          numbytes := n + 1
          busy := busy
          read := false }
      i2c_writes := w.i2c_writes ++
        [(i2c, I2C_RegWrite.CMD I2C_CMD.I2C_CMD_START),
         (i2c, I2C_RegWrite.TXDATA (((address_slave <<< 1) % U32) ||| WRITE))] }
  have hstart : i2c_start w true i2c address_slave command data_ callback (n + 1) busy false
      = Outcome.ok w0 :=
    i2c_start_ok w i2c address_slave command data_ callback (n + 1) busy false hEM h4
  let wa : World :=
    { w0 with
      i2c_sm := { w0.i2c_sm with state := DEFINED_STATES.slave_rw }
      i2c_writes := w0.i2c_writes ++ [(i2c, I2C_RegWrite.TXDATA command)] }
  have hA : I2C_IRQHandler w0 I2C_IF.ACK = Outcome.ok wa := by
    simp [I2C_IRQHandler, i2c_ack, World.i2c_write, wa, w0]
  have hrun := (i2c_write_data_phase n wa rfl rfl rfl).1
  refine ⟨w0, hstart, rfl, fun k hk => ?_, ?_⟩
  · rw [List.replicate_succ, i2c_run, hA]
    simp only [Outcome.andThen]
    by_cases hj : k ≤ n
    · rw [i2c_write_data_partway k n wa rfl rfl rfl hj]
      refine ⟨_, rfl, ?_, rfl⟩
      simp [wa]
    · have hkn : k = n + 1 := by omega
      subst hkn
      rw [hrun]
      refine ⟨_, rfl, ?_, rfl⟩
      simp [afterWriteData, wa]
  · have hun := sleep_unblock_after_block w.lowest_energy_mode EM2 hEM h0
    have hlast : I2C_IRQHandler (afterWriteData wa (n + 1)) I2C_IF.ACK
        = Outcome.ok
            { afterWriteData wa (n + 1) with
              lowest_energy_mode := w.lowest_energy_mode
              event_scheduled := add_scheduled_event w.event_scheduled callback
              i2c_sm :=
                { (afterWriteData wa (n + 1)).i2c_sm with
                  state := DEFINED_STATES.start_comm, busy := false } } := by
      simp [I2C_IRQHandler, i2c_ack, afterWriteData, wa, w0, World.sleep_unblock_mode, hun,
        Outcome.map, Outcome.andThen, World.add_scheduled_event]
    have hl : List.replicate (n + 1 + 2) I2C_IF.ACK
        = I2C_IF.ACK :: (List.replicate (n + 1) I2C_IF.ACK ++ [I2C_IF.ACK]) := by
      simp [List.replicate_succ, replicate_append_cons]
    rw [hl, i2c_run, hA]
    simp only [Outcome.andThen]
    rw [i2c_run_append, hrun]
    simp only [Outcome.andThen, i2c_run, hlast]
    refine ⟨_, rfl, ?_, rfl⟩
    simp [afterWriteData, wa]

/-- C39 witness: a three-byte write of the word `0x3A` on the booted engine. -/
theorem C39_write_repeats_data_word_witness :
    (1 ≤ 3 ∧ EM2 < (World.boot 5 64).lowest_energy_mode.length ∧
      0 ≤ countAt (World.boot 5 64).lowest_energy_mode EM2 ∧
      countAt (World.boot 5 64).lowest_energy_mode EM2 + 1 < 5) ∧
    ∃ w0 : World,
      i2c_start (World.boot 5 64) true I2C_TypeDef.I2C0 0x40 0xE6 0x3A 8 3 true false
        = Outcome.ok w0 ∧
      w0.i2c_sm.data = 0x3A ∧
      (∀ k, k ≤ 3 → ∃ wk : World,
        i2c_run w0 (List.replicate (k + 1) I2C_IF.ACK) = Outcome.ok wk ∧
        wk.i2c_writes = w0.i2c_writes ++
          (I2C_TypeDef.I2C0, I2C_RegWrite.TXDATA 0xE6)
            :: List.replicate k (I2C_TypeDef.I2C0, I2C_RegWrite.TXDATA 0x3A) ∧
        wk.i2c_sm.data = 0x3A) ∧
      (∃ wf : World,
        i2c_run w0 (List.replicate (3 + 2) I2C_IF.ACK) = Outcome.ok wf ∧
        wf.i2c_writes = w0.i2c_writes ++
          (I2C_TypeDef.I2C0, I2C_RegWrite.TXDATA 0xE6)
            :: List.replicate 3 (I2C_TypeDef.I2C0, I2C_RegWrite.TXDATA 0x3A) ∧
        wf.i2c_sm.data = 0x3A) :=
  ⟨⟨by decide, by decide, by decide, by decide⟩,
   C39_write_repeats_data_word (World.boot 5 64) I2C_TypeDef.I2C0 0x40 0xE6 0x3A 8 3 true
     (by decide) (by decide) (by decide) (by decide)⟩

/-! ## Low-energy timer: start and the sleep veto -/

/-- C40. `letimer_start` does not pair its sleep vetoes. `LETIMER_STATUS_RUNNING` is a
non-zero constant and the conditions test it instead of the timer's status, so for every
value of the status register: a call with `enable = true` makes no call to
`sleep_block_mode` (it makes no call to the veto interface at all and leaves the table
unchanged), and a call with `enable = false` makes exactly one call,
`sleep_unblock_mode(LETIMER_EM)`, whether or not the timer was running. -/
theorem C40_letimer_start_unpaired (LETIMER_STATUS_RUNNING LETIMER_EM : Nat)
    (hconst : LETIMER_STATUS_RUNNING ≠ 0) (t : SleepTable) (STATUS : Nat) :
    letimer_start_calls LETIMER_STATUS_RUNNING LETIMER_EM STATUS true = [] ∧
    (∀ d, SleepCall.block d ∉ letimer_start_calls LETIMER_STATUS_RUNNING LETIMER_EM STATUS true) ∧
    letimer_start LETIMER_STATUS_RUNNING LETIMER_EM t STATUS true = Outcome.ok t ∧
    letimer_start_calls LETIMER_STATUS_RUNNING LETIMER_EM STATUS false
      = [SleepCall.unblock LETIMER_EM] ∧
    letimer_start LETIMER_STATUS_RUNNING LETIMER_EM t STATUS false
      = sleep_unblock_mode t LETIMER_EM := by
  have h1 : letimer_start_calls LETIMER_STATUS_RUNNING LETIMER_EM STATUS true = [] := by
    simp [letimer_start_calls, hconst]
  have h2 : letimer_start_calls LETIMER_STATUS_RUNNING LETIMER_EM STATUS false
      = [SleepCall.unblock LETIMER_EM] := by
    simp [letimer_start_calls, hconst]
  refine ⟨h1, fun d hd => ?_, ?_, h2, ?_⟩
  · rw [h1] at hd
    exact absurd hd (List.not_mem_nil _)
  · simp only [letimer_start, h1, runSleepCalls]
  · simp only [letimer_start, h2, runSleepCalls, SleepCall.run]
    cases sleep_unblock_mode t LETIMER_EM <;> rfl

/-- C40 witness: `LETIMER_STATUS_RUNNING = 1`, `LETIMER_EM = EM4`; the timer is stopped
(status 0), no veto is held, and the timer is started and stopped again. -/
theorem C40_letimer_start_unpaired_witness :
    (1 : Nat) ≠ 0 ∧
    letimer_start_calls 1 EM4 0 true = [] ∧
    (∀ d, SleepCall.block d ∉ letimer_start_calls 1 EM4 0 true) ∧
    letimer_start 1 EM4 (sleep_open 5) 0 true = Outcome.ok (sleep_open 5) ∧
    letimer_start_calls 1 EM4 0 false = [SleepCall.unblock EM4] ∧
    letimer_start 1 EM4 (sleep_open 5) 0 false = sleep_unblock_mode (sleep_open 5) EM4 :=
  ⟨by decide, C40_letimer_start_unpaired 1 EM4 (by decide) (sleep_open 5) 0⟩

end ECEN2370
